import Mathlib

/-!
CCMP decryption (wlantest/ccmp.c).

A shallow embedding of `ccmp_aad_nonce`, `xor_aes_block` and `ccmp_decrypt`.

Conventions of the embedding.
* A byte (`u8`) is a `Nat` below 256, a `u16` a `Nat` below 65536; truncating
  casts are written `% 65536`.
* A buffer is a `List Nat`.  Reading `n` bytes from a pointer is `os_memcpy`,
  which reads through `List.getD` so that the number of bytes read is always `n`.
* The AES primitive (crypto/aes.h), the allocator and the byte order of the host are
  parameters (`Env`); every call to the AES primitive is recorded in the result.
* The loop counter `int i` is a natural number, which is exact for frames of fewer
  than 2^31 blocks; `size_t` lengths are natural numbers.
* `wpa_hexdump` and `wpa_printf` only log and are left out.
-/

namespace Ccmp

/-! ## Constants and macros of the headers the source includes -/

/-- Modelled from the spec: `ETH_ALEN` of common/ieee802_11_defs.h (not among the
sources); a MAC address has 6 bytes. -/
def ETH_ALEN : Nat := 6

/-- Modelled from the spec: `AES_BLOCK_SIZE` of crypto/aes.h (not among the sources);
the cipher works on 16-byte blocks. -/
def AES_BLOCK_SIZE : Nat := 16

/-- Modelled from the spec: `WLAN_FC_TODS` of common/ieee802_11_defs.h (not among the
sources); the ToDS bit of frame-control. -/
def WLAN_FC_TODS : Nat := 0x0100

/-- Modelled from the spec: `WLAN_FC_FROMDS` of common/ieee802_11_defs.h (not among the
sources); the FromDS bit of frame-control. -/
def WLAN_FC_FROMDS : Nat := 0x0200

/-- Modelled from the spec: `WLAN_FC_RETRY` of common/ieee802_11_defs.h (not among the
sources); the retry bit of frame-control. -/
def WLAN_FC_RETRY : Nat := 0x0800

/-- Modelled from the spec: `WLAN_FC_PWRMGT` of common/ieee802_11_defs.h (not among the
sources); the power-management bit of frame-control. -/
def WLAN_FC_PWRMGT : Nat := 0x1000

/-- Modelled from the spec: `WLAN_FC_MOREDATA` of common/ieee802_11_defs.h (not among the
sources); the more-data bit of frame-control. -/
def WLAN_FC_MOREDATA : Nat := 0x2000

/-- Modelled from the spec: `WLAN_FC_ISWEP` of common/ieee802_11_defs.h (not among the
sources); the protected bit of frame-control. -/
def WLAN_FC_ISWEP : Nat := 0x4000

/-- Modelled from the spec: `WLAN_FC_ORDER` of common/ieee802_11_defs.h (not among the
sources); the order bit of frame-control. -/
def WLAN_FC_ORDER : Nat := 0x8000

/-- Modelled from the spec: `WLAN_FC_TYPE_MGMT` of common/ieee802_11_defs.h (not among
the sources); frame type 0 is management. -/
def WLAN_FC_TYPE_MGMT : Nat := 0

/-- Modelled from the spec: `WLAN_FC_TYPE_DATA` of common/ieee802_11_defs.h (not among
the sources); frame type 2 is data. -/
def WLAN_FC_TYPE_DATA : Nat := 2

/-- Modelled from the spec: `WLAN_FC_GET_TYPE` of common/ieee802_11_defs.h (not among the
sources); the type is bits 2-3 of frame-control. -/
def WLAN_FC_GET_TYPE (fc : Nat) : Nat := (fc &&& 0x000c) >>> 2

/-- Modelled from the spec: `WLAN_FC_GET_STYPE` of common/ieee802_11_defs.h (not among
the sources); the subtype is bits 4-7 of frame-control. -/
def WLAN_FC_GET_STYPE (fc : Nat) : Nat := (fc &&& 0x00f0) >>> 4

/-- The `u16` value of `~m`, as used in `fc &= ~m` on a `u16`. -/
def not16 (m : Nat) : Nat := 0xffff ^^^ m

/-- Modelled from the spec: `WPA_PUT_LE16(a, val)` of utils/common.h (not among the
sources): `a[1] = ((u16) val) >> 8; a[0] = ((u16) val) & 0xff`.  The two bytes
written, in memory order. -/
def WPA_PUT_LE16 (val : Nat) : List Nat :=
  [(val % 65536) &&& 0xff, (val % 65536) >>> 8]

/-- Modelled from the spec: `WPA_PUT_BE16(a, val)` of utils/common.h (not among the
sources): `a[0] = ((u16) val) >> 8; a[1] = ((u16) val) & 0xff`.  The two bytes
written, in memory order. -/
def WPA_PUT_BE16 (val : Nat) : List Nat :=
  [(val % 65536) >>> 8, (val % 65536) &&& 0xff]

/-- Modelled from the spec: `os_memcpy` of utils/os.h (not among the sources), the
`memcpy` of C.  The `n` bytes that `os_memcpy(dst, src, n)` reads from `src`; a byte
past the end of the list reads as 0. -/
def os_memcpy (src : List Nat) (n : Nat) : List Nat :=
  (List.range n).map (fun k => src.getD k 0)

/-- The buffer `buf` after `bytes` have been stored at offset `off`. -/
def put_at (buf : List Nat) (off : Nat) (bytes : List Nat) : List Nat :=
  buf.take off ++ bytes ++ buf.drop (off + bytes.length)

/-- Modelled from the spec: `os_memcmp` of utils/os.h (not among the sources), the
`memcmp` of C: zero exactly when the first `n` bytes agree, otherwise the difference of
the first two bytes that differ. -/
def os_memcmp (s1 s2 : List Nat) : Nat → Int
  | 0 => 0
  | n + 1 =>
    if s1.getD 0 0 = s2.getD 0 0 then os_memcmp s1.tail s2.tail n
    else (s1.getD 0 0 : Int) - (s2.getD 0 0 : Int)

/-! ## The 802.11 header -/

/-- The `struct ieee80211_hdr` that `ccmp_aad_nonce` reads, with the 16-bit fields in
host order (after `le_to_host16`), together with `body`, the bytes that follow the
header in the frame buffer (`hdr + 1`): address 4 when ToDS and FromDS are both set,
then the QoS-control field of a QoS data frame. -/
structure ieee80211_hdr where
  frame_control : Nat
  duration_id : Nat
  addr1 : List Nat
  addr2 : List Nat
  addr3 : List Nat
  seq_ctrl : Nat
  body : List Nat
  deriving DecidableEq

/-- What `ccmp_aad_nonce` stores through its three output pointers. -/
structure AadNonce where
  aad : List Nat
  aad_len : Nat
  nonce : List Nat
  deriving DecidableEq

/-- The locals `fc`, `qos` and `nonce[0]` of `ccmp_aad_nonce` after the type
dispatch (source lines 38-50). -/
structure FcQos where
  fc : Nat
  qos : Nat
  nonce0 : Nat
  deriving DecidableEq

/-- Lines 32-50 of `ccmp_aad_nonce`: the type dispatch. -/
def ccmp_fc_qos (hdr : ieee80211_hdr) : FcQos :=
  let fc := hdr.frame_control % 65536
  let stype := WLAN_FC_GET_STYPE fc
  let addr4 : Nat :=
    if fc &&& (WLAN_FC_TODS ||| WLAN_FC_FROMDS) = (WLAN_FC_TODS ||| WLAN_FC_FROMDS) then 1 else 0
  if WLAN_FC_GET_TYPE fc = WLAN_FC_TYPE_DATA then
    let fc1 := fc &&& not16 0x0070
    if stype &&& 0x08 ≠ 0 then
      let fc2 := fc1 &&& not16 WLAN_FC_ORDER
      let qc := if addr4 = 1 then hdr.body.drop ETH_ALEN else hdr.body
      { fc := fc2, qos := 1, nonce0 := qc.getD 0 0 &&& 0x0f }
    else
      { fc := fc1, qos := 0, nonce0 := 0 }
  else if WLAN_FC_GET_TYPE fc = WLAN_FC_TYPE_MGMT then
    { fc := fc, qos := 0, nonce0 := 0 ||| 0x10 }
  else
    { fc := fc, qos := 0, nonce0 := 0 }

/-- The function `ccmp_aad_nonce(hdr, data, aad, aad_len, nonce)`: `aad` is the bytes
stored from `aad[0]` up to the final `pos`, `aad_len` is `pos - aad`, `nonce` the 13
bytes stored. -/
def ccmp_aad_nonce (hdr : ieee80211_hdr) (data : List Nat) : AadNonce :=
  let fc0 := hdr.frame_control % 65536
  let addr4 : Nat :=
    if fc0 &&& (WLAN_FC_TODS ||| WLAN_FC_FROMDS) = (WLAN_FC_TODS ||| WLAN_FC_FROMDS) then 1 else 0
  let d := ccmp_fc_qos hdr
  let fc := (d.fc &&& not16 (WLAN_FC_RETRY ||| WLAN_FC_PWRMGT ||| WLAN_FC_MOREDATA)) ||| WLAN_FC_ISWEP
  let seq := (hdr.seq_ctrl % 65536) &&& not16 0xfff0
  let buf := WPA_PUT_LE16 fc
    ++ os_memcpy (hdr.addr1 ++ hdr.addr2 ++ hdr.addr3) (3 * ETH_ALEN)
    ++ WPA_PUT_LE16 seq
    ++ os_memcpy hdr.body (addr4 * ETH_ALEN + d.qos * 2)
  let pos := 2 + 3 * ETH_ALEN + 2 + addr4 * ETH_ALEN
  let buf1 :=
    if d.qos ≠ 0 then
      let b1 := buf.set pos (buf.getD pos 0 &&& 0x70)
      let b2 := b1.set pos (b1.getD pos 0 &&& 0x80)
      b2.set (pos + 1) 0x00
    else buf
  let pos1 := if d.qos ≠ 0 then pos + 2 else pos
  { aad := buf1,
    aad_len := pos1,
    nonce := d.nonce0 :: (os_memcpy hdr.addr2 ETH_ALEN ++
      [data.getD 7 0, data.getD 6 0, data.getD 5 0, data.getD 4 0, data.getD 1 0, data.getD 0 0]) }

/-! ## Block operations -/

/-- A `u32` load from `p + 4 * k` on a host that is little-endian (`le = true`) or
big-endian. -/
def load_u32 (le : Bool) (p : List Nat) (k : Nat) : Nat :=
  let b0 := p.getD (4 * k) 0
  let b1 := p.getD (4 * k + 1) 0
  let b2 := p.getD (4 * k + 2) 0
  let b3 := p.getD (4 * k + 3) 0
  if le then b0 + 256 * b1 + 65536 * b2 + 16777216 * b3
  else b3 + 256 * b2 + 65536 * b1 + 16777216 * b0

/-- The four bytes a `u32` store of `w` writes, in memory order. -/
def store_u32 (le : Bool) (w : Nat) : List Nat :=
  if le then [w % 256, w / 256 % 256, w / 65536 % 256, w / 16777216 % 256]
  else [w / 16777216 % 256, w / 65536 % 256, w / 256 % 256, w % 256]

/-- The function `xor_aes_block(dst, src)`: the 16 bytes of `dst` after the four word
XORs `*d++ ^= *s++`, on a host of byte order `le`. -/
def xor_aes_block (le : Bool) (dst src : List Nat) : List Nat :=
  store_u32 le (load_u32 le dst 0 ^^^ load_u32 le src 0)
    ++ store_u32 le (load_u32 le dst 1 ^^^ load_u32 le src 1)
    ++ store_u32 le (load_u32 le dst 2 ^^^ load_u32 le src 2)
    ++ store_u32 le (load_u32 le dst 3 ^^^ load_u32 le src 3)

/-- The byte loop `for (i = 0; i < n; i++) dst[i] ^= src[i]`: the first `n` bytes of
`dst` afterwards. -/
def xor_bytes : Nat → List Nat → List Nat → List Nat
  | 0, _, _ => []
  | n + 1, dst, src => (dst.getD 0 0 ^^^ src.getD 0 0) :: xor_bytes n dst.tail src.tail

/-! ## The environment of `ccmp_decrypt` -/

/-- What `ccmp_decrypt` takes from its environment: the byte order of the host, the
allocator (`os_malloc n` succeeds or not) and the AES primitive of crypto/aes.h, whose
context type is `κ`. -/
structure Env (κ : Type) where
  host_le : Bool
  os_malloc : Nat → Bool
  aes_encrypt_init : List Nat → Nat → Option κ
  aes_encrypt : κ → List Nat → List Nat

/-- A call made to the AES primitive. -/
inductive AesCall where
  | init (key : List Nat) (len : Nat)
  | encrypt (block : List Nat)
  | deinit
  deriving DecidableEq

/-- What a call of `ccmp_decrypt` leaves behind: the returned pointer (`none` is
`NULL`, `some p` a buffer whose first `mlen` bytes are `p`), the value stored in
`*decrypted_len` (`none`: nothing was stored) and the calls made to the AES
primitive, in order. -/
structure DecryptResult where
  plain : Option (List Nat)
  decrypted_len : Option Nat
  aes_calls : List AesCall
  deriving DecidableEq

/-- The state of the decryption pass (lines 150-166): the counter `i`, the counter block
`a`, the bytes stored through `ppos` so far (`out`), the input from `mpos` on and the
calls made to the AES primitive. -/
structure CtrState where
  i : Nat
  a : List Nat
  out : List Nat
  mpos : List Nat
  calls : List AesCall
  deriving DecidableEq

/-- Lines 152-159: `n` rounds of the loop `for (i = 1; i <= mlen / 16; i++)`, from
counter `i`, counter block `a` and input position `mpos`.  `out` is what the rounds
store through `ppos`. -/
def ctr_loop (le : Bool) (E : List Nat → List Nat) :
    Nat → Nat → List Nat → List Nat → CtrState
  | 0, i, a, mpos => { i := i, a := a, out := [], mpos := mpos, calls := [] }
  | n + 1, i, a, mpos =>
    let a1 := put_at a 14 (WPA_PUT_BE16 i)
    let s := E a1
    let blk := xor_aes_block le s mpos
    let r := ctr_loop le E n (i + 1) a1 (mpos.drop AES_BLOCK_SIZE)
    { i := r.i, a := r.a, out := blk ++ r.out, mpos := r.mpos,
      calls := AesCall.encrypt a1 :: r.calls }

/-- The state of the authentication pass (lines 176-200): the chaining value `x`, the
plaintext from `ppos` on and the calls made to the AES primitive. -/
structure CbcState where
  x : List Nat
  ppos : List Nat
  calls : List AesCall
  deriving DecidableEq

/-- Lines 189-194: `n` rounds of the loop `for (i = 0; i < mlen / 16; i++)`, from
chaining value `x` and position `ppos` in the plaintext. -/
def cbc_loop (le : Bool) (E : List Nat → List Nat) :
    Nat → List Nat → List Nat → CbcState
  | 0, x, ppos => { x := x, ppos := ppos, calls := [] }
  | n + 1, x, ppos =>
    let x1 := xor_aes_block le x ppos
    let r := cbc_loop le E n (E x1) (ppos.drop AES_BLOCK_SIZE)
    { x := r.x, ppos := r.ppos, calls := AesCall.encrypt x1 :: r.calls }

/-- Lines 150-166 of `ccmp_decrypt`, the decryption pass: from the counter block `a`
(counter 0) and the payload position `m`, the `mlen` bytes stored in `plain` (`out`) and
the calls made to the AES primitive. -/
def ccmp_ctr (le : Bool) (E : List Nat → List Nat) (a m : List Nat) (mlen : Nat) : CtrState :=
  let last := mlen % AES_BLOCK_SIZE
  let c := ctr_loop le E (mlen / AES_BLOCK_SIZE) 1 a m
  if last ≠ 0 then
    let aL := put_at c.a 14 (WPA_PUT_BE16 c.i)
    { i := last, a := aL, out := c.out ++ xor_bytes last (E aL) c.mpos,
      mpos := c.mpos.drop last, calls := c.calls ++ [AesCall.encrypt aL] }
  else c

/-- Lines 176-200 of `ccmp_decrypt`, the authentication pass: from the block `b`, the
32-byte buffer `aad` and the `mlen` bytes of `plain`, the final chaining value `x` and
the calls made to the AES primitive. -/
def ccmp_auth (le : Bool) (E : List Nat → List Nat) (b aad plain : List Nat) (mlen : Nat) :
    CbcState :=
  let last := mlen % AES_BLOCK_SIZE
  let x1 := E b
  let aad1 := xor_aes_block le aad x1
  let x2 := E aad1
  let aad2 := xor_aes_block le (aad.drop AES_BLOCK_SIZE) x2
  let x3 := E aad2
  let f := cbc_loop le E (mlen / AES_BLOCK_SIZE) x3 plain
  let head := [AesCall.encrypt b, AesCall.encrypt aad1, AesCall.encrypt aad2]
  if last ≠ 0 then
    let xL := xor_bytes last f.x f.ppos ++ f.x.drop last
    { x := E xL, ppos := f.ppos.drop last, calls := head ++ f.calls ++ [AesCall.encrypt xL] }
  else
    { x := f.x, ppos := f.ppos, calls := head ++ f.calls }

/-- The function `ccmp_decrypt(tk, hdr, data, data_len, decrypted_len)`, with
`data_len = data.length`. -/
def ccmp_decrypt {κ : Type} (env : Env κ) (tk : List Nat) (hdr : ieee80211_hdr)
    (data : List Nat) : DecryptResult :=
  let data_len := data.length
  if data_len < 8 + 8 then
    { plain := none, decrypted_len := none, aes_calls := [] }
  else if env.os_malloc data_len = false then
    { plain := none, decrypted_len := none, aes_calls := [] }
  else
    match env.aes_encrypt_init tk 16 with
    | none => { plain := none, decrypted_len := none, aes_calls := [AesCall.init tk 16] }
    | some aes =>
      let E := env.aes_encrypt aes
      let m := data.drop 8
      let mlen := data_len - 8 - 8
      -- lines 126-128
      let an := ccmp_aad_nonce hdr data
      let aad := put_at (put_at (List.replicate (2 + 30) 0) 2 an.aad) 0 (WPA_PUT_BE16 an.aad_len)
      -- lines 135-136
      let a := put_at (put_at (List.replicate AES_BLOCK_SIZE 0) 0 [0x01]) 1 (os_memcpy an.nonce 13)
      -- lines 140-146
      let mic := data.drop (data_len - 8)
      let a0 := put_at a 14 (WPA_PUT_BE16 0)
      let x0 := E a0
      let t := (List.range 8).map (fun i => mic.getD i 0 ^^^ x0.getD i 0)
      -- lines 150-166
      let c := ccmp_ctr env.host_le E a0 m mlen
      let plain := c.out
      -- lines 171-173
      let b := put_at (put_at (put_at (List.replicate AES_BLOCK_SIZE 0) 0 [0x40 ||| (3 <<< 3) ||| 1])
        1 (os_memcpy an.nonce 13)) 14 (WPA_PUT_BE16 mlen)
      -- lines 176-200
      let f := ccmp_auth env.host_le E b aad plain mlen
      let calls := [AesCall.init tk 16, AesCall.encrypt a0] ++ c.calls ++ f.calls
        ++ [AesCall.deinit]
      -- lines 204-212
      if os_memcmp f.x t 8 ≠ 0 then
        { plain := none, decrypted_len := none, aes_calls := calls }
      else
        { plain := some plain, decrypted_len := some mlen, aes_calls := calls }

/-! ## Well-formedness of inputs -/

/-- Every element of the buffer is a byte. -/
def IsBytes (l : List Nat) : Prop := ∀ x ∈ l, x < 256

instance (l : List Nat) : Decidable (IsBytes l) := by
  unfold IsBytes; infer_instance

/-- The contract of `aes_encrypt`: it stores a 16-byte block. -/
def CipherOK (E : List Nat → List Nat) : Prop :=
  ∀ b, (E b).length = 16 ∧ IsBytes (E b)

/-- The byte arrays of the header hold bytes. -/
def HdrBytes (hdr : ieee80211_hdr) : Prop :=
  IsBytes hdr.addr1 ∧ IsBytes hdr.addr2 ∧ IsBytes hdr.addr3 ∧ IsBytes hdr.body

instance (hdr : ieee80211_hdr) : Decidable (HdrBytes hdr) := by
  unfold HdrBytes; infer_instance

/-! ## The blocks of CCM as the code builds them -/

/-- The buffer `a` after `WPA_PUT_BE16(&a[14], i)`. -/
def ctr_block (nonce : List Nat) (i : Nat) : List Nat :=
  0x01 :: (nonce ++ WPA_PUT_BE16 i)

/-- The buffer `b` after line 173. -/
def mac_block0 (nonce : List Nat) (mlen : Nat) : List Nat :=
  0x59 :: (nonce ++ WPA_PUT_BE16 mlen)

/-- The 32-byte buffer `aad` after line 128. -/
def aad_buffer (an : AadNonce) : List Nat :=
  WPA_PUT_BE16 an.aad_len ++ an.aad ++ List.replicate (30 - an.aad.length) 0

/-- The closed form of what lines 150-166 store in `plain`: byte `j` of the input `m`
XORed with byte `j mod 16` of the encrypted counter block `1 + j / 16`. -/
def ctr_plain (E : List Nat → List Nat) (nonce m : List Nat) (mlen : Nat) : List Nat :=
  (List.range mlen).map
    (fun j => (E (ctr_block nonce (1 + j / 16))).getD (j % 16) 0 ^^^ m.getD j 0)

/-- The tag `t` of lines 140-146: the last 8 bytes of the frame XORed with the first 8
bytes of the encrypted counter block 0. -/
def mic_t (E : List Nat → List Nat) (nonce data : List Nat) : List Nat :=
  (List.range 8).map
    (fun i => (data.drop (data.length - 8)).getD i 0 ^^^ (E (ctr_block nonce 0)).getD i 0)

/-! ## The reference CBC-MAC of CCM, in the words of the specification -/

/-- In the words of the specification: a byte string zero-padded to a 16-byte boundary. -/
def ccm_pad (l : List Nat) : List Nat :=
  l ++ List.replicate ((16 - l.length % 16) % 16) 0

/-- In the words of the specification: the first `n` consecutive 16-byte blocks of a byte
string. -/
def ccm_split : Nat → List Nat → List (List Nat)
  | 0, _ => []
  | n + 1, l => l.take 16 :: ccm_split n (l.drop 16)

/-- In the words of the specification: the 16-byte blocks of a byte string, the final
partial block zero-padded. -/
def ccm_blocks (l : List Nat) : List (List Nat) :=
  ccm_split ((l.length + 15) / 16) (ccm_pad l)

/-- In the words of the specification: the byte-wise XOR of two blocks. -/
def ccm_xor (x blk : List Nat) : List Nat :=
  List.zipWith (fun u v => u ^^^ v) x blk

/-- In the words of the specification: the CBC-MAC chain of CCM, `X_1 = E(B_0)`, then
`X := E(X XOR block)` over each 16-byte block of the length-prefixed AAD and then of the
plaintext, each zero-padded on its own. -/
def ccm_cbc_mac (E : List Nat → List Nat) (b0 aad p : List Nat) : List Nat :=
  (ccm_blocks aad ++ ccm_blocks p).foldl (fun x blk => E (ccm_xor x blk)) (E b0)

/-- In the words of the specification: the two bytes of a big-endian 16-bit field that holds
`v`. -/
def ccm_be16 (v : Nat) : List Nat := [v / 256 % 256, v % 256]

/-- In the words of the specification: the counter block `A_i`, flags byte `0x01`, the
nonce, the big-endian 16-bit counter `i`. -/
def ccm_A (nonce : List Nat) (i : Nat) : List Nat := 0x01 :: (nonce ++ ccm_be16 i)

/-- In the words of the specification: the block `B_0`, flags byte `0x40 | (3 << 3) | 1`,
the nonce, the big-endian 16-bit payload length. -/
def ccm_B0 (nonce : List Nat) (len : Nat) : List Nat := 0x59 :: (nonce ++ ccm_be16 len)

/-- In the words of the specification: the key stream `S_i S_(i+1) ...` of `n` blocks, with
`S_i = E(K, A_i)`. -/
def ccm_keystream (E : List Nat → List Nat) (nonce : List Nat) : Nat → Nat → List Nat
  | 0, _ => []
  | n + 1, i => E (ccm_A nonce i) ++ ccm_keystream E nonce n (i + 1)

/-- In the words of the specification: the companion CCM encryption, which is not part of
the repository.  The frame is the CCMP header, then the plaintext `p` XORed with
`S_1 S_2 ...` truncated to the length of `p`, then the first 8 bytes of the CBC-MAC over
`B_0`, the length-prefixed AAD and `p`, XORed with the first 8 bytes of `S_0`; AAD and
nonce are those `ccmp_aad_nonce` derives from the header and the CCMP header. -/
def ccm_encrypt (E : List Nat → List Nat) (hdr : ieee80211_hdr) (ccmp_hdr p : List Nat) :
    List Nat :=
  let an := ccmp_aad_nonce hdr ccmp_hdr
  let c := ccm_xor p ((ccm_keystream E an.nonce ((p.length + 15) / 16) 1).take p.length)
  let x := ccm_cbc_mac E (ccm_B0 an.nonce p.length) (ccm_be16 an.aad_len ++ an.aad) p
  ccmp_hdr ++ c ++ ccm_xor (x.take 8) ((E (ccm_A an.nonce 0)).take 8)

/-! ## A frame's decrypted payload and CBC-MAC -/

/-- The payload of the frame `data` decrypted in counter mode under the nonce that
`ccmp_aad_nonce` derives: `data.length - 16` bytes. -/
def frame_plain (E : List Nat → List Nat) (hdr : ieee80211_hdr) (data : List Nat) : List Nat :=
  ctr_plain E (ccmp_aad_nonce hdr data).nonce (data.drop 8) (data.length - 16)

/-- The final CBC-MAC chaining value `X` of a frame: the reference CBC-MAC over `B_0`,
the length-prefixed AAD and the decrypted payload. -/
def frame_mac (E : List Nat → List Nat) (hdr : ieee80211_hdr) (data : List Nat) : List Nat :=
  ccm_cbc_mac E (mac_block0 (ccmp_aad_nonce hdr data).nonce (data.length - 16))
    (WPA_PUT_BE16 (ccmp_aad_nonce hdr data).aad_len ++ (ccmp_aad_nonce hdr data).aad)
    (frame_plain E hdr data)

/-- The 8-byte tag CCM computes for a frame: the first 8 bytes of the final CBC-MAC
chaining value XORed with the first 8 bytes of `S_0 = E(K, A_0)`. -/
def frame_tag (E : List Nat → List Nat) (hdr : ieee80211_hdr) (data : List Nat) : List Nat :=
  ccm_xor ((frame_mac E hdr data).take 8)
    ((E (0x01 :: ((ccmp_aad_nonce hdr data).nonce ++ [0x00, 0x00]))).take 8)

/-! ## A concrete environment and concrete frames -/

/-- A keyed permutation of the 16-byte blocks, standing in for the block cipher: the
two halves of the block swapped, the key added byte by byte modulo 256. -/
def toy_encrypt (key block : List Nat) : List Nat :=
  (List.range 16).map (fun k => (block.getD ((k + 8) % 16) 0 + key.getD k 0) % 256)

/-- An environment on a little-endian host in which allocation succeeds and the block
cipher is `toy_encrypt`. -/
def toy_env : Env (List Nat) :=
  { host_le := true,
    os_malloc := fun _ => true,
    aes_encrypt_init := fun key _ => some key,
    aes_encrypt := toy_encrypt }

/-- A 16-byte temporal key. -/
def tk0 : List Nat :=
  [0xc9, 0x7c, 0x1f, 0x67, 0xce, 0x37, 0x11, 0x85, 0x51, 0x4a, 0x8a, 0x19, 0xf2, 0xbd, 0xd5, 0x2f]

/-- A QoS data frame header (ToDS set, three addresses) with TID 5. -/
def hdr0 : ieee80211_hdr :=
  { frame_control := 0x4188,
    duration_id := 0x002c,
    addr1 := [0x0f, 0xd2, 0xe1, 0x28, 0xa5, 0x7c],
    addr2 := [0x50, 0x30, 0xf1, 0x84, 0x44, 0x08],
    addr3 := [0xab, 0xae, 0xa5, 0xb8, 0xfc, 0xba],
    seq_ctrl := 0x3380,
    body := [0x05, 0x00] }

/-- An 8-byte CCMP header (packet number 0xb5039776e70c, key id 0). -/
def ccmp_hdr0 : List Nat := [0x0c, 0xe7, 0x00, 0x20, 0x76, 0x97, 0x03, 0xb5]

/-- A 20-byte plaintext. -/
def msg0 : List Nat :=
  [0xf8, 0xba, 0x1a, 0x55, 0xd0, 0x2f, 0x85, 0xae, 0x96, 0x7b, 0xb6, 0x2f, 0xb6, 0xcd, 0xa8, 0xeb,
   0x7e, 0x78, 0xa0, 0x50]

/-- The frame that carries `msg0` under `toy_encrypt tk0`: CCMP header, 20 bytes of
ciphertext, 8 bytes of MIC. -/
def frame0 : List Nat :=
  [12, 231, 0, 32, 118, 151, 3, 181,
   134, 197, 172, 136, 101, 108, 148, 40, 196, 52, 108, 102, 85, 140, 177, 220, 0, 7, 22, 141,
   4, 34, 16, 20, 223, 221, 40, 250]

/-- The frame `frame0` with the last bit of its MIC flipped. -/
def frame0_bad_mic : List Nat :=
  [12, 231, 0, 32, 118, 151, 3, 181,
   134, 197, 172, 136, 101, 108, 148, 40, 196, 52, 108, 102, 85, 140, 177, 220, 0, 7, 22, 141,
   4, 34, 16, 20, 223, 221, 40, 251]

/-- A frame without payload under `toy_encrypt tk0`: CCMP header and 8 bytes of MIC. -/
def frame_empty : List Nat :=
  [12, 231, 0, 32, 118, 151, 3, 181, 230, 82, 81, 193, 207, 198, 199, 228]

/-- A frame of 15 bytes. -/
def frame_short : List Nat :=
  [12, 231, 0, 32, 118, 151, 3, 181, 230, 82, 81, 193, 207, 198, 199]

/-- The frame `frame_empty` with the last bit of its MIC flipped. -/
def frame_empty_bad_mic : List Nat :=
  [12, 231, 0, 32, 118, 151, 3, 181, 230, 82, 81, 193, 207, 198, 199, 229]

/-- The header `hdr0` with the retry, power-management and more-data bits set. -/
def hdr0_mutable : ieee80211_hdr := { hdr0 with frame_control := 0x7988 }

/-! ## Fields of the header and of the AAD -/

/-- The local `fc` of `ccmp_aad_nonce` after line 53, the frame-control value that line 54
stores in the AAD. -/
def ccmp_fc (hdr : ieee80211_hdr) : Nat :=
  ((ccmp_fc_qos hdr).fc &&& not16 (WLAN_FC_RETRY ||| WLAN_FC_PWRMGT ||| WLAN_FC_MOREDATA))
    ||| WLAN_FC_ISWEP

/-- The frame has four addresses: ToDS and FromDS are both set (lines 34-36). -/
def four_addr (hdr : ieee80211_hdr) : Prop :=
  (hdr.frame_control % 65536) &&& (WLAN_FC_TODS ||| WLAN_FC_FROMDS)
    = (WLAN_FC_TODS ||| WLAN_FC_FROMDS)

instance (hdr : ieee80211_hdr) : Decidable (four_addr hdr) := by
  unfold four_addr; infer_instance

/-- The frame is a data frame (line 38). -/
def data_frame (hdr : ieee80211_hdr) : Prop :=
  WLAN_FC_GET_TYPE (hdr.frame_control % 65536) = WLAN_FC_TYPE_DATA

instance (hdr : ieee80211_hdr) : Decidable (data_frame hdr) := by
  unfold data_frame; infer_instance

/-- The frame is a management frame (line 49). -/
def mgmt_frame (hdr : ieee80211_hdr) : Prop :=
  WLAN_FC_GET_TYPE (hdr.frame_control % 65536) = WLAN_FC_TYPE_MGMT

instance (hdr : ieee80211_hdr) : Decidable (mgmt_frame hdr) := by
  unfold mgmt_frame; infer_instance

/-- The frame is a data frame with the QoS subtype bit set (lines 38 and 40). -/
def qos_data (hdr : ieee80211_hdr) : Prop :=
  data_frame hdr ∧ WLAN_FC_GET_STYPE (hdr.frame_control % 65536) &&& 0x08 ≠ 0

instance (hdr : ieee80211_hdr) : Decidable (qos_data hdr) := by
  unfold qos_data; infer_instance

/-- The 32-byte buffer `aad` of `ccmp_decrypt` after lines 126-128. -/
def ccmp_aad_buf (hdr : ieee80211_hdr) (data : List Nat) : List Nat :=
  put_at (put_at (List.replicate (2 + 30) 0) 2 (ccmp_aad_nonce hdr data).aad) 0
    (WPA_PUT_BE16 (ccmp_aad_nonce hdr data).aad_len)

/-- In the words of the specification: the two bytes of a little-endian 16-bit field that
holds `v`. -/
def ccm_le16 (v : Nat) : List Nat := [v % 256, v / 256 % 256]

/-- A data frame without QoS whose subtype has bit 4 set (subtype 1), three addresses. -/
def hdr_data1 : ieee80211_hdr := { hdr0 with frame_control := 0x0018, body := [] }

/-- A management frame (subtype 13) with the retry, power-management, more-data and order
bits set. -/
def hdr_mgmt : ieee80211_hdr := { hdr0 with frame_control := 0xb8d0, body := [] }

/-! ## Unprotected header bits and long frames -/

/-- In the words of the specification: the frame-control bits in which two headers may
differ without a change of the AAD: subtype bits 4-6 of a data frame, and also the order
bit of a QoS data frame. -/
def unprotected_fc (hdr : ieee80211_hdr) : Nat :=
  if qos_data hdr then 0x0070 ||| WLAN_FC_ORDER else if data_frame hdr then 0x0070 else 0

/-- The offset of the QoS-control field behind the 24-byte header (lines 43-45): behind
address 4 when the frame has four addresses. -/
def qos_offset (hdr : ieee80211_hdr) : Nat :=
  if four_addr hdr then ETH_ALEN else 0

/-- The header `hdr0` with another sequence number, other subtype bits 4-6, the order bit
set and other QoS-control bits outside the low nibble of the first byte. -/
def hdr0_unprot : ieee80211_hdr :=
  { hdr0 with frame_control := 0xc1f8, seq_ctrl := 0xfff0, body := [0xf5, 0xff] }

/-- A frame of zero bytes whose payload has 65536 blocks. -/
def frame_long : List Nat := List.replicate (16 + 65536 * 16) 0

/-! ## Lemmas on bytes and blocks -/

theorem xor_split (k a b x y : Nat) (ha : a < 2 ^ k) (hb : b < 2 ^ k) :
    (a + 2 ^ k * x) ^^^ (b + 2 ^ k * y) = (a ^^^ b) + 2 ^ k * (x ^^^ y) := by
  apply Nat.eq_of_testBit_eq
  intro j
  have hab : a ^^^ b < 2 ^ k := Nat.xor_lt_two_pow ha hb
  rw [Nat.testBit_xor, Nat.add_comm a, Nat.add_comm b, Nat.add_comm (a ^^^ b),
    Nat.testBit_mul_pow_two_add _ ha, Nat.testBit_mul_pow_two_add _ hb,
    Nat.testBit_mul_pow_two_add _ hab]
  split <;> simp

theorem xor_byte_lt {a b : Nat} (ha : a < 256) (hb : b < 256) : a ^^^ b < 256 :=
  Nat.xor_lt_two_pow (n := 8) ha hb

theorem xor_word (a0 a1 a2 a3 b0 b1 b2 b3 : Nat)
    (h0 : a0 < 256) (h1 : a1 < 256) (h2 : a2 < 256)
    (g0 : b0 < 256) (g1 : b1 < 256) (g2 : b2 < 256) :
    (a0 + 256 * a1 + 65536 * a2 + 16777216 * a3) ^^^ (b0 + 256 * b1 + 65536 * b2 + 16777216 * b3)
      = (a0 ^^^ b0) + 256 * (a1 ^^^ b1) + 65536 * (a2 ^^^ b2) + 16777216 * (a3 ^^^ b3) := by
  have e1 : ∀ c0 c1 c2 c3 : Nat, c0 + 256 * c1 + 65536 * c2 + 16777216 * c3
      = c0 + 2 ^ 8 * (c1 + 2 ^ 8 * (c2 + 2 ^ 8 * c3)) := by intros; omega
  rw [e1 a0, e1 b0, e1 (a0 ^^^ b0), xor_split 8 _ _ _ _ h0 g0, xor_split 8 _ _ _ _ h1 g1,
    xor_split 8 _ _ _ _ h2 g2]

theorem store_load_xor (le : Bool) (a0 a1 a2 a3 b0 b1 b2 b3 : Nat)
    (h0 : a0 < 256) (h1 : a1 < 256) (h2 : a2 < 256) (h3 : a3 < 256)
    (g0 : b0 < 256) (g1 : b1 < 256) (g2 : b2 < 256) (g3 : b3 < 256) :
    store_u32 le ((if le then a0 + 256 * a1 + 65536 * a2 + 16777216 * a3
        else a3 + 256 * a2 + 65536 * a1 + 16777216 * a0)
      ^^^ (if le then b0 + 256 * b1 + 65536 * b2 + 16777216 * b3
        else b3 + 256 * b2 + 65536 * b1 + 16777216 * b0))
      = [a0 ^^^ b0, a1 ^^^ b1, a2 ^^^ b2, a3 ^^^ b3] := by
  have c0 := xor_byte_lt h0 g0
  have c1 := xor_byte_lt h1 g1
  have c2 := xor_byte_lt h2 g2
  have c3 := xor_byte_lt h3 g3
  cases le
  · simp only [Bool.false_eq_true, if_false, store_u32]
    rw [xor_word _ _ _ _ _ _ _ _ h3 h2 h1 g3 g2 g1]
    generalize a0 ^^^ b0 = e0 at *
    generalize a1 ^^^ b1 = e1 at *
    generalize a2 ^^^ b2 = e2 at *
    generalize a3 ^^^ b3 = e3 at *
    have : (e3 + 256 * e2 + 65536 * e1 + 16777216 * e0) / 16777216 % 256 = e0 := by omega
    have : (e3 + 256 * e2 + 65536 * e1 + 16777216 * e0) / 65536 % 256 = e1 := by omega
    have : (e3 + 256 * e2 + 65536 * e1 + 16777216 * e0) / 256 % 256 = e2 := by omega
    have : (e3 + 256 * e2 + 65536 * e1 + 16777216 * e0) % 256 = e3 := by omega
    simp [*]
  · simp only [if_true, store_u32]
    rw [xor_word _ _ _ _ _ _ _ _ h0 h1 h2 g0 g1 g2]
    generalize a0 ^^^ b0 = e0 at *
    generalize a1 ^^^ b1 = e1 at *
    generalize a2 ^^^ b2 = e2 at *
    generalize a3 ^^^ b3 = e3 at *
    have : (e0 + 256 * e1 + 65536 * e2 + 16777216 * e3) / 16777216 % 256 = e3 := by omega
    have : (e0 + 256 * e1 + 65536 * e2 + 16777216 * e3) / 65536 % 256 = e2 := by omega
    have : (e0 + 256 * e1 + 65536 * e2 + 16777216 * e3) / 256 % 256 = e1 := by omega
    have : (e0 + 256 * e1 + 65536 * e2 + 16777216 * e3) % 256 = e0 := by omega
    simp [*]

theorem getD_lt_of_isBytes {l : List Nat} (h : IsBytes l) (k : Nat) : l.getD k 0 < 256 := by
  by_cases hk : k < l.length
  · rw [List.getD_eq_getElem _ _ hk]
    exact h _ (List.getElem_mem _)
  · rw [List.getD_eq_default _ _ (by omega)]
    decide

theorem xor_bytes_eq_map (n : Nat) (d s : List Nat) :
    xor_bytes n d s = (List.range n).map (fun k => d.getD k 0 ^^^ s.getD k 0) := by
  induction n generalizing d s with
  | zero => rfl
  | succ n ih =>
    rw [xor_bytes, ih, List.range_succ_eq_map, List.map_cons, List.map_map]
    congr 1
    apply List.map_congr_left
    intro k _
    cases d <;> cases s <;> simp

theorem xor_aes_block_eq (le : Bool) (d s : List Nat) (hd : IsBytes d) (hs : IsBytes s) :
    xor_aes_block le d s = xor_bytes 16 d s := by
  have hD := getD_lt_of_isBytes hd
  have hS := getD_lt_of_isBytes hs
  have r16 : List.range 16 = [0, 1, 2, 3, 4, 5, 6, 7, 8, 9, 10, 11, 12, 13, 14, 15] := by decide
  rw [xor_bytes_eq_map, r16]
  unfold xor_aes_block load_u32
  simp only [Nat.mul_zero, Nat.mul_one, Nat.zero_add, Nat.reduceMul, Nat.reduceAdd]
  rw [store_load_xor le _ _ _ _ _ _ _ _ (hD _) (hD _) (hD _) (hD _) (hS _) (hS _) (hS _) (hS _),
    store_load_xor le _ _ _ _ _ _ _ _ (hD _) (hD _) (hD _) (hD _) (hS _) (hS _) (hS _) (hS _),
    store_load_xor le _ _ _ _ _ _ _ _ (hD _) (hD _) (hD _) (hD _) (hS _) (hS _) (hS _) (hS _),
    store_load_xor le _ _ _ _ _ _ _ _ (hD _) (hD _) (hD _) (hD _) (hS _) (hS _) (hS _) (hS _)]
  rfl

theorem os_memcpy_length (l : List Nat) (n : Nat) : (os_memcpy l n).length = n := by
  simp [os_memcpy]

theorem os_memcpy_getD (l : List Nat) (n k : Nat) (h : k < n) :
    (os_memcpy l n).getD k 0 = l.getD k 0 := by
  simp [os_memcpy, h, List.getElem?_range]

theorem os_memcpy_self (l : List Nat) (n : Nat) (h : l.length = n) : os_memcpy l n = l := by
  apply List.ext_getElem (by simp [os_memcpy, h])
  intro k h1 h2
  simp [os_memcpy, List.getElem?_eq_getElem h2]

theorem WPA_PUT_BE16_length (v : Nat) : (WPA_PUT_BE16 v).length = 2 := rfl

theorem aad_nonce_nonce_length (hdr : ieee80211_hdr) (data : List Nat) :
    (ccmp_aad_nonce hdr data).nonce.length = 13 := by
  simp [ccmp_aad_nonce, os_memcpy, ETH_ALEN]

theorem a_buffer_eq (N : List Nat) (hN : N.length = 13) (i : Nat) :
    put_at (put_at (put_at (List.replicate AES_BLOCK_SIZE 0) 0 [0x01]) 1 (os_memcpy N 13)) 14
      (WPA_PUT_BE16 i) = ctr_block N i := by
  rw [os_memcpy_self N 13 hN]
  simp [put_at, AES_BLOCK_SIZE, hN, ctr_block, WPA_PUT_BE16, List.take_append_eq_append_take]

theorem put_ctr_block (N : List Nat) (hN : N.length = 13) (i j : Nat) :
    put_at (ctr_block N i) 14 (WPA_PUT_BE16 j) = ctr_block N j := by
  simp [put_at, hN, ctr_block, WPA_PUT_BE16, List.take_append_eq_append_take]

theorem b_buffer_eq (N : List Nat) (hN : N.length = 13) (mlen : Nat) :
    put_at (put_at (put_at (List.replicate AES_BLOCK_SIZE 0) 0 [0x40 ||| (3 <<< 3) ||| 1])
      1 (os_memcpy N 13)) 14 (WPA_PUT_BE16 mlen) = mac_block0 N mlen := by
  rw [os_memcpy_self N 13 hN]
  simp [put_at, AES_BLOCK_SIZE, hN, mac_block0, WPA_PUT_BE16, List.take_append_eq_append_take]

theorem fc_qos_qos_le (hdr : ieee80211_hdr) : (ccmp_fc_qos hdr).qos = 0 ∨ (ccmp_fc_qos hdr).qos = 1 := by
  unfold ccmp_fc_qos
  simp only []
  split_ifs <;> simp

/-- closed form of the AAD -/
theorem aad_nonce_aad (hdr : ieee80211_hdr) (data : List Nat) :
    (ccmp_aad_nonce hdr data).aad =
      WPA_PUT_LE16 (((ccmp_fc_qos hdr).fc &&& not16 (WLAN_FC_RETRY ||| WLAN_FC_PWRMGT ||| WLAN_FC_MOREDATA)) ||| WLAN_FC_ISWEP)
      ++ os_memcpy (hdr.addr1 ++ hdr.addr2 ++ hdr.addr3) 18
      ++ WPA_PUT_LE16 ((hdr.seq_ctrl % 65536) &&& not16 0xfff0)
      ++ os_memcpy hdr.body ((if (hdr.frame_control % 65536) &&& 0x0300 = 0x0300 then 1 else 0) * 6)
      ++ (if (ccmp_fc_qos hdr).qos ≠ 0 then [0, 0] else []) := by
  have r18 : List.range 18 = [0, 1, 2, 3, 4, 5, 6, 7, 8, 9, 10, 11, 12, 13, 14, 15, 16, 17] := by decide
  have r8 : List.range 8 = [0, 1, 2, 3, 4, 5, 6, 7] := by decide
  have r2 : List.range 2 = [0, 1] := by decide
  have r6 : List.range 6 = [0, 1, 2, 3, 4, 5] := by decide
  have hz : ∀ x : Nat, x &&& 0x70 &&& 0x80 = 0 := by
    intro x
    have e : (0x70 &&& 0x80 : Nat) = 0 := by decide
    rw [Nat.and_assoc, e, Nat.and_zero]
  rcases fc_qos_qos_le hdr with hq | hq
  · simp [ccmp_aad_nonce, hq, ETH_ALEN, WLAN_FC_TODS, WLAN_FC_FROMDS]
  · by_cases h4 : (hdr.frame_control % 65536) &&& 0x0300 = 0x0300
    · simp [ccmp_aad_nonce, hq, ETH_ALEN, WLAN_FC_TODS, WLAN_FC_FROMDS, h4, os_memcpy, r18, r8, r6,
        WPA_PUT_LE16, hz]
    · simp [ccmp_aad_nonce, hq, ETH_ALEN, WLAN_FC_TODS, WLAN_FC_FROMDS, h4, os_memcpy, r18, r2,
        WPA_PUT_LE16, hz]

theorem isBytes_append {a b : List Nat} : IsBytes (a ++ b) ↔ IsBytes a ∧ IsBytes b := by
  simp [IsBytes, or_imp, forall_and]

theorem isBytes_nil : IsBytes [] := by simp [IsBytes]

theorem isBytes_cons {x : Nat} {l : List Nat} : IsBytes (x :: l) ↔ x < 256 ∧ IsBytes l := by
  simp [IsBytes]

theorem isBytes_replicate_zero (n : Nat) : IsBytes (List.replicate n 0) := by
  intro x hx
  rw [List.eq_of_mem_replicate hx]
  decide

theorem isBytes_drop {l : List Nat} (h : IsBytes l) (n : Nat) : IsBytes (l.drop n) :=
  fun x hx => h x (List.mem_of_mem_drop hx)

theorem isBytes_take {l : List Nat} (h : IsBytes l) (n : Nat) : IsBytes (l.take n) :=
  fun x hx => h x (List.mem_of_mem_take hx)

theorem isBytes_map_range (n : Nat) (f : Nat → Nat) (h : ∀ k, k < n → f k < 256) :
    IsBytes ((List.range n).map f) := by
  intro x hx
  simp only [List.mem_map, List.mem_range] at hx
  obtain ⟨k, hk, rfl⟩ := hx
  exact h k hk

theorem isBytes_os_memcpy {l : List Nat} (h : IsBytes l) (n : Nat) : IsBytes (os_memcpy l n) :=
  isBytes_map_range n _ (fun k _ => getD_lt_of_isBytes h k)

theorem isBytes_xor_bytes {a b : List Nat} (ha : IsBytes a) (hb : IsBytes b) (n : Nat) :
    IsBytes (xor_bytes n a b) := by
  rw [xor_bytes_eq_map]
  exact isBytes_map_range n _
    (fun k _ => xor_byte_lt (getD_lt_of_isBytes ha k) (getD_lt_of_isBytes hb k))

theorem shr8_lt (v : Nat) : (v % 65536) >>> 8 < 256 := by
  rw [Nat.shiftRight_eq_div_pow]
  omega

theorem and_ff_lt (v : Nat) : v &&& 0xff < 256 :=
  Nat.and_lt_two_pow v (n := 8) (by decide)

theorem isBytes_WPA_PUT_BE16 (v : Nat) : IsBytes (WPA_PUT_BE16 v) := by
  simp [WPA_PUT_BE16, isBytes_cons, isBytes_nil, shr8_lt, and_ff_lt]

theorem isBytes_WPA_PUT_LE16 (v : Nat) : IsBytes (WPA_PUT_LE16 v) := by
  simp [WPA_PUT_LE16, isBytes_cons, isBytes_nil, shr8_lt, and_ff_lt]

theorem xor_bytes_length (n : Nat) (a b : List Nat) : (xor_bytes n a b).length = n := by
  simp [xor_bytes_eq_map]

theorem xor_bytes_getD (n : Nat) (a b : List Nat) (k : Nat) (h : k < n) :
    (xor_bytes n a b).getD k 0 = a.getD k 0 ^^^ b.getD k 0 := by
  simp [xor_bytes_eq_map, List.getElem?_range, h]

/-! ### the AAD -/

theorem isBytes_aad (hdr : ieee80211_hdr) (data : List Nat) (hh : HdrBytes hdr) :
    IsBytes (ccmp_aad_nonce hdr data).aad := by
  obtain ⟨h1, h2, h3, h4⟩ := hh
  rw [aad_nonce_aad]
  simp only [isBytes_append]
  refine ⟨⟨⟨⟨isBytes_WPA_PUT_LE16 _, isBytes_os_memcpy ?_ _⟩, isBytes_WPA_PUT_LE16 _⟩,
    isBytes_os_memcpy h4 _⟩, ?_⟩
  · simp only [isBytes_append]; exact ⟨⟨h1, h2⟩, h3⟩
  · split <;> simp [IsBytes]

theorem aad_length (hdr : ieee80211_hdr) (data : List Nat) :
    (ccmp_aad_nonce hdr data).aad.length = (ccmp_aad_nonce hdr data).aad_len := by
  rw [aad_nonce_aad]
  rcases fc_qos_qos_le hdr with hq | hq <;>
    by_cases h4 : (hdr.frame_control % 65536) &&& 0x0300 = 0x0300 <;>
    simp [ccmp_aad_nonce, hq, h4, os_memcpy, WPA_PUT_LE16, ETH_ALEN, WLAN_FC_TODS, WLAN_FC_FROMDS]

theorem aad_len_cases (hdr : ieee80211_hdr) (data : List Nat) :
    (ccmp_aad_nonce hdr data).aad_len = 22 ∨ (ccmp_aad_nonce hdr data).aad_len = 24 ∨
    (ccmp_aad_nonce hdr data).aad_len = 28 ∨ (ccmp_aad_nonce hdr data).aad_len = 30 := by
  rcases fc_qos_qos_le hdr with hq | hq <;>
    by_cases h4 : (hdr.frame_control % 65536) &&& 0x0300 = 0x0300 <;>
    simp [ccmp_aad_nonce, hq, h4, ETH_ALEN, WLAN_FC_TODS, WLAN_FC_FROMDS]

theorem aad_buffer_eq (hdr : ieee80211_hdr) (data : List Nat) :
    put_at (put_at (List.replicate (2 + 30) 0) 2 (ccmp_aad_nonce hdr data).aad) 0
      (WPA_PUT_BE16 (ccmp_aad_nonce hdr data).aad_len) = aad_buffer (ccmp_aad_nonce hdr data) := by
  have hl := aad_length hdr data
  have hc := aad_len_cases hdr data
  generalize ccmp_aad_nonce hdr data = an at *
  have h30 : an.aad.length ≤ 30 := by omega
  simp only [put_at, aad_buffer, List.take_zero, List.nil_append, WPA_PUT_BE16_length,
    List.take_replicate, List.drop_replicate, Nat.zero_add]
  have e1 : min 2 (2 + 30) = 2 := by decide
  rw [e1]
  have e2 : (List.replicate 2 0 ++ an.aad ++ List.replicate (2 + 30 - (2 + an.aad.length)) 0).drop 2
      = an.aad ++ List.replicate (30 - an.aad.length) 0 := by
    rw [List.append_assoc, List.drop_append_of_le_length (by simp)]
    simp
    omega
  rw [e2, List.append_assoc]

theorem aad_buffer_length (hdr : ieee80211_hdr) (data : List Nat) :
    (aad_buffer (ccmp_aad_nonce hdr data)).length = 32 := by
  have hl := aad_length hdr data
  have hc := aad_len_cases hdr data
  simp [aad_buffer, WPA_PUT_BE16]
  omega

theorem isBytes_aad_buffer (hdr : ieee80211_hdr) (data : List Nat) (hh : HdrBytes hdr) :
    IsBytes (aad_buffer (ccmp_aad_nonce hdr data)) := by
  simp only [aad_buffer, isBytes_append]
  exact ⟨⟨isBytes_WPA_PUT_BE16 _, isBytes_aad hdr data hh⟩, isBytes_replicate_zero _⟩

theorem list_eq_map_range (l : List Nat) (n : Nat) (f : Nat → Nat) (hl : l.length = n)
    (h : ∀ j, j < n → l.getD j 0 = f j) : l = (List.range n).map f := by
  apply List.ext_getElem (by simp [hl])
  intro k h1 h2
  have := h k (by omega)
  rw [List.getD_eq_getElem _ _ h1] at this
  simp [this]

theorem getD_drop (l : List Nat) (n k : Nat) : (l.drop n).getD k 0 = l.getD (n + k) 0 := by
  simp [List.getElem?_drop]

theorem xor_aes_block_length (le : Bool) (d s : List Nat) : (xor_aes_block le d s).length = 16 := by
  cases le <;> simp [xor_aes_block, store_u32]

theorem ctr_loop_i (le : Bool) (E : List Nat → List Nat) (n i : Nat) (a mpos : List Nat) :
    (ctr_loop le E n i a mpos).i = i + n := by
  induction n generalizing i a mpos with
  | zero => rfl
  | succ n ih => simp only [ctr_loop, ih]; omega

theorem ctr_loop_mpos (le : Bool) (E : List Nat → List Nat) (n i : Nat) (a mpos : List Nat) :
    (ctr_loop le E n i a mpos).mpos = mpos.drop (16 * n) := by
  induction n generalizing i a mpos with
  | zero => simp [ctr_loop]
  | succ n ih =>
    simp only [ctr_loop, ih, AES_BLOCK_SIZE, List.drop_drop]
    congr 1
    omega

theorem ctr_loop_a (le : Bool) (E : List Nat → List Nat) (N : List Nat) (hN : N.length = 13)
    (n i j : Nat) (mpos : List Nat) :
    ∃ k, (ctr_loop le E n i (ctr_block N j) mpos).a = ctr_block N k := by
  induction n generalizing i j mpos with
  | zero => exact ⟨j, rfl⟩
  | succ n ih =>
    simp only [ctr_loop, put_ctr_block N hN]
    exact ih _ _ _

theorem ctr_loop_out_length (le : Bool) (E : List Nat → List Nat) (n i : Nat) (a mpos : List Nat) :
    (ctr_loop le E n i a mpos).out.length = 16 * n := by
  induction n generalizing i a mpos with
  | zero => rfl
  | succ n ih =>
    simp only [ctr_loop, List.length_append, ih, xor_aes_block_length]
    omega

theorem ctr_loop_calls (le : Bool) (E : List Nat → List Nat) (N : List Nat) (hN : N.length = 13)
    (n i j : Nat) (mpos : List Nat) :
    (ctr_loop le E n i (ctr_block N j) mpos).calls
      = (List.range n).map (fun k => AesCall.encrypt (ctr_block N (i + k))) := by
  induction n generalizing i j mpos with
  | zero => rfl
  | succ n ih =>
    simp only [ctr_loop, put_ctr_block N hN, ih, List.range_succ_eq_map, List.map_cons,
      List.map_map, Nat.add_zero]
    congr 1
    apply List.map_congr_left
    intro k _
    simp only [Function.comp, Nat.succ_eq_add_one]
    congr 2
    omega

theorem ctr_loop_out_getD (le : Bool) (E : List Nat → List Nat) (hE : CipherOK E)
    (N : List Nat) (hN : N.length = 13) (n i j0 : Nat) (mpos : List Nat) (hm : IsBytes mpos)
    (j : Nat) (hj : j < 16 * n) :
    (ctr_loop le E n i (ctr_block N j0) mpos).out.getD j 0
      = (E (ctr_block N (i + j / 16))).getD (j % 16) 0 ^^^ mpos.getD j 0 := by
  induction n generalizing i j0 mpos j with
  | zero => omega
  | succ n ih =>
    simp only [ctr_loop, put_ctr_block N hN, AES_BLOCK_SIZE]
    rw [xor_aes_block_eq le _ _ (hE _).2 hm]
    by_cases h16 : j < 16
    · rw [List.getD_append _ _ _ _ (by rw [xor_bytes_length]; exact h16), xor_bytes_getD _ _ _ _ h16]
      have e1 : j / 16 = 0 := by omega
      have e2 : j % 16 = j := by omega
      rw [e1, e2, Nat.add_zero]
    · rw [List.getD_append_right _ _ _ _ (by rw [xor_bytes_length]; omega), xor_bytes_length,
        ih (i + 1) i (mpos.drop 16) (isBytes_drop hm 16) (j - 16) (by omega), getD_drop]
      have e1 : i + 1 + (j - 16) / 16 = i + j / 16 := by omega
      have e2 : (j - 16) % 16 = j % 16 := by omega
      have e3 : 16 + (j - 16) = j := by omega
      rw [e1, e2, e3]

/-- lines 150-166: the bytes stored in `plain` -/
theorem ctr_plain_eq (le : Bool) (E : List Nat → List Nat) (hE : CipherOK E)
    (N : List Nat) (hN : N.length = 13) (m : List Nat) (hm : IsBytes m) (mlen : Nat) :
    (ccmp_ctr le E (ctr_block N 0) m mlen).out = ctr_plain E N m mlen := by
  have hshape : (ccmp_ctr le E (ctr_block N 0) m mlen).out
      = (if mlen % AES_BLOCK_SIZE ≠ 0 then
        (ctr_loop le E (mlen / AES_BLOCK_SIZE) 1 (ctr_block N 0) m).out
          ++ xor_bytes (mlen % AES_BLOCK_SIZE)
            (E (put_at (ctr_loop le E (mlen / AES_BLOCK_SIZE) 1 (ctr_block N 0) m).a 14
              (WPA_PUT_BE16 (ctr_loop le E (mlen / AES_BLOCK_SIZE) 1 (ctr_block N 0) m).i)))
            (ctr_loop le E (mlen / AES_BLOCK_SIZE) 1 (ctr_block N 0) m).mpos
      else (ctr_loop le E (mlen / AES_BLOCK_SIZE) 1 (ctr_block N 0) m).out) := by
    unfold ccmp_ctr
    simp only []
    split <;> rfl
  rw [hshape]
  obtain ⟨k, hk⟩ := ctr_loop_a le E N hN (mlen / AES_BLOCK_SIZE) 1 0 m
  rw [hk, put_ctr_block N hN, ctr_loop_i, ctr_loop_mpos]
  simp only [AES_BLOCK_SIZE]
  unfold ctr_plain
  apply list_eq_map_range
  · split
    · rw [List.length_append, ctr_loop_out_length, xor_bytes_length]; omega
    · rw [ctr_loop_out_length]; omega
  · intro j hj
    by_cases hfull : j < 16 * (mlen / 16)
    · have := ctr_loop_out_getD le E hE N hN (mlen / 16) 1 0 m hm j hfull
      split
      · rw [List.getD_append _ _ _ _ (by rw [ctr_loop_out_length]; exact hfull), this]
      · exact this
    · have hlast : mlen % 16 ≠ 0 := by omega
      rw [if_pos hlast, List.getD_append_right _ _ _ _ (by rw [ctr_loop_out_length]; omega),
        ctr_loop_out_length, xor_bytes_getD _ _ _ _ (by omega), getD_drop]
      have e1 : 16 * (mlen / 16) + (j - 16 * (mlen / 16)) = j := by omega
      have e2 : j - 16 * (mlen / 16) = j % 16 := by omega
      have e3 : 1 + mlen / 16 = 1 + j / 16 := by omega
      rw [e1, e2, e3]

theorem ccm_xor_eq (x b : List Nat) (hx : x.length = 16) (hb : b.length = 16) :
    ccm_xor x b = xor_bytes 16 x b := by
  rw [xor_bytes_eq_map]
  apply list_eq_map_range
  · simp [ccm_xor, hx, hb]
  · intro j hj
    have h1 : j < x.length := by omega
    have h2 : j < b.length := by omega
    simp [ccm_xor, List.getElem?_zipWith, List.getElem?_eq_getElem, h1, h2]

theorem xor_bytes_take_right (n : Nat) (x p : List Nat) :
    xor_bytes n x (p.take n) = xor_bytes n x p := by
  rw [xor_bytes_eq_map, xor_bytes_eq_map]
  apply List.map_congr_left
  intro k hk
  simp only [List.mem_range] at hk
  simp [List.getElem?_take, hk]

theorem xor_bytes_take_left (n : Nat) (x p : List Nat) :
    xor_bytes n (x.take n) p = xor_bytes n x p := by
  rw [xor_bytes_eq_map, xor_bytes_eq_map]
  apply List.map_congr_left
  intro k hk
  simp only [List.mem_range] at hk
  simp [List.getElem?_take, hk]

theorem xor_bytes_comm (n : Nat) (x p : List Nat) : xor_bytes n x p = xor_bytes n p x := by
  rw [xor_bytes_eq_map, xor_bytes_eq_map]
  apply List.map_congr_left
  intro k _
  exact Nat.xor_comm _ _

theorem cbc_loop_ppos (le : Bool) (E : List Nat → List Nat) (n : Nat) (x ppos : List Nat) :
    (cbc_loop le E n x ppos).ppos = ppos.drop (16 * n) := by
  induction n generalizing x ppos with
  | zero => simp [cbc_loop]
  | succ n ih =>
    simp only [cbc_loop, ih, AES_BLOCK_SIZE, List.drop_drop]
    congr 1
    omega

theorem cbc_loop_x (le : Bool) (E : List Nat → List Nat) (hE : CipherOK E) (n : Nat)
    (x ppos : List Nat) (hx : x.length = 16) (hxb : IsBytes x) (hp : IsBytes ppos)
    (hlen : 16 * n ≤ ppos.length) :
    (cbc_loop le E n x ppos).x
      = (ccm_split n ppos).foldl (fun x blk => E (ccm_xor x blk)) x := by
  induction n generalizing x ppos with
  | zero => rfl
  | succ n ih =>
    simp only [cbc_loop, ccm_split, List.foldl_cons, AES_BLOCK_SIZE]
    rw [ih _ _ (hE _).1 (hE _).2 (isBytes_drop hp 16) (by rw [List.length_drop]; omega),
      xor_aes_block_eq le _ _ hxb hp,
      ccm_xor_eq x (ppos.take 16) hx (by rw [List.length_take]; omega), xor_bytes_take_right]

theorem cbc_loop_x_length (le : Bool) (E : List Nat → List Nat) (hE : CipherOK E) (n : Nat)
    (x ppos : List Nat) (hx : x.length = 16) :
    (cbc_loop le E n x ppos).x.length = 16 := by
  induction n generalizing x ppos with
  | zero => exact hx
  | succ n ih =>
    simp only [cbc_loop]
    exact ih _ _ (hE _).1

theorem cbc_loop_x_isBytes (le : Bool) (E : List Nat → List Nat) (hE : CipherOK E) (n : Nat)
    (x ppos : List Nat) (hx : IsBytes x) :
    IsBytes (cbc_loop le E n x ppos).x := by
  induction n generalizing x ppos with
  | zero => exact hx
  | succ n ih =>
    simp only [cbc_loop]
    exact ih _ _ (hE _).2

theorem ccm_split_append (n : Nat) (l r : List Nat) (h : 16 * n ≤ l.length) :
    ccm_split n (l ++ r) = ccm_split n l := by
  induction n generalizing l with
  | zero => rfl
  | succ n ih =>
    simp only [ccm_split]
    rw [List.take_append_of_le_length (by omega), List.drop_append_of_le_length (by omega),
      ih _ (by rw [List.length_drop]; omega)]

theorem ccm_split_succ (n : Nat) (l : List Nat) :
    ccm_split (n + 1) l = ccm_split n l ++ [(l.drop (16 * n)).take 16] := by
  induction n generalizing l with
  | zero => simp [ccm_split]
  | succ n ih =>
    rw [ccm_split, ih (l.drop 16), ccm_split, List.drop_drop]
    have e : 16 + 16 * n = 16 * (n + 1) := by omega
    rw [e]
    rfl

/-- the blocks of a byte string: the full blocks, then the zero-padded rest -/
theorem ccm_blocks_eq (p : List Nat) :
    ccm_blocks p = ccm_split (p.length / 16) p
      ++ (if p.length % 16 ≠ 0 then
            [p.drop (16 * (p.length / 16)) ++ List.replicate (16 - p.length % 16) 0]
          else []) := by
  unfold ccm_blocks ccm_pad
  by_cases h : p.length % 16 = 0
  · have e1 : (p.length + 15) / 16 = p.length / 16 := by omega
    have e2 : (16 - p.length % 16) % 16 = 0 := by omega
    simp [h, e1, e2]
  · have e1 : (p.length + 15) / 16 = p.length / 16 + 1 := by omega
    have e2 : (16 - p.length % 16) % 16 = 16 - p.length % 16 := by omega
    rw [e1, e2, ccm_split_succ, ccm_split_append _ _ _ (by omega), if_pos h,
      List.drop_append_of_le_length (by omega), List.take_of_length_le]
    simp only [List.length_append, List.length_drop, List.length_replicate]
    omega

theorem mac_last_block (x r : List Nat) (hx : x.length = 16) (hr : r.length < 16) :
    xor_bytes r.length x r ++ x.drop r.length
      = ccm_xor x (r ++ List.replicate (16 - r.length) 0) := by
  rw [ccm_xor_eq x _ hx (by simp; omega), xor_bytes_eq_map 16]
  apply list_eq_map_range
  · simp [xor_bytes_length, hx]; omega
  · intro j hj
    by_cases h : j < r.length
    · rw [List.getD_append _ _ _ _ (by rw [xor_bytes_length]; exact h), xor_bytes_getD _ _ _ _ h,
        List.getD_append _ _ _ _ h]
    · rw [List.getD_append_right _ _ _ _ (by rw [xor_bytes_length]; omega), xor_bytes_length,
        getD_drop, List.getD_append_right _ _ _ _ (by omega)]
      have e1 : r.length + (j - r.length) = j := by omega
      have e2 : (List.replicate (16 - r.length) 0).getD (j - r.length) 0 = 0 := by
        simp only [List.getD_eq_getElem?_getD, List.getElem?_replicate]
        split <;> rfl
      rw [e1, e2, Nat.xor_zero]

theorem aad_blocks_eq (hdr : ieee80211_hdr) (data : List Nat) :
    ccm_blocks (WPA_PUT_BE16 (ccmp_aad_nonce hdr data).aad_len ++ (ccmp_aad_nonce hdr data).aad)
      = [(aad_buffer (ccmp_aad_nonce hdr data)).take 16,
         (aad_buffer (ccmp_aad_nonce hdr data)).drop 16] := by
  have hl := aad_length hdr data
  have hb := aad_buffer_length hdr data
  have hc := aad_len_cases hdr data
  generalize ccmp_aad_nonce hdr data = an at *
  have e0 : (WPA_PUT_BE16 an.aad_len ++ an.aad).length = 2 + an.aad_len := by
    simp [WPA_PUT_BE16, hl]; omega
  have e1 : (2 + an.aad_len + 15) / 16 = 2 := by omega
  have e2 : (16 - (2 + an.aad_len) % 16) % 16 = 30 - an.aad.length := by omega
  unfold ccm_blocks ccm_pad
  rw [e0, e1, e2]
  have e3 : WPA_PUT_BE16 an.aad_len ++ an.aad ++ List.replicate (30 - an.aad.length) 0
      = aad_buffer an := rfl
  rw [e3]
  simp only [ccm_split, List.cons.injEq, true_and, and_true]
  exact List.take_of_length_le (by rw [List.length_drop]; omega)

theorem aad_xor_first (le : Bool) (aad x : List Nat) (ha : IsBytes aad) (hal : 16 ≤ aad.length)
    (hx : IsBytes x) (hxl : x.length = 16) :
    xor_aes_block le aad x = ccm_xor x (aad.take 16) := by
  rw [xor_aes_block_eq le _ _ ha hx, ccm_xor_eq x _ hxl (by rw [List.length_take]; omega),
    xor_bytes_take_right, xor_bytes_comm]

/-- lines 176-200 compute the reference CBC-MAC -/
theorem mac_eq (le : Bool) (E : List Nat → List Nat) (hE : CipherOK E) (b0 : List Nat)
    (hdr : ieee80211_hdr) (data : List Nat) (hh : HdrBytes hdr)
    (plain : List Nat) (hp : IsBytes plain) (mlen : Nat) (hm : plain.length = mlen) :
    (ccmp_auth le E b0 (aad_buffer (ccmp_aad_nonce hdr data)) plain mlen).x
      = ccm_cbc_mac E b0
          (WPA_PUT_BE16 (ccmp_aad_nonce hdr data).aad_len ++ (ccmp_aad_nonce hdr data).aad) plain := by
  have hshape : (ccmp_auth le E b0 (aad_buffer (ccmp_aad_nonce hdr data)) plain mlen).x
      = (if mlen % AES_BLOCK_SIZE ≠ 0 then
        E (xor_bytes (mlen % AES_BLOCK_SIZE)
            (cbc_loop le E (mlen / AES_BLOCK_SIZE)
              (E (xor_aes_block le ((aad_buffer (ccmp_aad_nonce hdr data)).drop AES_BLOCK_SIZE)
                (E (xor_aes_block le (aad_buffer (ccmp_aad_nonce hdr data)) (E b0))))) plain).x
            (cbc_loop le E (mlen / AES_BLOCK_SIZE)
              (E (xor_aes_block le ((aad_buffer (ccmp_aad_nonce hdr data)).drop AES_BLOCK_SIZE)
                (E (xor_aes_block le (aad_buffer (ccmp_aad_nonce hdr data)) (E b0))))) plain).ppos
          ++ (cbc_loop le E (mlen / AES_BLOCK_SIZE)
              (E (xor_aes_block le ((aad_buffer (ccmp_aad_nonce hdr data)).drop AES_BLOCK_SIZE)
                (E (xor_aes_block le (aad_buffer (ccmp_aad_nonce hdr data)) (E b0))))) plain).x.drop
              (mlen % AES_BLOCK_SIZE))
      else
        (cbc_loop le E (mlen / AES_BLOCK_SIZE)
          (E (xor_aes_block le ((aad_buffer (ccmp_aad_nonce hdr data)).drop AES_BLOCK_SIZE)
            (E (xor_aes_block le (aad_buffer (ccmp_aad_nonce hdr data)) (E b0))))) plain).x) := by
    unfold ccmp_auth
    simp only []
    split <;> rfl
  rw [hshape]
  have hab := isBytes_aad_buffer hdr data hh
  have hal := aad_buffer_length hdr data
  unfold ccm_cbc_mac
  rw [aad_blocks_eq, List.foldl_append, ccm_blocks_eq]
  simp only [List.foldl_cons, List.foldl_nil, AES_BLOCK_SIZE]
  rw [aad_xor_first le _ _ hab (by omega) (hE _).2 (hE _).1,
    aad_xor_first le _ _ (isBytes_drop hab 16) (by rw [List.length_drop]; omega) (hE _).2 (hE _).1]
  have e16 : ((aad_buffer (ccmp_aad_nonce hdr data)).drop 16).take 16
      = (aad_buffer (ccmp_aad_nonce hdr data)).drop 16 :=
    List.take_of_length_le (by rw [List.length_drop]; omega)
  rw [e16]
  obtain ⟨h3l, h3b⟩ := hE (ccm_xor (E (ccm_xor (E b0)
    ((aad_buffer (ccmp_aad_nonce hdr data)).take 16)))
    ((aad_buffer (ccmp_aad_nonce hdr data)).drop 16))
  generalize E (ccm_xor (E (ccm_xor (E b0) ((aad_buffer (ccmp_aad_nonce hdr data)).take 16)))
    ((aad_buffer (ccmp_aad_nonce hdr data)).drop 16)) = x3 at *
  subst hm
  rw [cbc_loop_x le E hE _ _ _ h3l h3b hp (by omega), cbc_loop_ppos, List.foldl_append]
  by_cases hlast : plain.length % 16 = 0
  · simp [hlast]
  · have hr : (plain.drop (16 * (plain.length / 16))).length = plain.length % 16 := by
      rw [List.length_drop]; omega
    have hxl : (List.foldl (fun x blk => E (ccm_xor x blk)) x3
        (ccm_split (plain.length / 16) plain)).length = 16 := by
      rw [← cbc_loop_x le E hE _ _ _ h3l h3b hp (by omega)]
      exact cbc_loop_x_length le E hE _ _ _ h3l
    rw [if_pos hlast, if_pos hlast]
    simp only [List.foldl_cons, List.foldl_nil]
    have := mac_last_block _ (plain.drop (16 * (plain.length / 16))) hxl (by omega)
    rw [hr] at this
    rw [this]

theorem getD_tail (l : List Nat) (k : Nat) : l.tail.getD k 0 = l.getD (k + 1) 0 := by
  cases l <;> simp

theorem os_memcmp_eq_zero (n : Nat) (a b : List Nat) :
    os_memcmp a b n = 0 ↔ ∀ k, k < n → a.getD k 0 = b.getD k 0 := by
  induction n generalizing a b with
  | zero => simp [os_memcmp]
  | succ n ih =>
    rw [os_memcmp]
    by_cases h : a.getD 0 0 = b.getD 0 0
    · rw [if_pos h, ih]
      constructor
      · intro H k hk
        cases k with
        | zero => exact h
        | succ k =>
          have := H k (by omega)
          rwa [getD_tail, getD_tail] at this
      · intro H k hk
        have := H (k + 1) (by omega)
        rwa [getD_tail, getD_tail]
    · rw [if_neg h]
      constructor
      · intro H
        exfalso
        apply h
        omega
      · intro H
        exact absurd (H 0 (by omega)) h

theorem ctr_plain_length (E : List Nat → List Nat) (N m : List Nat) (mlen : Nat) :
    (ctr_plain E N m mlen).length = mlen := by
  simp [ctr_plain]

theorem isBytes_ctr_plain (E : List Nat → List Nat) (hE : CipherOK E) (N m : List Nat)
    (hm : IsBytes m) (mlen : Nat) : IsBytes (ctr_plain E N m mlen) :=
  isBytes_map_range _ _
    (fun _ _ => xor_byte_lt (getD_lt_of_isBytes (hE _).2 _) (getD_lt_of_isBytes hm _))

theorem ccmp_decrypt_unfold {κ : Type} (env : Env κ) (tk : List Nat) (hdr : ieee80211_hdr)
    (data : List Nat) (aes : κ) (hlen : 16 ≤ data.length)
    (hmal : env.os_malloc data.length = true) (hinit : env.aes_encrypt_init tk 16 = some aes)
    (hE : CipherOK (env.aes_encrypt aes)) (hd : IsBytes data) (hh : HdrBytes hdr) :
    (ccmp_decrypt env tk hdr data).plain
      = (if os_memcmp
            (ccm_cbc_mac (env.aes_encrypt aes)
              (mac_block0 (ccmp_aad_nonce hdr data).nonce (data.length - 16))
              (WPA_PUT_BE16 (ccmp_aad_nonce hdr data).aad_len ++ (ccmp_aad_nonce hdr data).aad)
              (ctr_plain (env.aes_encrypt aes) (ccmp_aad_nonce hdr data).nonce (data.drop 8)
                (data.length - 16)))
            (mic_t (env.aes_encrypt aes) (ccmp_aad_nonce hdr data).nonce data) 8 = 0
          then some (ctr_plain (env.aes_encrypt aes) (ccmp_aad_nonce hdr data).nonce (data.drop 8)
                (data.length - 16))
          else none) ∧
    (ccmp_decrypt env tk hdr data).decrypted_len
      = (if os_memcmp
            (ccm_cbc_mac (env.aes_encrypt aes)
              (mac_block0 (ccmp_aad_nonce hdr data).nonce (data.length - 16))
              (WPA_PUT_BE16 (ccmp_aad_nonce hdr data).aad_len ++ (ccmp_aad_nonce hdr data).aad)
              (ctr_plain (env.aes_encrypt aes) (ccmp_aad_nonce hdr data).nonce (data.drop 8)
                (data.length - 16)))
            (mic_t (env.aes_encrypt aes) (ccmp_aad_nonce hdr data).nonce data) 8 = 0
          then some (data.length - 16) else none) := by
  have hN := aad_nonce_nonce_length hdr data
  have hlt : ¬ data.length < 8 + 8 := by omega
  have hsub : data.length - 8 - 8 = data.length - 16 := by omega
  unfold ccmp_decrypt
  simp only [hlt, if_false, hmal, hinit, Bool.true_eq_false, aad_buffer_eq, b_buffer_eq _ hN,
    a_buffer_eq _ hN, hsub]
  rw [ctr_plain_eq env.host_le _ hE _ hN _ (isBytes_drop hd 8)]
  rw [mac_eq env.host_le _ hE _ hdr data hh _ (isBytes_ctr_plain _ hE _ _ (isBytes_drop hd 8) _)
    _ (ctr_plain_length _ _ _ _)]
  unfold mic_t
  constructor <;> split_ifs <;> first | rfl | contradiction

theorem getD_take (l : List Nat) (n k : Nat) (h : k < n) : (l.take n).getD k 0 = l.getD k 0 := by
  simp [List.getElem?_take, h]

theorem list_ext_getD (a b : List Nat) (hl : a.length = b.length)
    (h : ∀ k, k < a.length → a.getD k 0 = b.getD k 0) : a = b := by
  apply List.ext_getElem hl
  intro k h1 h2
  have := h k h1
  rwa [List.getD_eq_getElem _ _ h1, List.getD_eq_getElem _ _ h2] at this

theorem memcmp8_iff (X T : List Nat) (hX : 8 ≤ X.length) (hT : T.length = 8) :
    os_memcmp X T 8 = 0 ↔ X.take 8 = T := by
  rw [os_memcmp_eq_zero]
  constructor
  · intro H
    apply list_ext_getD _ _ (by rw [List.length_take, hT]; omega)
    intro k hk
    rw [List.length_take] at hk
    rw [getD_take _ _ _ (by omega)]
    exact H k (by omega)
  · intro H k hk
    rw [← H, getD_take _ _ _ hk]

theorem ccm_cbc_mac_ok (E : List Nat → List Nat) (hE : CipherOK E) (b0 aad p : List Nat) :
    (ccm_cbc_mac E b0 aad p).length = 16 ∧ IsBytes (ccm_cbc_mac E b0 aad p) := by
  unfold ccm_cbc_mac
  generalize ccm_blocks aad ++ ccm_blocks p = bl
  generalize hx : E b0 = x
  have h0 : x.length = 16 ∧ IsBytes x := hx ▸ hE b0
  clear hx
  induction bl generalizing x with
  | nil => exact h0
  | cons blk bl ih => exact ih _ (hE _)

theorem mic_t_length (E : List Nat → List Nat) (N data : List Nat) : (mic_t E N data).length = 8 := by
  simp [mic_t]

/-- the result of `ccmp_decrypt` on a frame of at least 16 bytes -/
theorem decrypt_result {κ : Type} (env : Env κ) (tk : List Nat) (hdr : ieee80211_hdr)
    (data : List Nat) (aes : κ) (hlen : 16 ≤ data.length)
    (hmal : env.os_malloc data.length = true) (hinit : env.aes_encrypt_init tk 16 = some aes)
    (hE : CipherOK (env.aes_encrypt aes)) (hd : IsBytes data) (hh : HdrBytes hdr) :
    (ccmp_decrypt env tk hdr data).plain
      = (if (frame_mac (env.aes_encrypt aes) hdr data).take 8
            = mic_t (env.aes_encrypt aes) (ccmp_aad_nonce hdr data).nonce data
          then some (frame_plain (env.aes_encrypt aes) hdr data) else none) ∧
    (ccmp_decrypt env tk hdr data).decrypted_len
      = (if (frame_mac (env.aes_encrypt aes) hdr data).take 8
            = mic_t (env.aes_encrypt aes) (ccmp_aad_nonce hdr data).nonce data
          then some (data.length - 16) else none) := by
  obtain ⟨h1, h2⟩ := ccmp_decrypt_unfold env tk hdr data aes hlen hmal hinit hE hd hh
  have hiff := memcmp8_iff (frame_mac (env.aes_encrypt aes) hdr data)
    (mic_t (env.aes_encrypt aes) (ccmp_aad_nonce hdr data).nonce data)
    (by rw [frame_mac, (ccm_cbc_mac_ok _ hE _ _ _).1]; omega) (mic_t_length _ _ _)
  rw [h1, h2]
  unfold frame_mac frame_plain at *
  by_cases hc : os_memcmp
      (ccm_cbc_mac (env.aes_encrypt aes)
        (mac_block0 (ccmp_aad_nonce hdr data).nonce (data.length - 16))
        (WPA_PUT_BE16 (ccmp_aad_nonce hdr data).aad_len ++ (ccmp_aad_nonce hdr data).aad)
        (ctr_plain (env.aes_encrypt aes) (ccmp_aad_nonce hdr data).nonce (data.drop 8)
          (data.length - 16)))
      (mic_t (env.aes_encrypt aes) (ccmp_aad_nonce hdr data).nonce data) 8 = 0
  · rw [if_pos hc, if_pos hc, if_pos (hiff.1 hc), if_pos (hiff.1 hc)]
    exact ⟨rfl, rfl⟩
  · have hn := fun h => hc (hiff.2 h)
    rw [if_neg hc, if_neg hc, if_neg hn, if_neg hn]
    exact ⟨rfl, rfl⟩

theorem decrypt_short {κ : Type} (env : Env κ) (tk : List Nat) (hdr : ieee80211_hdr)
    (data : List Nat) (h : data.length < 16) :
    ccmp_decrypt env tk hdr data = { plain := none, decrypted_len := none, aes_calls := [] } := by
  unfold ccmp_decrypt
  simp only [Nat.reduceAdd, h, if_true]

theorem decrypt_no_memory {κ : Type} (env : Env κ) (tk : List Nat) (hdr : ieee80211_hdr)
    (data : List Nat) (h : env.os_malloc data.length = false) :
    ccmp_decrypt env tk hdr data = { plain := none, decrypted_len := none, aes_calls := [] } := by
  unfold ccmp_decrypt
  simp only [h, if_true, ite_self]

theorem decrypt_no_cipher {κ : Type} (env : Env κ) (tk : List Nat) (hdr : ieee80211_hdr)
    (data : List Nat) (h : env.aes_encrypt_init tk 16 = none) :
    (ccmp_decrypt env tk hdr data).plain = none ∧
    (ccmp_decrypt env tk hdr data).decrypted_len = none := by
  unfold ccmp_decrypt
  simp only [h]
  split_ifs <;> exact ⟨rfl, rfl⟩

theorem ccm_xor_eq_xor_bytes (n : Nat) (x b : List Nat) (hx : x.length = n) (hb : b.length = n) :
    ccm_xor x b = xor_bytes n x b := by
  rw [xor_bytes_eq_map]
  apply list_eq_map_range
  · simp [ccm_xor, hx, hb]
  · intro j hj
    have h1 : j < x.length := by omega
    have h2 : j < b.length := by omega
    simp [ccm_xor, List.getElem?_zipWith, List.getElem?_eq_getElem, h1, h2]

theorem WPA_PUT_BE16_zero : WPA_PUT_BE16 0 = [0x00, 0x00] := by decide

theorem WPA_PUT_BE16_digits (v : Nat) (h : v < 65536) : WPA_PUT_BE16 v = [v / 256, v % 256] := by
  unfold WPA_PUT_BE16
  rw [Nat.mod_eq_of_lt h, Nat.shiftRight_eq_div_pow]
  have e : (255 : Nat) = 2 ^ 8 - 1 := by decide
  rw [e, Nat.and_pow_two_sub_one_eq_mod]

theorem mic_t_eq (E : List Nat → List Nat) (N data : List Nat) :
    mic_t E N data = (List.range 8).map (fun i => (data.drop (data.length - 8)).getD i 0
      ^^^ (E (0x01 :: (N ++ [0x00, 0x00]))).getD i 0) := by
  unfold mic_t ctr_block
  rw [WPA_PUT_BE16_zero]

/-- the received MIC matches exactly when it is the computed tag masked with `S_0` -/
theorem tag_iff (X S mic : List Nat) (hX : X.length = 16) (hS : S.length = 16)
    (hm : mic.length = 8) :
    X.take 8 = (List.range 8).map (fun i => mic.getD i 0 ^^^ S.getD i 0)
      ↔ mic = ccm_xor (X.take 8) (S.take 8) := by
  rw [ccm_xor_eq_xor_bytes 8 _ _ (by rw [List.length_take]; omega)
    (by rw [List.length_take]; omega), xor_bytes_eq_map]
  constructor
  · intro H
    apply list_eq_map_range _ _ _ hm
    intro j hj
    rw [getD_take _ _ _ hj, getD_take _ _ _ hj]
    have : (X.take 8).getD j 0 = mic.getD j 0 ^^^ S.getD j 0 := by
      rw [H]; simp [List.getElem?_range, hj]
    rw [getD_take _ _ _ hj] at this
    rw [this, Nat.xor_cancel_right]
  · intro H
    apply list_eq_map_range _ _ _ (by rw [List.length_take]; omega)
    intro j hj
    have : mic.getD j 0 = (X.take 8).getD j 0 ^^^ (S.take 8).getD j 0 := by
      rw [H]; simp [List.getElem?_range, hj]
    rw [this, getD_take _ _ _ hj, getD_take _ _ _ hj, Nat.xor_cancel_right]

theorem accept_inv {κ : Type} (env : Env κ) (tk : List Nat) (hdr : ieee80211_hdr)
    (data p : List Nat) (h : (ccmp_decrypt env tk hdr data).plain = some p) :
    16 ≤ data.length ∧ env.os_malloc data.length = true := by
  constructor
  · by_contra hc
    rw [decrypt_short env tk hdr data (by omega)] at h
    exact Option.noConfusion h
  · by_contra hc
    rw [decrypt_no_memory env tk hdr data (by simpa using hc)] at h
    exact Option.noConfusion h

/-- C1: for a frame of at least 16 bytes, allocation and cipher initialisation
succeeding, `ccmp_decrypt` returns a plaintext if and only if the first 8 bytes of the
final CBC-MAC chaining value `X` (over `B_0`, the length-prefixed AAD and the decrypted
payload) equal `T`, where `T[i] = MIC[i] XOR E(K, A_0)[i]` for `i = 0..7`, `MIC` is the
last 8 bytes of the frame and `A_0 = 0x01 || nonce || 0x00 0x00`.  On a match the
decrypted payload is returned with its length, otherwise `NULL` and no length. -/
theorem C1_plaintext_iff_mic_matches {κ : Type} (env : Env κ) (tk : List Nat)
    (hdr : ieee80211_hdr) (data : List Nat) (aes : κ) (hlen : 16 ≤ data.length)
    (hmal : env.os_malloc data.length = true) (hinit : env.aes_encrypt_init tk 16 = some aes)
    (hE : CipherOK (env.aes_encrypt aes)) (hd : IsBytes data) (hh : HdrBytes hdr) :
    ((∃ p, (ccmp_decrypt env tk hdr data).plain = some p) ↔
      (frame_mac (env.aes_encrypt aes) hdr data).take 8
        = (List.range 8).map (fun i => (data.drop (data.length - 8)).getD i 0
            ^^^ (env.aes_encrypt aes
                  (0x01 :: ((ccmp_aad_nonce hdr data).nonce ++ [0x00, 0x00]))).getD i 0)) ∧
    ((frame_mac (env.aes_encrypt aes) hdr data).take 8
        = (List.range 8).map (fun i => (data.drop (data.length - 8)).getD i 0
            ^^^ (env.aes_encrypt aes
                  (0x01 :: ((ccmp_aad_nonce hdr data).nonce ++ [0x00, 0x00]))).getD i 0) →
      (ccmp_decrypt env tk hdr data).plain = some (frame_plain (env.aes_encrypt aes) hdr data) ∧
      (ccmp_decrypt env tk hdr data).decrypted_len = some (data.length - 16)) ∧
    ((frame_mac (env.aes_encrypt aes) hdr data).take 8
        ≠ (List.range 8).map (fun i => (data.drop (data.length - 8)).getD i 0
            ^^^ (env.aes_encrypt aes
                  (0x01 :: ((ccmp_aad_nonce hdr data).nonce ++ [0x00, 0x00]))).getD i 0) →
      (ccmp_decrypt env tk hdr data).plain = none ∧
      (ccmp_decrypt env tk hdr data).decrypted_len = none) := by
  obtain ⟨h1, h2⟩ := decrypt_result env tk hdr data aes hlen hmal hinit hE hd hh
  rw [mic_t_eq] at h1 h2
  rw [h1, h2]
  refine ⟨⟨?_, ?_⟩, ?_, ?_⟩
  · rintro ⟨p, hp⟩
    by_contra hc
    rw [if_neg hc] at hp
    exact Option.noConfusion hp
  · intro hc
    exact ⟨_, if_pos hc⟩
  · intro hc
    exact ⟨if_pos hc, if_pos hc⟩
  · intro hc
    exact ⟨if_neg hc, if_neg hc⟩

theorem toy_cipher_ok (key : List Nat) : CipherOK (toy_encrypt key) := by
  intro b
  constructor
  · simp [toy_encrypt]
  · exact isBytes_map_range _ _ (fun k _ => Nat.mod_lt _ (by decide))

/-- C1 at the frame `frame0`: the MIC matches and the payload `msg0` is returned. -/
theorem C1_plaintext_iff_mic_matches_witness :
    16 ≤ frame0.length ∧ toy_env.os_malloc frame0.length = true ∧
    toy_env.aes_encrypt_init tk0 16 = some tk0 ∧ CipherOK (toy_env.aes_encrypt tk0) ∧
    IsBytes frame0 ∧ HdrBytes hdr0 ∧
    (ccmp_decrypt toy_env tk0 hdr0 frame0).plain
      = some (frame_plain (toy_env.aes_encrypt tk0) hdr0 frame0) ∧
    (ccmp_decrypt toy_env tk0 hdr0 frame0).decrypted_len = some (frame0.length - 16) :=
  ⟨by decide, rfl, rfl, toy_cipher_ok tk0, by decide, by decide,
    (C1_plaintext_iff_mic_matches toy_env tk0 hdr0 frame0 tk0 (by decide) rfl rfl
      (toy_cipher_ok tk0) (by decide) (by decide)).2.1 (by decide)⟩

theorem aad_nonce_congr (hdr : ieee80211_hdr) (d1 d2 : List Nat)
    (h : ∀ k, k < 8 → d1.getD k 0 = d2.getD k 0) :
    ccmp_aad_nonce hdr d1 = ccmp_aad_nonce hdr d2 := by
  unfold ccmp_aad_nonce
  simp only [h 0 (by decide), h 1 (by decide), h 4 (by decide), h 5 (by decide),
    h 6 (by decide), h 7 (by decide)]

theorem ctr_plain_congr (E : List Nat → List Nat) (N m1 m2 : List Nat) (mlen : Nat)
    (h : ∀ j, j < mlen → m1.getD j 0 = m2.getD j 0) :
    ctr_plain E N m1 mlen = ctr_plain E N m2 mlen := by
  unfold ctr_plain
  apply List.map_congr_left
  intro j hj
  rw [h j (List.mem_range.1 hj)]

/-- the tag of a frame does not depend on its last 8 bytes -/
theorem frame_tag_congr (E : List Nat → List Nat) (hdr : ieee80211_hdr) (d1 d2 : List Nat)
    (hlen : 16 ≤ d1.length) (hl : d2.length = d1.length)
    (h : ∀ k, k < d1.length - 8 → d2.getD k 0 = d1.getD k 0) :
    frame_plain E hdr d2 = frame_plain E hdr d1 ∧ frame_mac E hdr d2 = frame_mac E hdr d1 ∧
    frame_tag E hdr d2 = frame_tag E hdr d1 := by
  have hn : ccmp_aad_nonce hdr d2 = ccmp_aad_nonce hdr d1 :=
    aad_nonce_congr hdr d2 d1 (fun k hk => h k (by omega))
  have hp : frame_plain E hdr d2 = frame_plain E hdr d1 := by
    unfold frame_plain
    rw [hn, hl]
    apply ctr_plain_congr
    intro j hj
    rw [getD_drop, getD_drop]
    exact h _ (by omega)
  have hm : frame_mac E hdr d2 = frame_mac E hdr d1 := by
    unfold frame_mac
    rw [hn, hl, hp]
  refine ⟨hp, hm, ?_⟩
  unfold frame_tag
  rw [hn, hm]

/-- a frame is accepted exactly when its last 8 bytes are its tag -/
theorem accept_iff_tag {κ : Type} (env : Env κ) (tk : List Nat) (hdr : ieee80211_hdr)
    (data : List Nat) (aes : κ) (hlen : 16 ≤ data.length)
    (hmal : env.os_malloc data.length = true) (hinit : env.aes_encrypt_init tk 16 = some aes)
    (hE : CipherOK (env.aes_encrypt aes)) (hd : IsBytes data) (hh : HdrBytes hdr) :
    ((∃ p, (ccmp_decrypt env tk hdr data).plain = some p) ↔
      data.drop (data.length - 8) = frame_tag (env.aes_encrypt aes) hdr data) ∧
    ((ccmp_decrypt env tk hdr data).plain = none ↔
      data.drop (data.length - 8) ≠ frame_tag (env.aes_encrypt aes) hdr data) := by
  obtain ⟨h1, _⟩ := decrypt_result env tk hdr data aes hlen hmal hinit hE hd hh
  rw [mic_t_eq] at h1
  have ht := tag_iff (frame_mac (env.aes_encrypt aes) hdr data)
    (env.aes_encrypt aes (0x01 :: ((ccmp_aad_nonce hdr data).nonce ++ [0x00, 0x00])))
    (data.drop (data.length - 8)) (by rw [frame_mac, (ccm_cbc_mac_ok _ hE _ _ _).1]) (hE _).1
    (by rw [List.length_drop]; omega)
  unfold frame_tag
  rw [h1]
  constructor
  · constructor
    · rintro ⟨p, hp⟩
      by_contra hc
      rw [if_neg (fun h => hc (ht.1 h))] at hp
      exact Option.noConfusion hp
    · intro hc
      exact ⟨_, if_pos (ht.2 hc)⟩
  · constructor
    · intro hnone hc
      rw [if_pos (ht.2 hc)] at hnone
      exact Option.noConfusion hnone
    · intro hc
      exact if_neg (fun h => hc (ht.1 h))

theorem map_range_getD (n : Nat) (f : Nat → Nat) (j : Nat) (h : j < n) :
    ((List.range n).map f).getD j 0 = f j := by
  simp [List.getElem?_range, h]

/-- C3: for an accepted frame whose payload has fewer than 65536 blocks the returned
length is `data_len - 16` and plaintext byte `j` is `data[8 + j] XOR E(K, A_i)[j mod 16]`
with `i = j / 16 + 1` and `A_i = 0x01 || nonce || big-endian 16-bit i`; the plaintext has
exactly `data_len - 16` bytes, so the final partial block is XORed over its actual byte
count only. -/
theorem C3_ctr_plaintext_bytes {κ : Type} (env : Env κ) (tk : List Nat) (hdr : ieee80211_hdr)
    (data : List Nat) (aes : κ) (p : List Nat)
    (hinit : env.aes_encrypt_init tk 16 = some aes)
    (hE : CipherOK (env.aes_encrypt aes)) (hd : IsBytes data) (hh : HdrBytes hdr)
    (hacc : (ccmp_decrypt env tk hdr data).plain = some p)
    (hblocks : (data.length - 16 + 15) / 16 < 65536) :
    (ccmp_decrypt env tk hdr data).decrypted_len = some (data.length - 16) ∧
    p.length = data.length - 16 ∧
    ∀ j, j < data.length - 16 →
      p.getD j 0 = data.getD (8 + j) 0 ^^^
        (env.aes_encrypt aes (0x01 :: ((ccmp_aad_nonce hdr data).nonce
          ++ [(j / 16 + 1) / 256, (j / 16 + 1) % 256]))).getD (j % 16) 0 := by
  obtain ⟨hlen, hmal⟩ := accept_inv env tk hdr data p hacc
  obtain ⟨h1, h2⟩ := decrypt_result env tk hdr data aes hlen hmal hinit hE hd hh
  rw [h1] at hacc
  rw [h2]
  by_cases hc : (frame_mac (env.aes_encrypt aes) hdr data).take 8
      = mic_t (env.aes_encrypt aes) (ccmp_aad_nonce hdr data).nonce data
  · rw [if_pos hc] at hacc
    rw [if_pos hc]
    have hp : p = frame_plain (env.aes_encrypt aes) hdr data := (Option.some.inj hacc).symm
    subst hp
    refine ⟨rfl, ctr_plain_length _ _ _ _, ?_⟩
    intro j hj
    unfold frame_plain ctr_plain
    rw [map_range_getD _ _ _ hj, getD_drop, Nat.xor_comm]
    have e : 1 + j / 16 = j / 16 + 1 := by omega
    rw [e]
    unfold ctr_block
    rw [WPA_PUT_BE16_digits _ (by omega)]
  · rw [if_neg hc] at hacc
    exact Option.noConfusion hacc

/-- C3 at the frame `frame0`, whose 20-byte payload ends in a partial block. -/
theorem C3_ctr_plaintext_bytes_witness :
    toy_env.aes_encrypt_init tk0 16 = some tk0 ∧ CipherOK (toy_env.aes_encrypt tk0) ∧
    IsBytes frame0 ∧ HdrBytes hdr0 ∧
    (ccmp_decrypt toy_env tk0 hdr0 frame0).plain = some msg0 ∧
    (frame0.length - 16 + 15) / 16 < 65536 ∧
    (ccmp_decrypt toy_env tk0 hdr0 frame0).decrypted_len = some (frame0.length - 16) ∧
    msg0.length = frame0.length - 16 ∧
    ∀ j, j < frame0.length - 16 →
      msg0.getD j 0 = frame0.getD (8 + j) 0 ^^^
        (toy_env.aes_encrypt tk0 (0x01 :: ((ccmp_aad_nonce hdr0 frame0).nonce
          ++ [(j / 16 + 1) / 256, (j / 16 + 1) % 256]))).getD (j % 16) 0 :=
  ⟨rfl, toy_cipher_ok tk0, by decide, by decide, by decide, by decide,
    C3_ctr_plaintext_bytes toy_env tk0 hdr0 frame0 tk0 msg0 rfl (toy_cipher_ok tk0)
      (by decide) (by decide) (by decide) (by decide)⟩

/-- C4: on a frame shorter than 16 bytes `ccmp_decrypt` returns `NULL`, stores no
length and makes no call to the AES primitive (no `aes_encrypt_init`, no `aes_encrypt`);
the result is the same in every environment, whatever the cipher. -/
theorem C4_short_frame_fails_without_cipher {κ κ' : Type} (env : Env κ) (env' : Env κ')
    (tk : List Nat) (hdr : ieee80211_hdr) (data : List Nat) (h : data.length < 16) :
    (ccmp_decrypt env tk hdr data).plain = none ∧
    (ccmp_decrypt env tk hdr data).decrypted_len = none ∧
    (ccmp_decrypt env tk hdr data).aes_calls = [] ∧
    ccmp_decrypt env' tk hdr data = ccmp_decrypt env tk hdr data := by
  rw [decrypt_short env tk hdr data h, decrypt_short env' tk hdr data h]
  exact ⟨rfl, rfl, rfl, rfl⟩

/-- C4 at a frame of 15 bytes, on a little-endian and on a big-endian host. -/
theorem C4_short_frame_fails_without_cipher_witness :
    frame_short.length < 16 ∧
    (ccmp_decrypt toy_env tk0 hdr0 frame_short).plain = none ∧
    (ccmp_decrypt toy_env tk0 hdr0 frame_short).decrypted_len = none ∧
    (ccmp_decrypt toy_env tk0 hdr0 frame_short).aes_calls = [] ∧
    ccmp_decrypt { toy_env with host_le := false } tk0 hdr0 frame_short
      = ccmp_decrypt toy_env tk0 hdr0 frame_short :=
  ⟨by decide, C4_short_frame_fails_without_cipher toy_env { toy_env with host_le := false }
    tk0 hdr0 frame_short (by decide)⟩

/-- C5: on a frame of exactly 16 bytes (CCMP header, then the MIC) `ccmp_decrypt`
returns an empty plaintext with `decrypted_len = 0` when the MIC is the first 8 bytes of
the CBC-MAC over `B_0` (length field 0) and the two AAD blocks, XORed with the first 8
bytes of `E(K, A_0)`, and fails for every other MIC. -/
theorem C5_empty_payload {κ : Type} (env : Env κ) (tk : List Nat) (hdr : ieee80211_hdr)
    (data : List Nat) (aes : κ) (hlen : data.length = 16)
    (hmal : env.os_malloc data.length = true) (hinit : env.aes_encrypt_init tk 16 = some aes)
    (hE : CipherOK (env.aes_encrypt aes)) (hd : IsBytes data) (hh : HdrBytes hdr) :
    (data.drop 8 = ccm_xor
        ((env.aes_encrypt aes (ccm_xor (env.aes_encrypt aes (ccm_xor
            (env.aes_encrypt aes (0x59 :: ((ccmp_aad_nonce hdr data).nonce ++ [0x00, 0x00])))
            ((aad_buffer (ccmp_aad_nonce hdr data)).take 16)))
            ((aad_buffer (ccmp_aad_nonce hdr data)).drop 16))).take 8)
        ((env.aes_encrypt aes (0x01 :: ((ccmp_aad_nonce hdr data).nonce ++ [0x00, 0x00]))).take 8) →
      (ccmp_decrypt env tk hdr data).plain = some [] ∧
      (ccmp_decrypt env tk hdr data).decrypted_len = some 0) ∧
    (data.drop 8 ≠ ccm_xor
        ((env.aes_encrypt aes (ccm_xor (env.aes_encrypt aes (ccm_xor
            (env.aes_encrypt aes (0x59 :: ((ccmp_aad_nonce hdr data).nonce ++ [0x00, 0x00])))
            ((aad_buffer (ccmp_aad_nonce hdr data)).take 16)))
            ((aad_buffer (ccmp_aad_nonce hdr data)).drop 16))).take 8)
        ((env.aes_encrypt aes (0x01 :: ((ccmp_aad_nonce hdr data).nonce ++ [0x00, 0x00]))).take 8) →
      (ccmp_decrypt env tk hdr data).plain = none ∧
      (ccmp_decrypt env tk hdr data).decrypted_len = none) := by
  obtain ⟨h1, h2⟩ := decrypt_result env tk hdr data aes (by omega) hmal hinit hE hd hh
  have ht := tag_iff (frame_mac (env.aes_encrypt aes) hdr data)
    (env.aes_encrypt aes (0x01 :: ((ccmp_aad_nonce hdr data).nonce ++ [0x00, 0x00])))
    (data.drop (data.length - 8)) (by rw [frame_mac, (ccm_cbc_mac_ok _ hE _ _ _).1]) (hE _).1
    (by rw [List.length_drop]; omega)
  rw [mic_t_eq] at h1 h2
  have hP : frame_plain (env.aes_encrypt aes) hdr data = [] := by
    unfold frame_plain ctr_plain
    rw [hlen]
    rfl
  have hX : frame_mac (env.aes_encrypt aes) hdr data
      = env.aes_encrypt aes (ccm_xor (env.aes_encrypt aes (ccm_xor
          (env.aes_encrypt aes (0x59 :: ((ccmp_aad_nonce hdr data).nonce ++ [0x00, 0x00])))
          ((aad_buffer (ccmp_aad_nonce hdr data)).take 16)))
          ((aad_buffer (ccmp_aad_nonce hdr data)).drop 16)) := by
    unfold frame_mac ccm_cbc_mac
    rw [hP, aad_blocks_eq, hlen]
    unfold mac_block0
    rw [WPA_PUT_BE16_zero]
    rfl
  have e8 : data.length - 8 = 8 := by omega
  have e0 : data.length - 16 = 0 := by omega
  rw [hX, e8] at ht
  rw [hX, hP, e8] at h1
  rw [hX, e8, e0] at h2
  rw [h1, h2]
  constructor
  · intro hc
    exact ⟨if_pos (ht.2 hc), if_pos (ht.2 hc)⟩
  · intro hc
    exact ⟨if_neg (fun h => hc (ht.1 h)), if_neg (fun h => hc (ht.1 h))⟩

/-- C5 at the frame `frame_empty`, whose MIC is valid. -/
theorem C5_empty_payload_witness :
    frame_empty.length = 16 ∧ toy_env.os_malloc frame_empty.length = true ∧
    toy_env.aes_encrypt_init tk0 16 = some tk0 ∧ CipherOK (toy_env.aes_encrypt tk0) ∧
    IsBytes frame_empty ∧ HdrBytes hdr0 ∧
    (ccmp_decrypt toy_env tk0 hdr0 frame_empty).plain = some [] ∧
    (ccmp_decrypt toy_env tk0 hdr0 frame_empty).decrypted_len = some 0 :=
  ⟨rfl, rfl, rfl, toy_cipher_ok tk0, by decide, by decide,
    (C5_empty_payload toy_env tk0 hdr0 frame_empty tk0 rfl rfl rfl (toy_cipher_ok tk0)
      (by decide) (by decide)).1 (by decide)⟩

/-- C6: when `ccmp_decrypt` accepts a frame, every frame that differs from it only in
the trailing 8-byte MIC (one bit flipped, or any other change) is rejected. -/
theorem C6_mic_tamper_rejected {κ : Type} (env : Env κ) (tk : List Nat) (hdr : ieee80211_hdr)
    (data : List Nat) (aes : κ) (p mic' : List Nat)
    (hinit : env.aes_encrypt_init tk 16 = some aes)
    (hE : CipherOK (env.aes_encrypt aes)) (hd : IsBytes data) (hh : HdrBytes hdr)
    (hacc : (ccmp_decrypt env tk hdr data).plain = some p)
    (hm : mic'.length = 8) (hmb : IsBytes mic') (hne : mic' ≠ data.drop (data.length - 8)) :
    (ccmp_decrypt env tk hdr (data.take (data.length - 8) ++ mic')).plain = none ∧
    (ccmp_decrypt env tk hdr (data.take (data.length - 8) ++ mic')).decrypted_len = none := by
  obtain ⟨hlen, hmal⟩ := accept_inv env tk hdr data p hacc
  have hl : (data.take (data.length - 8) ++ mic').length = data.length := by
    rw [List.length_append, List.length_take, hm]; omega
  have hd' : IsBytes (data.take (data.length - 8) ++ mic') :=
    isBytes_append.2 ⟨isBytes_take hd _, hmb⟩
  have hsame : ∀ k, k < data.length - 8 →
      (data.take (data.length - 8) ++ mic').getD k 0 = data.getD k 0 := by
    intro k hk
    rw [List.getD_append _ _ _ _ (by rw [List.length_take]; omega), getD_take _ _ _ hk]
  obtain ⟨_, _, htag⟩ := frame_tag_congr (env.aes_encrypt aes) hdr data
    (data.take (data.length - 8) ++ mic') hlen hl hsame
  have hmic : (data.take (data.length - 8) ++ mic').drop
      ((data.take (data.length - 8) ++ mic').length - 8) = mic' := by
    rw [hl, List.drop_append_of_le_length (by rw [List.length_take]; omega),
      List.drop_of_length_le (by rw [List.length_take]; omega), List.nil_append]
  have h0 := (accept_iff_tag env tk hdr data aes hlen hmal hinit hE hd hh).1.1 ⟨p, hacc⟩
  have h1 := (accept_iff_tag env tk hdr _ aes (by omega) (by rw [hl]; exact hmal) hinit hE hd' hh).2
  have hrej : (ccmp_decrypt env tk hdr (data.take (data.length - 8) ++ mic')).plain = none := by
    apply h1.2
    rw [hmic, htag, ← h0]
    exact hne
  refine ⟨hrej, ?_⟩
  obtain ⟨h2, h3⟩ := decrypt_result env tk hdr _ aes (by omega) (by rw [hl]; exact hmal) hinit
    hE hd' hh
  rw [h2] at hrej
  rw [h3]
  split_ifs at hrej ⊢ with hc
  rfl

/-- C6 at the frame `frame0`: with the last bit of the MIC flipped it is rejected. -/
theorem C6_mic_tamper_rejected_witness :
    toy_env.aes_encrypt_init tk0 16 = some tk0 ∧ CipherOK (toy_env.aes_encrypt tk0) ∧
    IsBytes frame0 ∧ HdrBytes hdr0 ∧
    (ccmp_decrypt toy_env tk0 hdr0 frame0).plain = some msg0 ∧
    frame0.take (frame0.length - 8) ++ [4, 34, 16, 20, 223, 221, 40, 251] = frame0_bad_mic ∧
    (ccmp_decrypt toy_env tk0 hdr0
      (frame0.take (frame0.length - 8) ++ [4, 34, 16, 20, 223, 221, 40, 251])).plain = none ∧
    (ccmp_decrypt toy_env tk0 hdr0
      (frame0.take (frame0.length - 8) ++ [4, 34, 16, 20, 223, 221, 40, 251])).decrypted_len
      = none :=
  ⟨rfl, toy_cipher_ok tk0, by decide, by decide, by decide, by decide,
    C6_mic_tamper_rejected toy_env tk0 hdr0 frame0 tk0 msg0 [4, 34, 16, 20, 223, 221, 40, 251]
      rfl (toy_cipher_ok tk0) (by decide) (by decide) (by decide) rfl (by decide) (by decide)⟩

theorem WPA_PUT_BE16_eq_be16 (v : Nat) : WPA_PUT_BE16 v = ccm_be16 v := by
  unfold WPA_PUT_BE16 ccm_be16
  have e : (255 : Nat) = 2 ^ 8 - 1 := by decide
  rw [Nat.shiftRight_eq_div_pow, e, Nat.and_pow_two_sub_one_eq_mod]
  have h1 : v % 65536 / 2 ^ 8 = v / 256 % 256 := by omega
  have h2 : v % 65536 % 2 ^ 8 = v % 256 := by omega
  rw [h1, h2]

theorem ctr_block_eq (N : List Nat) (i : Nat) : ctr_block N i = ccm_A N i := by
  unfold ctr_block ccm_A
  rw [WPA_PUT_BE16_eq_be16]

theorem mac_block0_eq (N : List Nat) (l : Nat) : mac_block0 N l = ccm_B0 N l := by
  unfold mac_block0 ccm_B0
  rw [WPA_PUT_BE16_eq_be16]

theorem ccm_keystream_length (E : List Nat → List Nat) (hE : CipherOK E) (N : List Nat)
    (n i : Nat) : (ccm_keystream E N n i).length = 16 * n := by
  induction n generalizing i with
  | zero => rfl
  | succ n ih =>
    rw [ccm_keystream, List.length_append, ih, (hE _).1]
    omega

theorem ccm_keystream_getD (E : List Nat → List Nat) (hE : CipherOK E) (N : List Nat)
    (n i j : Nat) (hj : j < 16 * n) :
    (ccm_keystream E N n i).getD j 0 = (E (ccm_A N (i + j / 16))).getD (j % 16) 0 := by
  induction n generalizing i j with
  | zero => omega
  | succ n ih =>
    rw [ccm_keystream]
    by_cases h16 : j < 16
    · rw [List.getD_append _ _ _ _ (by rw [(hE _).1]; exact h16)]
      have e1 : j / 16 = 0 := by omega
      have e2 : j % 16 = j := by omega
      rw [e1, e2, Nat.add_zero]
    · rw [List.getD_append_right _ _ _ _ (by rw [(hE _).1]; omega), (hE _).1,
        ih (i + 1) (j - 16) (by omega)]
      have e1 : i + 1 + (j - 16) / 16 = i + j / 16 := by omega
      have e2 : (j - 16) % 16 = j % 16 := by omega
      rw [e1, e2]

theorem isBytes_ccm_keystream (E : List Nat → List Nat) (hE : CipherOK E) (N : List Nat)
    (n i : Nat) : IsBytes (ccm_keystream E N n i) := by
  induction n generalizing i with
  | zero => exact isBytes_nil
  | succ n ih =>
    rw [ccm_keystream]
    exact isBytes_append.2 ⟨(hE _).2, ih _⟩

theorem isBytes_ccm_xor (a b : List Nat) (ha : IsBytes a) (hb : IsBytes b) :
    IsBytes (ccm_xor a b) := by
  induction a generalizing b with
  | nil => simp [ccm_xor, IsBytes]
  | cons x a ih =>
    cases b with
    | nil => simp [ccm_xor, IsBytes]
    | cons y b =>
      rw [isBytes_cons] at ha hb
      have := ih b ha.2 hb.2
      unfold ccm_xor at this ⊢
      rw [List.zipWith_cons_cons, isBytes_cons]
      exact ⟨xor_byte_lt ha.1 hb.1, this⟩

theorem ccm_xor_length (a b : List Nat) : (ccm_xor a b).length = min a.length b.length := by
  simp [ccm_xor]

theorem ccm_xor_getD (a b : List Nat) (j : Nat) (h1 : j < a.length) (h2 : j < b.length) :
    (ccm_xor a b).getD j 0 = a.getD j 0 ^^^ b.getD j 0 := by
  simp [ccm_xor, List.getElem?_zipWith, List.getElem?_eq_getElem, h1, h2]

/-- the shape of an encrypted frame -/
theorem ccm_encrypt_shape (E : List Nat → List Nat) (hE : CipherOK E) (hdr : ieee80211_hdr)
    (h8 p : List Nat) (h8l : h8.length = 8) :
    (ccm_encrypt E hdr h8 p).length = p.length + 16 ∧
    (∀ k, k < 8 → (ccm_encrypt E hdr h8 p).getD k 0 = h8.getD k 0) ∧
    (∀ j, j < p.length → (ccm_encrypt E hdr h8 p).getD (8 + j) 0
      = p.getD j 0 ^^^ (E (ccm_A (ccmp_aad_nonce hdr h8).nonce (1 + j / 16))).getD (j % 16) 0) ∧
    (ccm_encrypt E hdr h8 p).drop (p.length + 8)
      = ccm_xor ((ccm_cbc_mac E (ccm_B0 (ccmp_aad_nonce hdr h8).nonce p.length)
          (ccm_be16 (ccmp_aad_nonce hdr h8).aad_len ++ (ccmp_aad_nonce hdr h8).aad) p).take 8)
          ((E (ccm_A (ccmp_aad_nonce hdr h8).nonce 0)).take 8) := by
  have hks := ccm_keystream_length E hE (ccmp_aad_nonce hdr h8).nonce ((p.length + 15) / 16) 1
  have hkt : ((ccm_keystream E (ccmp_aad_nonce hdr h8).nonce ((p.length + 15) / 16) 1).take
      p.length).length = p.length := by
    rw [List.length_take, hks]; omega
  have hc : (ccm_xor p ((ccm_keystream E (ccmp_aad_nonce hdr h8).nonce
      ((p.length + 15) / 16) 1).take p.length)).length = p.length := by
    rw [ccm_xor_length, hkt]; omega
  have hX := (ccm_cbc_mac_ok E hE (ccm_B0 (ccmp_aad_nonce hdr h8).nonce p.length)
    (ccm_be16 (ccmp_aad_nonce hdr h8).aad_len ++ (ccmp_aad_nonce hdr h8).aad) p).1
  have hS := (hE (ccm_A (ccmp_aad_nonce hdr h8).nonce 0)).1
  unfold ccm_encrypt
  simp only []
  refine ⟨?_, ?_, ?_, ?_⟩
  · rw [List.length_append, List.length_append, hc, ccm_xor_length, List.length_take,
      List.length_take, hX, hS, h8l]
    omega
  · intro k hk
    rw [List.append_assoc, List.getD_append _ _ _ _ (by omega)]
  · intro j hj
    rw [List.getD_append _ _ _ _ (by rw [List.length_append, hc]; omega),
      List.getD_append_right _ _ _ _ (by omega), h8l]
    have e : 8 + j - 8 = j := by omega
    rw [e, ccm_xor_getD _ _ _ hj (by omega), getD_take _ _ _ hj,
      ccm_keystream_getD E hE _ _ _ _ (by omega)]
  · rw [List.drop_append_of_le_length (by rw [List.length_append, hc]; omega),
      List.drop_of_length_le (by rw [List.length_append, hc]; omega), List.nil_append]

/-- C2 (round trip): the frame that the companion CCM encryption builds from a header, an
8-byte CCMP header and a plaintext `p` is accepted by `ccmp_decrypt`, which returns
exactly `p` with `decrypted_len = |p|`. -/
theorem C2_round_trip {κ : Type} (env : Env κ) (tk : List Nat) (hdr : ieee80211_hdr)
    (ccmp_hdr p : List Nat) (aes : κ)
    (hmal : env.os_malloc (p.length + 16) = true)
    (hinit : env.aes_encrypt_init tk 16 = some aes)
    (hE : CipherOK (env.aes_encrypt aes)) (hh : HdrBytes hdr)
    (h8l : ccmp_hdr.length = 8) (h8b : IsBytes ccmp_hdr) (hp : IsBytes p) :
    (ccmp_decrypt env tk hdr (ccm_encrypt (env.aes_encrypt aes) hdr ccmp_hdr p)).plain = some p ∧
    (ccmp_decrypt env tk hdr (ccm_encrypt (env.aes_encrypt aes) hdr ccmp_hdr p)).decrypted_len
      = some p.length := by
  obtain ⟨hl, hhead, hbody, htail⟩ := ccm_encrypt_shape (env.aes_encrypt aes) hE hdr ccmp_hdr p h8l
  have hdb : IsBytes (ccm_encrypt (env.aes_encrypt aes) hdr ccmp_hdr p) := by
    unfold ccm_encrypt
    simp only [isBytes_append]
    exact ⟨⟨h8b, isBytes_ccm_xor _ _ hp (isBytes_take (isBytes_ccm_keystream _ hE _ _ _) _)⟩,
      isBytes_ccm_xor _ _ (isBytes_take (ccm_cbc_mac_ok _ hE _ _ _).2 _)
        (isBytes_take (hE _).2 _)⟩
  have hn : ccmp_aad_nonce hdr (ccm_encrypt (env.aes_encrypt aes) hdr ccmp_hdr p)
      = ccmp_aad_nonce hdr ccmp_hdr := aad_nonce_congr hdr _ _ hhead
  obtain ⟨h1, h2⟩ := decrypt_result env tk hdr _ aes (by omega) (by rw [hl]; exact hmal) hinit hE
    hdb hh
  have hP : frame_plain (env.aes_encrypt aes) hdr
      (ccm_encrypt (env.aes_encrypt aes) hdr ccmp_hdr p) = p := by
    unfold frame_plain ctr_plain
    rw [hn, hl]
    have e : p.length + 16 - 16 = p.length := by omega
    rw [e]
    symm
    apply list_eq_map_range _ _ _ rfl
    intro j hj
    rw [getD_drop, hbody j hj, ctr_block_eq, Nat.xor_comm, Nat.xor_cancel_right]
  have hX : frame_mac (env.aes_encrypt aes) hdr
      (ccm_encrypt (env.aes_encrypt aes) hdr ccmp_hdr p)
      = ccm_cbc_mac (env.aes_encrypt aes) (ccm_B0 (ccmp_aad_nonce hdr ccmp_hdr).nonce p.length)
          (ccm_be16 (ccmp_aad_nonce hdr ccmp_hdr).aad_len ++ (ccmp_aad_nonce hdr ccmp_hdr).aad)
          p := by
    unfold frame_mac
    rw [hP, hn, hl, mac_block0_eq, WPA_PUT_BE16_eq_be16]
    have e : p.length + 16 - 16 = p.length := by omega
    rw [e]
  have ht := (tag_iff (frame_mac (env.aes_encrypt aes) hdr
      (ccm_encrypt (env.aes_encrypt aes) hdr ccmp_hdr p))
    (env.aes_encrypt aes (0x01 :: ((ccmp_aad_nonce hdr ccmp_hdr).nonce ++ [0x00, 0x00])))
    ((ccm_encrypt (env.aes_encrypt aes) hdr ccmp_hdr p).drop (p.length + 8))
    (by rw [frame_mac, (ccm_cbc_mac_ok _ hE _ _ _).1]) (hE _).1
    (by rw [List.length_drop, hl]; omega)).2
    (by
      rw [htail, hX]
      rfl)
  rw [mic_t_eq, hn, hl] at h1 h2
  have e8 : p.length + 16 - 8 = p.length + 8 := by omega
  have e16 : p.length + 16 - 16 = p.length := by omega
  rw [e8] at h1 h2
  rw [h1, h2, if_pos ht, if_pos ht, hP, e16]
  exact ⟨rfl, rfl⟩

/-- C2 at the plaintext `msg0`: its encrypted frame is `frame0` and decrypts to `msg0`. -/
theorem C2_round_trip_witness :
    toy_env.os_malloc (msg0.length + 16) = true ∧
    toy_env.aes_encrypt_init tk0 16 = some tk0 ∧ CipherOK (toy_env.aes_encrypt tk0) ∧
    HdrBytes hdr0 ∧ ccmp_hdr0.length = 8 ∧ IsBytes ccmp_hdr0 ∧ IsBytes msg0 ∧
    ccm_encrypt (toy_env.aes_encrypt tk0) hdr0 ccmp_hdr0 msg0 = frame0 ∧
    (ccmp_decrypt toy_env tk0 hdr0
      (ccm_encrypt (toy_env.aes_encrypt tk0) hdr0 ccmp_hdr0 msg0)).plain = some msg0 ∧
    (ccmp_decrypt toy_env tk0 hdr0
      (ccm_encrypt (toy_env.aes_encrypt tk0) hdr0 ccmp_hdr0 msg0)).decrypted_len
      = some msg0.length :=
  ⟨rfl, rfl, toy_cipher_ok tk0, by decide, rfl, by decide, by decide, by decide,
    C2_round_trip toy_env tk0 hdr0 ccmp_hdr0 msg0 tk0 rfl rfl (toy_cipher_ok tk0) (by decide)
      rfl (by decide) (by decide)⟩

theorem and_mask_congr (a b M k : Nat) (h : a &&& M = b &&& M) (hk : M &&& k = k) :
    a &&& k = b &&& k := by
  rw [← hk, ← Nat.and_assoc, ← Nat.and_assoc, h]

theorem and_mask_step (a b m M : Nat) (h : a &&& M = b &&& M) :
    (a &&& m) &&& M = (b &&& m) &&& M := by
  rw [Nat.and_assoc, Nat.and_comm m M, ← Nat.and_assoc, h, Nat.and_assoc, Nat.and_comm M m,
    ← Nat.and_assoc]

theorem fc_qos_congr (hdr : ieee80211_hdr) (fc' : Nat)
    (hfc : (fc' % 65536) &&& not16 (WLAN_FC_RETRY ||| WLAN_FC_PWRMGT ||| WLAN_FC_MOREDATA)
      = (hdr.frame_control % 65536)
        &&& not16 (WLAN_FC_RETRY ||| WLAN_FC_PWRMGT ||| WLAN_FC_MOREDATA)) :
    (ccmp_fc_qos { hdr with frame_control := fc' }).qos = (ccmp_fc_qos hdr).qos ∧
    (ccmp_fc_qos { hdr with frame_control := fc' }).nonce0 = (ccmp_fc_qos hdr).nonce0 ∧
    (ccmp_fc_qos { hdr with frame_control := fc' }).fc
        &&& not16 (WLAN_FC_RETRY ||| WLAN_FC_PWRMGT ||| WLAN_FC_MOREDATA)
      = (ccmp_fc_qos hdr).fc &&& not16 (WLAN_FC_RETRY ||| WLAN_FC_PWRMGT ||| WLAN_FC_MOREDATA) := by
  have hM : not16 (WLAN_FC_RETRY ||| WLAN_FC_PWRMGT ||| WLAN_FC_MOREDATA) = 0xc7ff := by decide
  rw [hM] at hfc ⊢
  have h1 := and_mask_congr _ _ _ 0x000c hfc (by decide)
  have h2 := and_mask_congr _ _ _ 0x00f0 hfc (by decide)
  have h3 := and_mask_congr _ _ _ (WLAN_FC_TODS ||| WLAN_FC_FROMDS) hfc (by decide)
  unfold ccmp_fc_qos WLAN_FC_GET_TYPE WLAN_FC_GET_STYPE
  simp only [h1, h2, h3]
  split_ifs
  all_goals first
    | exact ⟨rfl, rfl, hfc⟩
    | exact ⟨rfl, rfl, and_mask_step _ _ _ _ hfc⟩
    | exact ⟨rfl, rfl, and_mask_step _ _ _ _ (and_mask_step _ _ _ _ hfc)⟩

/-- C8 (mutable-field invariance): two headers that differ only in the retry (0x0800),
power-management (0x1000) and more-data (0x2000) bits of frame-control give the same AAD
bytes, AAD length and nonce for every CCMP header, and `ccmp_decrypt` gives the same result
for both on the same key and frame, in every environment. -/
theorem C8_mutable_bits_invariance (hdr : ieee80211_hdr) (fc' : Nat)
    (hfc : (fc' % 65536) &&& not16 (WLAN_FC_RETRY ||| WLAN_FC_PWRMGT ||| WLAN_FC_MOREDATA)
      = (hdr.frame_control % 65536)
        &&& not16 (WLAN_FC_RETRY ||| WLAN_FC_PWRMGT ||| WLAN_FC_MOREDATA)) :
    (∀ d : List Nat,
      (ccmp_aad_nonce { hdr with frame_control := fc' } d).aad = (ccmp_aad_nonce hdr d).aad ∧
      (ccmp_aad_nonce { hdr with frame_control := fc' } d).aad_len
        = (ccmp_aad_nonce hdr d).aad_len ∧
      (ccmp_aad_nonce { hdr with frame_control := fc' } d).nonce = (ccmp_aad_nonce hdr d).nonce) ∧
    (∀ (κ : Type) (env : Env κ) (tk data : List Nat),
      ccmp_decrypt env tk { hdr with frame_control := fc' } data
        = ccmp_decrypt env tk hdr data) := by
  have key : ∀ d : List Nat,
      ccmp_aad_nonce { hdr with frame_control := fc' } d = ccmp_aad_nonce hdr d := by
    intro d
    obtain ⟨hq, hn, hf⟩ := fc_qos_congr hdr fc' hfc
    have hM : not16 (WLAN_FC_RETRY ||| WLAN_FC_PWRMGT ||| WLAN_FC_MOREDATA) = 0xc7ff := by decide
    have h3 := and_mask_congr _ _ _ (WLAN_FC_TODS ||| WLAN_FC_FROMDS) (hM ▸ hfc) (by decide)
    unfold ccmp_aad_nonce
    simp only [hq, hn, hf, h3]
  constructor
  · intro d
    rw [key d]
    exact ⟨rfl, rfl, rfl⟩
  · intro κ env tk data
    unfold ccmp_decrypt
    simp only [key]

/-- C8 at the header `hdr0` and the same header with the three mutable bits set. -/
theorem C8_mutable_bits_invariance_witness :
    ((0x7988 % 65536) &&& not16 (WLAN_FC_RETRY ||| WLAN_FC_PWRMGT ||| WLAN_FC_MOREDATA)
      = (hdr0.frame_control % 65536)
        &&& not16 (WLAN_FC_RETRY ||| WLAN_FC_PWRMGT ||| WLAN_FC_MOREDATA)) ∧
    (ccmp_aad_nonce hdr0_mutable ccmp_hdr0).aad = (ccmp_aad_nonce hdr0 ccmp_hdr0).aad ∧
    (ccmp_aad_nonce hdr0_mutable ccmp_hdr0).aad_len = (ccmp_aad_nonce hdr0 ccmp_hdr0).aad_len ∧
    (ccmp_aad_nonce hdr0_mutable ccmp_hdr0).nonce = (ccmp_aad_nonce hdr0 ccmp_hdr0).nonce ∧
    ccmp_decrypt toy_env tk0 hdr0_mutable frame0 = ccmp_decrypt toy_env tk0 hdr0 frame0 :=
  ⟨by decide, ((C8_mutable_bits_invariance hdr0 0x7988 (by decide)).1 ccmp_hdr0).1,
    ((C8_mutable_bits_invariance hdr0 0x7988 (by decide)).1 ccmp_hdr0).2.1,
    ((C8_mutable_bits_invariance hdr0 0x7988 (by decide)).1 ccmp_hdr0).2.2,
    (C8_mutable_bits_invariance hdr0 0x7988 (by decide)).2 _ toy_env tk0 frame0⟩

/-- C9 (counterexample): a frame of 15 bytes and a frame of 16 bytes whose MIC does not
match give the same return value, `NULL`, and neither stores a length. -/
theorem C9_counterexample :
    frame_short.length < 16 ∧ 16 ≤ frame_empty_bad_mic.length ∧
    (frame_mac (toy_env.aes_encrypt tk0) hdr0 frame_empty_bad_mic).take 8
      ≠ (List.range 8).map (fun i =>
          (frame_empty_bad_mic.drop (frame_empty_bad_mic.length - 8)).getD i 0
            ^^^ (toy_env.aes_encrypt tk0
                  (0x01 :: ((ccmp_aad_nonce hdr0 frame_empty_bad_mic).nonce
                    ++ [0x00, 0x00]))).getD i 0) ∧
    (ccmp_decrypt toy_env tk0 hdr0 frame_short).plain = none ∧
    (ccmp_decrypt toy_env tk0 hdr0 frame_empty_bad_mic).plain = none ∧
    (ccmp_decrypt toy_env tk0 hdr0 frame_short).decrypted_len = none ∧
    (ccmp_decrypt toy_env tk0 hdr0 frame_empty_bad_mic).decrypted_len = none := by
  decide

/-- C9 (amended): both failures give the caller the same values: for an input shorter
than 16 bytes and for an input of at least 16 bytes whose MIC does not match,
`ccmp_decrypt` returns `NULL` and stores nothing in `decrypted_len`. -/
theorem C9_failures_return_null {κ : Type} (env : Env κ) (tk : List Nat) (hdr : ieee80211_hdr)
    (short long : List Nat) (aes : κ)
    (hshort : short.length < 16) (hlen : 16 ≤ long.length)
    (hmal : env.os_malloc long.length = true) (hinit : env.aes_encrypt_init tk 16 = some aes)
    (hE : CipherOK (env.aes_encrypt aes)) (hd : IsBytes long) (hh : HdrBytes hdr)
    (hmis : (frame_mac (env.aes_encrypt aes) hdr long).take 8
      ≠ (List.range 8).map (fun i => (long.drop (long.length - 8)).getD i 0
          ^^^ (env.aes_encrypt aes
                (0x01 :: ((ccmp_aad_nonce hdr long).nonce ++ [0x00, 0x00]))).getD i 0)) :
    (ccmp_decrypt env tk hdr short).plain = none ∧
    (ccmp_decrypt env tk hdr short).decrypted_len = none ∧
    (ccmp_decrypt env tk hdr long).plain = none ∧
    (ccmp_decrypt env tk hdr long).decrypted_len = none := by
  obtain ⟨h1, h2⟩ := decrypt_result env tk hdr long aes hlen hmal hinit hE hd hh
  rw [mic_t_eq] at h1 h2
  rw [decrypt_short env tk hdr short hshort, h1, h2, if_neg hmis, if_neg hmis]
  exact ⟨rfl, rfl, rfl, rfl⟩

/-- C9 (amended) at a frame of 15 bytes and at `frame_empty` with a flipped MIC bit. -/
theorem C9_failures_return_null_witness :
    frame_short.length < 16 ∧ 16 ≤ frame_empty_bad_mic.length ∧
    toy_env.os_malloc frame_empty_bad_mic.length = true ∧
    toy_env.aes_encrypt_init tk0 16 = some tk0 ∧ CipherOK (toy_env.aes_encrypt tk0) ∧
    IsBytes frame_empty_bad_mic ∧ HdrBytes hdr0 ∧
    (ccmp_decrypt toy_env tk0 hdr0 frame_short).plain = none ∧
    (ccmp_decrypt toy_env tk0 hdr0 frame_short).decrypted_len = none ∧
    (ccmp_decrypt toy_env tk0 hdr0 frame_empty_bad_mic).plain = none ∧
    (ccmp_decrypt toy_env tk0 hdr0 frame_empty_bad_mic).decrypted_len = none :=
  ⟨by decide, by decide, rfl, rfl, toy_cipher_ok tk0, by decide, by decide,
    C9_failures_return_null toy_env tk0 hdr0 frame_short frame_empty_bad_mic tk0 (by decide)
      (by decide) rfl rfl (toy_cipher_ok tk0) (by decide) (by decide) (by decide)⟩

theorem ctr_loop_calls_encrypt (le : Bool) (E : List Nat → List Nat) (n i : Nat)
    (a mpos : List Nat) :
    ∃ l : List (List Nat), l.length = n ∧ (ctr_loop le E n i a mpos).calls = l.map AesCall.encrypt := by
  induction n generalizing i a mpos with
  | zero => exact ⟨[], rfl, rfl⟩
  | succ n ih =>
    obtain ⟨l, hl, hc⟩ := ih (i + 1) (put_at a 14 (WPA_PUT_BE16 i)) (mpos.drop AES_BLOCK_SIZE)
    refine ⟨put_at a 14 (WPA_PUT_BE16 i) :: l, by simp [hl], ?_⟩
    simp only [ctr_loop, hc, List.map_cons]

theorem cbc_loop_calls_encrypt (le : Bool) (E : List Nat → List Nat) (n : Nat)
    (x ppos : List Nat) :
    ∃ l : List (List Nat), l.length = n ∧ (cbc_loop le E n x ppos).calls = l.map AesCall.encrypt := by
  induction n generalizing x ppos with
  | zero => exact ⟨[], rfl, rfl⟩
  | succ n ih =>
    obtain ⟨l, hl, hc⟩ := ih (E (xor_aes_block le x ppos)) (ppos.drop AES_BLOCK_SIZE)
    refine ⟨xor_aes_block le x ppos :: l, by simp [hl], ?_⟩
    simp only [cbc_loop, hc, List.map_cons]

theorem ccmp_ctr_calls_encrypt (le : Bool) (E : List Nat → List Nat) (a m : List Nat)
    (mlen : Nat) :
    ∃ l : List (List Nat), l.length = (mlen + 15) / 16 ∧
      (ccmp_ctr le E a m mlen).calls = l.map AesCall.encrypt := by
  obtain ⟨l, hl, hc⟩ := ctr_loop_calls_encrypt le E (mlen / AES_BLOCK_SIZE) 1 a m
  unfold ccmp_ctr
  simp only [AES_BLOCK_SIZE] at *
  by_cases h : mlen % 16 = 0
  · refine ⟨l, by omega, ?_⟩
    simp only [h, ne_eq, not_true_eq_false, if_false, hc]
  · refine ⟨l ++ [put_at (ctr_loop le E (mlen / 16) 1 a m).a 14
      (WPA_PUT_BE16 (ctr_loop le E (mlen / 16) 1 a m).i)], ?_, ?_⟩
    · rw [List.length_append, hl]
      simp only [List.length_singleton]
      omega
    · simp only [h, ne_eq, not_false_eq_true, if_true, hc, List.map_append, List.map_cons,
        List.map_nil]

theorem ccmp_auth_calls_encrypt (le : Bool) (E : List Nat → List Nat) (b aad plain : List Nat)
    (mlen : Nat) :
    ∃ l : List (List Nat), l.length = 3 + (mlen + 15) / 16 ∧
      (ccmp_auth le E b aad plain mlen).calls = l.map AesCall.encrypt := by
  obtain ⟨l, hl, hc⟩ := cbc_loop_calls_encrypt le E (mlen / AES_BLOCK_SIZE)
    (E (xor_aes_block le (aad.drop AES_BLOCK_SIZE) (E (xor_aes_block le aad (E b))))) plain
  unfold ccmp_auth
  simp only [AES_BLOCK_SIZE] at *
  by_cases h : mlen % 16 = 0
  · refine ⟨[b, xor_aes_block le aad (E b),
      xor_aes_block le (aad.drop 16) (E (xor_aes_block le aad (E b)))] ++ l, ?_, ?_⟩
    · rw [List.length_append, hl]
      simp only [List.length_cons, List.length_nil]
      omega
    · simp only [h, ne_eq, not_true_eq_false, if_false, hc, List.map_append, List.map_cons,
        List.map_nil]
  · refine ⟨[b, xor_aes_block le aad (E b),
      xor_aes_block le (aad.drop 16) (E (xor_aes_block le aad (E b)))] ++ l ++
      [xor_bytes (mlen % 16)
          (cbc_loop le E (mlen / 16)
            (E (xor_aes_block le (aad.drop 16) (E (xor_aes_block le aad (E b))))) plain).x
          (cbc_loop le E (mlen / 16)
            (E (xor_aes_block le (aad.drop 16) (E (xor_aes_block le aad (E b))))) plain).ppos
        ++ (cbc_loop le E (mlen / 16)
            (E (xor_aes_block le (aad.drop 16) (E (xor_aes_block le aad (E b))))) plain).x.drop
            (mlen % 16)], ?_, ?_⟩
    · rw [List.length_append, List.length_append, hl]
      simp only [List.length_cons, List.length_nil]
      omega
    · simp only [h, ne_eq, not_false_eq_true, if_true, hc, List.map_append, List.map_cons,
        List.map_nil]

/-- X1: on a frame of at least 16 bytes, when allocation and cipher initialisation
succeed, `ccmp_decrypt` sets up the key schedule once, with `aes_encrypt_init(tk, 16)`,
then makes `4 + 2 * ceil(mlen / 16)` calls of `aes_encrypt` (`mlen = data_len - 16`) and
ends with `aes_encrypt_deinit`, whether or not the MIC matches. -/
theorem X1_cipher_calls {κ : Type} (env : Env κ) (tk : List Nat) (hdr : ieee80211_hdr)
    (data : List Nat) (aes : κ) (hlen : 16 ≤ data.length)
    (hmal : env.os_malloc data.length = true) (hinit : env.aes_encrypt_init tk 16 = some aes) :
    ∃ blocks : List (List Nat), blocks.length = 4 + 2 * ((data.length - 16 + 15) / 16) ∧
      (ccmp_decrypt env tk hdr data).aes_calls
        = AesCall.init tk 16 :: (blocks.map AesCall.encrypt ++ [AesCall.deinit]) := by
  have hlt : ¬ data.length < 8 + 8 := by omega
  have hsub : data.length - 8 - 8 = data.length - 16 := by omega
  unfold ccmp_decrypt
  simp only [hlt, if_false, hmal, hinit, Bool.true_eq_false, hsub]
  generalize hc : ccmp_ctr env.host_le (env.aes_encrypt aes)
    (put_at (put_at (put_at (List.replicate AES_BLOCK_SIZE 0) 0 [0x01]) 1
      (os_memcpy (ccmp_aad_nonce hdr data).nonce 13)) 14 (WPA_PUT_BE16 0)) (data.drop 8)
    (data.length - 16) = c
  obtain ⟨l1, hl1, hc1⟩ := ccmp_ctr_calls_encrypt env.host_le (env.aes_encrypt aes)
    (put_at (put_at (put_at (List.replicate AES_BLOCK_SIZE 0) 0 [0x01]) 1
      (os_memcpy (ccmp_aad_nonce hdr data).nonce 13)) 14 (WPA_PUT_BE16 0)) (data.drop 8)
    (data.length - 16)
  rw [hc] at hc1
  generalize hf : ccmp_auth env.host_le (env.aes_encrypt aes)
    (put_at (put_at (put_at (List.replicate AES_BLOCK_SIZE 0) 0 [0x40 ||| (3 <<< 3) ||| 1]) 1
      (os_memcpy (ccmp_aad_nonce hdr data).nonce 13)) 14 (WPA_PUT_BE16 (data.length - 16)))
    (put_at (put_at (List.replicate (2 + 30) 0) 2 (ccmp_aad_nonce hdr data).aad) 0
      (WPA_PUT_BE16 (ccmp_aad_nonce hdr data).aad_len)) c.out (data.length - 16) = f
  obtain ⟨l2, hl2, hc2⟩ := ccmp_auth_calls_encrypt env.host_le (env.aes_encrypt aes)
    (put_at (put_at (put_at (List.replicate AES_BLOCK_SIZE 0) 0 [0x40 ||| (3 <<< 3) ||| 1]) 1
      (os_memcpy (ccmp_aad_nonce hdr data).nonce 13)) 14 (WPA_PUT_BE16 (data.length - 16)))
    (put_at (put_at (List.replicate (2 + 30) 0) 2 (ccmp_aad_nonce hdr data).aad) 0
      (WPA_PUT_BE16 (ccmp_aad_nonce hdr data).aad_len)) c.out (data.length - 16)
  rw [hf] at hc2
  refine ⟨put_at (put_at (put_at (List.replicate AES_BLOCK_SIZE 0) 0 [0x01]) 1
      (os_memcpy (ccmp_aad_nonce hdr data).nonce 13)) 14 (WPA_PUT_BE16 0) :: (l1 ++ l2), ?_, ?_⟩
  · rw [List.length_cons, List.length_append, hl1, hl2]
    omega
  · split_ifs <;>
      simp only [hc1, hc2, List.map_cons, List.map_append, List.cons_append, List.nil_append,
        List.append_assoc]

/-- X1 at the frame `frame0`: 20 bytes of payload, 8 calls of `aes_encrypt`. -/
theorem X1_cipher_calls_witness :
    16 ≤ frame0.length ∧ toy_env.os_malloc frame0.length = true ∧
    toy_env.aes_encrypt_init tk0 16 = some tk0 ∧
    ∃ blocks : List (List Nat), blocks.length = 4 + 2 * ((frame0.length - 16 + 15) / 16) ∧
      (ccmp_decrypt toy_env tk0 hdr0 frame0).aes_calls
        = AesCall.init tk0 16 :: (blocks.map AesCall.encrypt ++ [AesCall.deinit]) :=
  ⟨by decide, rfl, rfl, X1_cipher_calls toy_env tk0 hdr0 frame0 tk0 (by decide) rfl rfl⟩

/-- X2: the values `ccmp_decrypt` returns do not depend on the byte order of the host on
which `xor_aes_block` loads and stores its 32-bit words. -/
theorem X2_host_byte_order {κ : Type} (env : Env κ) (le : Bool) (tk : List Nat)
    (hdr : ieee80211_hdr) (data : List Nat)
    (hE : ∀ aes, env.aes_encrypt_init tk 16 = some aes → CipherOK (env.aes_encrypt aes))
    (hd : IsBytes data) (hh : HdrBytes hdr) :
    (ccmp_decrypt { env with host_le := le } tk hdr data).plain
      = (ccmp_decrypt env tk hdr data).plain ∧
    (ccmp_decrypt { env with host_le := le } tk hdr data).decrypted_len
      = (ccmp_decrypt env tk hdr data).decrypted_len := by
  by_cases hlen : data.length < 16
  · rw [decrypt_short env tk hdr data hlen,
      decrypt_short { env with host_le := le } tk hdr data hlen]
    exact ⟨rfl, rfl⟩
  · by_cases hmal : env.os_malloc data.length = true
    · cases hinit : env.aes_encrypt_init tk 16 with
      | none =>
        obtain ⟨h1, h2⟩ := decrypt_no_cipher env tk hdr data hinit
        obtain ⟨h3, h4⟩ := decrypt_no_cipher { env with host_le := le } tk hdr data hinit
        rw [h1, h2, h3, h4]
        exact ⟨rfl, rfl⟩
      | some aes =>
        obtain ⟨h1, h2⟩ := decrypt_result env tk hdr data aes (by omega) hmal hinit
          (hE aes hinit) hd hh
        obtain ⟨h3, h4⟩ := decrypt_result { env with host_le := le } tk hdr data aes (by omega)
          hmal hinit (hE aes hinit) hd hh
        rw [h1, h2, h3, h4]
        exact ⟨rfl, rfl⟩
    · have hf : env.os_malloc data.length = false := by simpa using hmal
      rw [decrypt_no_memory env tk hdr data hf,
        decrypt_no_memory { env with host_le := le } tk hdr data hf]
      exact ⟨rfl, rfl⟩

/-- X2 at the frame `frame0`: the big-endian host returns what the little-endian host
returns. -/
theorem X2_host_byte_order_witness :
    (∀ aes, toy_env.aes_encrypt_init tk0 16 = some aes → CipherOK (toy_env.aes_encrypt aes)) ∧
    IsBytes frame0 ∧ HdrBytes hdr0 ∧
    (ccmp_decrypt { toy_env with host_le := false } tk0 hdr0 frame0).plain
      = (ccmp_decrypt toy_env tk0 hdr0 frame0).plain ∧
    (ccmp_decrypt { toy_env with host_le := false } tk0 hdr0 frame0).decrypted_len
      = (ccmp_decrypt toy_env tk0 hdr0 frame0).decrypted_len :=
  ⟨fun aes _ => toy_cipher_ok aes, by decide, by decide,
    X2_host_byte_order toy_env false tk0 hdr0 frame0 (fun aes _ => toy_cipher_ok aes)
      (by decide) (by decide)⟩

theorem WPA_PUT_LE16_eq_le16 (v : Nat) : WPA_PUT_LE16 v = ccm_le16 v := by
  unfold WPA_PUT_LE16 ccm_le16
  have e : (255 : Nat) = 2 ^ 8 - 1 := by decide
  rw [Nat.shiftRight_eq_div_pow, e, Nat.and_pow_two_sub_one_eq_mod]
  have h1 : v % 65536 / 2 ^ 8 = v / 256 % 256 := by omega
  have h2 : v % 65536 % 2 ^ 8 = v % 256 := by omega
  rw [h1, h2]

theorem not16_fff0 : not16 0xfff0 = 0x000f := by decide

theorem fc_qos_qos_iff (hdr : ieee80211_hdr) : (ccmp_fc_qos hdr).qos ≠ 0 ↔ qos_data hdr := by
  unfold ccmp_fc_qos qos_data data_frame
  simp only []
  split_ifs <;> simp_all

/-- the three outputs of `ccmp_aad_nonce` in closed form -/
theorem aad_nonce_closed (hdr : ieee80211_hdr) (data : List Nat) :
    (ccmp_aad_nonce hdr data).aad =
      ccm_le16 (ccmp_fc hdr) ++ os_memcpy (hdr.addr1 ++ hdr.addr2 ++ hdr.addr3) 18
        ++ ccm_le16 ((hdr.seq_ctrl % 65536) &&& 0x000f)
        ++ (if four_addr hdr then os_memcpy hdr.body 6 else [])
        ++ (if qos_data hdr then [0, 0] else []) ∧
    (ccmp_aad_nonce hdr data).aad_len
      = 22 + (if four_addr hdr then 6 else 0) + (if qos_data hdr then 2 else 0) ∧
    (ccmp_aad_nonce hdr data).nonce
      = (ccmp_fc_qos hdr).nonce0 :: (os_memcpy hdr.addr2 6 ++
          [data.getD 7 0, data.getD 6 0, data.getD 5 0, data.getD 4 0, data.getD 1 0,
           data.getD 0 0]) := by
  refine ⟨?_, ?_, ?_⟩
  · rw [aad_nonce_aad, WPA_PUT_LE16_eq_le16, WPA_PUT_LE16_eq_le16, not16_fff0]
    have e4 : os_memcpy hdr.body ((if (hdr.frame_control % 65536) &&& 0x0300 = 0x0300 then 1 else 0) * 6)
        = (if four_addr hdr then os_memcpy hdr.body 6 else []) := by
      have hiff : four_addr hdr ↔ (hdr.frame_control % 65536) &&& 0x0300 = 0x0300 := by
        unfold four_addr
        have : (WLAN_FC_TODS ||| WLAN_FC_FROMDS) = 0x0300 := by decide
        rw [this]
      by_cases h : four_addr hdr
      · rw [if_pos h, if_pos (hiff.1 h)]
      · rw [if_neg h, if_neg (fun h' => h (hiff.2 h'))]
        rfl
    have eq : (if (ccmp_fc_qos hdr).qos ≠ 0 then [0, 0] else ([] : List Nat))
        = (if qos_data hdr then [0, 0] else []) := by
      by_cases h : qos_data hdr
      · rw [if_pos h, if_pos ((fc_qos_qos_iff hdr).2 h)]
      · rw [if_neg h, if_neg (fun h' => h ((fc_qos_qos_iff hdr).1 h'))]
    rw [e4, eq]
    rfl
  · have hq := fc_qos_qos_iff hdr
    unfold ccmp_aad_nonce four_addr
    simp only [ETH_ALEN]
    by_cases h : qos_data hdr
    · rw [if_pos (hq.2 h), if_pos h]
      split <;> rfl
    · rw [if_neg (fun h' => h (hq.1 h')), if_neg h]
      split <;> rfl
  · rfl

theorem ccmp_aad_buf_eq (hdr : ieee80211_hdr) (data : List Nat) :
    ccmp_aad_buf hdr data = aad_buffer (ccmp_aad_nonce hdr data) :=
  aad_buffer_eq hdr data

theorem and_000f (v : Nat) : v % 65536 &&& 0x000f = v % 16 := by
  have e : (15 : Nat) = 2 ^ 4 - 1 := by decide
  rw [e, Nat.and_pow_two_sub_one_eq_mod]
  omega

/-- C11 (counterexample): for the QoS data header `hdr0` the 32-byte AAD buffer holds
address 2 and address 3 between address 1 and the sequence-control field, so it is not the
length prefix, frame-control, address 1, sequence-control and QoS-control in a row, whatever
the QoS-control bytes and whatever follows. -/
theorem C11_counterexample :
    ccmp_aad_buf hdr0 ccmp_hdr0
      = [0x00, 0x18, 0x88, 0x41, 0x0f, 0xd2, 0xe1, 0x28, 0xa5, 0x7c,
         0x50, 0x30, 0xf1, 0x84, 0x44, 0x08, 0xab, 0xae, 0xa5, 0xb8, 0xfc, 0xba,
         0x00, 0x00, 0x00, 0x00, 0, 0, 0, 0, 0, 0] ∧
    ¬ four_addr hdr0 ∧ qos_data hdr0 ∧
    ∀ q rest : List Nat,
      ccmp_aad_buf hdr0 ccmp_hdr0
        ≠ ccm_be16 (ccmp_aad_nonce hdr0 ccmp_hdr0).aad_len ++ ccm_le16 (ccmp_fc hdr0)
            ++ hdr0.addr1 ++ ccm_le16 (hdr0.seq_ctrl % 65536 &&& 0x000f) ++ q ++ rest := by
  have hbuf : ccmp_aad_buf hdr0 ccmp_hdr0
      = [0x00, 0x18, 0x88, 0x41, 0x0f, 0xd2, 0xe1, 0x28, 0xa5, 0x7c,
         0x50, 0x30, 0xf1, 0x84, 0x44, 0x08, 0xab, 0xae, 0xa5, 0xb8, 0xfc, 0xba,
         0x00, 0x00, 0x00, 0x00, 0, 0, 0, 0, 0, 0] := by decide
  refine ⟨hbuf, by decide, by decide, ?_⟩
  intro q rest h
  have hc : ccm_be16 (ccmp_aad_nonce hdr0 ccmp_hdr0).aad_len ++ ccm_le16 (ccmp_fc hdr0)
      ++ hdr0.addr1 ++ ccm_le16 (hdr0.seq_ctrl % 65536 &&& 0x000f)
      = [0x00, 0x18, 0x88, 0x41, 0x0f, 0xd2, 0xe1, 0x28, 0xa5, 0x7c, 0x00, 0x00] := by decide
  rw [hbuf, hc] at h
  have h10 := congrArg (fun l => l.getD 10 0) h
  simp at h10

/-- C11 (amended): the 32-byte AAD buffer is, in this order, the 2-byte big-endian length
prefix, the 2-byte little-endian frame-control as normalised by lines 38-53, the 6 bytes
of address 1, of address 2 and of address 3, the 2-byte little-endian masked
sequence-control, the 6 bytes of address 4 only when ToDS and FromDS are both set, two
QoS-control bytes only for a QoS data frame, and zero bytes up to 32. -/
theorem C11_aad_layout (hdr : ieee80211_hdr) (data : List Nat)
    (h1 : hdr.addr1.length = 6) (h2 : hdr.addr2.length = 6) (h3 : hdr.addr3.length = 6) :
    ∃ q : List Nat, q.length = (if qos_data hdr then 2 else 0) ∧
      ccmp_aad_buf hdr data
        = ccm_be16 (ccmp_aad_nonce hdr data).aad_len ++ ccm_le16 (ccmp_fc hdr)
            ++ hdr.addr1 ++ hdr.addr2 ++ hdr.addr3
            ++ ccm_le16 (hdr.seq_ctrl % 65536 &&& 0x000f)
            ++ (if four_addr hdr then os_memcpy hdr.body 6 else [])
            ++ q
            ++ List.replicate (30 - (ccmp_aad_nonce hdr data).aad_len) 0 := by
  obtain ⟨ha, _, _⟩ := aad_nonce_closed hdr data
  have hl := aad_length hdr data
  refine ⟨if qos_data hdr then [0, 0] else [], ?_, ?_⟩
  · split <;> rfl
  · rw [ccmp_aad_buf_eq, aad_buffer, hl, WPA_PUT_BE16_eq_be16, ha,
      os_memcpy_self _ 18 (by simp [h1, h2, h3])]
    simp only [List.append_assoc]

/-- C11 (amended) at the QoS data header `hdr0`. -/
theorem C11_aad_layout_witness :
    hdr0.addr1.length = 6 ∧ hdr0.addr2.length = 6 ∧ hdr0.addr3.length = 6 ∧
    ∃ q : List Nat, q.length = (if qos_data hdr0 then 2 else 0) ∧
      ccmp_aad_buf hdr0 ccmp_hdr0
        = ccm_be16 (ccmp_aad_nonce hdr0 ccmp_hdr0).aad_len ++ ccm_le16 (ccmp_fc hdr0)
            ++ hdr0.addr1 ++ hdr0.addr2 ++ hdr0.addr3
            ++ ccm_le16 (hdr0.seq_ctrl % 65536 &&& 0x000f)
            ++ (if four_addr hdr0 then os_memcpy hdr0.body 6 else [])
            ++ q
            ++ List.replicate (30 - (ccmp_aad_nonce hdr0 ccmp_hdr0).aad_len) 0 :=
  ⟨rfl, rfl, rfl, C11_aad_layout hdr0 ccmp_hdr0 rfl rfl rfl⟩

/-- C12 (counterexample): for the QoS data header `hdr0`, which has three addresses, the
AAD length is 24. -/
theorem C12_counterexample :
    qos_data hdr0 ∧ ¬ four_addr hdr0 ∧ (ccmp_aad_nonce hdr0 ccmp_hdr0).aad_len = 24 ∧
    (ccmp_aad_buf hdr0 ccmp_hdr0).take 2 = [0x00, 0x18] := by
  decide

/-- C12 (amended): the AAD length that `ccmp_aad_nonce` computes, which is the number of
AAD bytes and the value of the big-endian length prefix, is one of 22, 24, 28 and 30: 22,
plus 6 when ToDS and FromDS are both set, plus 2 for a QoS data frame. -/
theorem C12_aad_len (hdr : ieee80211_hdr) (data : List Nat) :
    ((ccmp_aad_nonce hdr data).aad_len = 22 ∨ (ccmp_aad_nonce hdr data).aad_len = 24 ∨
      (ccmp_aad_nonce hdr data).aad_len = 28 ∨ (ccmp_aad_nonce hdr data).aad_len = 30) ∧
    (ccmp_aad_nonce hdr data).aad_len
      = 22 + (if four_addr hdr then 6 else 0) + (if qos_data hdr then 2 else 0) ∧
    (ccmp_aad_nonce hdr data).aad.length = (ccmp_aad_nonce hdr data).aad_len ∧
    (ccmp_aad_buf hdr data).take 2 = [0, (ccmp_aad_nonce hdr data).aad_len] := by
  have hc := aad_len_cases hdr data
  refine ⟨hc, (aad_nonce_closed hdr data).2.1, aad_length hdr data, ?_⟩
  rw [ccmp_aad_buf_eq, aad_buffer, List.append_assoc,
    List.take_append_of_le_length (by simp [WPA_PUT_BE16]),
    WPA_PUT_BE16_digits _ (by omega)]
  have e1 : (ccmp_aad_nonce hdr data).aad_len / 256 = 0 := by omega
  have e2 : (ccmp_aad_nonce hdr data).aad_len % 256 = (ccmp_aad_nonce hdr data).aad_len := by
    omega
  rw [e1, e2]
  rfl

/-- C16: the 2-byte sequence-control field of the AAD, at offset 20, is the little-endian
encoding of `seq_ctrl AND 0x000f`: its first byte is the 4-bit fragment number, its second
byte is 0, so the 12-bit sequence number is zero. -/
theorem C16_seq_ctrl_masked (hdr : ieee80211_hdr) (data : List Nat) :
    ((ccmp_aad_nonce hdr data).aad.drop 20).take 2
      = ccm_le16 (hdr.seq_ctrl % 65536 &&& 0x000f) ∧
    ((ccmp_aad_nonce hdr data).aad.drop 20).take 2 = [hdr.seq_ctrl % 16, 0] := by
  obtain ⟨ha, _, _⟩ := aad_nonce_closed hdr data
  have hval : ((ccmp_aad_nonce hdr data).aad.drop 20).take 2
      = ccm_le16 (hdr.seq_ctrl % 65536 &&& 0x000f) := by
    have r18 : List.range 18
        = [0, 1, 2, 3, 4, 5, 6, 7, 8, 9, 10, 11, 12, 13, 14, 15, 16, 17] := by decide
    rw [ha]
    simp [ccm_le16, os_memcpy, r18]
  refine ⟨hval, ?_⟩
  rw [hval, and_000f]
  unfold ccm_le16
  have e1 : hdr.seq_ctrl % 16 % 256 = hdr.seq_ctrl % 16 := by omega
  have e2 : hdr.seq_ctrl % 16 / 256 % 256 = 0 := by omega
  rw [e1, e2]

theorem aad_take_fc (hdr : ieee80211_hdr) (data : List Nat) :
    (ccmp_aad_nonce hdr data).aad.take 2 = ccm_le16 (ccmp_fc hdr) := by
  rw [(aad_nonce_closed hdr data).1]
  simp [ccm_le16]

theorem ccmp_fc_data_qos (hdr : ieee80211_hdr) (h : qos_data hdr) :
    ccmp_fc hdr = ((hdr.frame_control % 65536)
      &&& not16 (WLAN_FC_RETRY ||| WLAN_FC_PWRMGT ||| WLAN_FC_MOREDATA ||| 0x0070 ||| WLAN_FC_ORDER))
      ||| WLAN_FC_ISWEP := by
  have e : not16 0x0070 &&& (not16 WLAN_FC_ORDER
      &&& not16 (WLAN_FC_RETRY ||| WLAN_FC_PWRMGT ||| WLAN_FC_MOREDATA))
      = not16 (WLAN_FC_RETRY ||| WLAN_FC_PWRMGT ||| WLAN_FC_MOREDATA ||| 0x0070 ||| WLAN_FC_ORDER) := by
    decide
  obtain ⟨hd, hq⟩ := h
  unfold data_frame at hd
  unfold ccmp_fc ccmp_fc_qos
  simp only [hd, hq, if_true, ne_eq, not_false_eq_true]
  rw [Nat.and_assoc, Nat.and_assoc, e]

theorem ccmp_fc_data_plain (hdr : ieee80211_hdr) (hd : data_frame hdr) (h : ¬ qos_data hdr) :
    ccmp_fc hdr = ((hdr.frame_control % 65536)
      &&& not16 (WLAN_FC_RETRY ||| WLAN_FC_PWRMGT ||| WLAN_FC_MOREDATA ||| 0x0070))
      ||| WLAN_FC_ISWEP := by
  have e : not16 0x0070 &&& not16 (WLAN_FC_RETRY ||| WLAN_FC_PWRMGT ||| WLAN_FC_MOREDATA)
      = not16 (WLAN_FC_RETRY ||| WLAN_FC_PWRMGT ||| WLAN_FC_MOREDATA ||| 0x0070) := by
    decide
  have hq : ¬ (WLAN_FC_GET_STYPE (hdr.frame_control % 65536) &&& 0x08 ≠ 0) :=
    fun hq => h ⟨hd, hq⟩
  unfold data_frame at hd
  unfold ccmp_fc ccmp_fc_qos
  simp only [hd, hq, if_true, if_false]
  rw [Nat.and_assoc, e]

theorem ccmp_fc_mgmt (hdr : ieee80211_hdr) (h : mgmt_frame hdr) :
    ccmp_fc hdr = ((hdr.frame_control % 65536)
      &&& not16 (WLAN_FC_RETRY ||| WLAN_FC_PWRMGT ||| WLAN_FC_MOREDATA)) ||| WLAN_FC_ISWEP := by
  unfold mgmt_frame at h
  have hnd : ¬ WLAN_FC_GET_TYPE (hdr.frame_control % 65536) = WLAN_FC_TYPE_DATA := by
    rw [h]; decide
  unfold ccmp_fc ccmp_fc_qos
  simp only []
  rw [if_neg hnd, if_pos h]

/-- C13 (counterexample): for the data frame `hdr_data1`, which has no QoS subtype bit
and has subtype bit 4 set (frame-control 0x0018), the frame-control stored in the AAD is
0x4008: bit 4 is cleared, not left as transmitted (0x4018). -/
theorem C13_counterexample :
    data_frame hdr_data1 ∧ ¬ qos_data hdr_data1 ∧ hdr_data1.frame_control = 0x0018 ∧
    (ccmp_aad_nonce hdr_data1 ccmp_hdr0).aad.take 2 = ccm_le16 0x4008 ∧
    (hdr_data1.frame_control &&& not16 (WLAN_FC_RETRY ||| WLAN_FC_PWRMGT ||| WLAN_FC_MOREDATA))
      ||| WLAN_FC_ISWEP = 0x4018 ∧
    (ccmp_aad_nonce hdr_data1 ccmp_hdr0).aad.take 2 ≠ ccm_le16 0x4018 := by
  decide

/-- C13 (amended): for every data-frame header the frame-control stored in the AAD is the
transmitted frame-control with retry, power-management and more-data cleared, the
protected bit (0x4000) set and the subtype bits 4-6 (mask 0x0070) cleared; the order bit
(0x8000) is cleared when the frame has the QoS subtype bit and left as transmitted when it
has not. -/
theorem C13_data_frame_control (hdr : ieee80211_hdr) (data : List Nat) (hd : data_frame hdr) :
    (qos_data hdr →
      (ccmp_aad_nonce hdr data).aad.take 2 = ccm_le16 (((hdr.frame_control % 65536)
        &&& not16 (WLAN_FC_RETRY ||| WLAN_FC_PWRMGT ||| WLAN_FC_MOREDATA ||| 0x0070
              ||| WLAN_FC_ORDER))
        ||| WLAN_FC_ISWEP)) ∧
    (¬ qos_data hdr →
      (ccmp_aad_nonce hdr data).aad.take 2 = ccm_le16 (((hdr.frame_control % 65536)
        &&& not16 (WLAN_FC_RETRY ||| WLAN_FC_PWRMGT ||| WLAN_FC_MOREDATA ||| 0x0070))
        ||| WLAN_FC_ISWEP)) := by
  constructor
  · intro hq
    rw [aad_take_fc, ccmp_fc_data_qos hdr hq]
  · intro hq
    rw [aad_take_fc, ccmp_fc_data_plain hdr hd hq]

/-- C13 (amended) at the QoS data header `hdr0` and at the data header `hdr_data1`. -/
theorem C13_data_frame_control_witness :
    data_frame hdr0 ∧ qos_data hdr0 ∧
    (ccmp_aad_nonce hdr0 ccmp_hdr0).aad.take 2 = ccm_le16 (((hdr0.frame_control % 65536)
        &&& not16 (WLAN_FC_RETRY ||| WLAN_FC_PWRMGT ||| WLAN_FC_MOREDATA ||| 0x0070
              ||| WLAN_FC_ORDER))
        ||| WLAN_FC_ISWEP) ∧
    data_frame hdr_data1 ∧ ¬ qos_data hdr_data1 ∧
    (ccmp_aad_nonce hdr_data1 ccmp_hdr0).aad.take 2
      = ccm_le16 (((hdr_data1.frame_control % 65536)
        &&& not16 (WLAN_FC_RETRY ||| WLAN_FC_PWRMGT ||| WLAN_FC_MOREDATA ||| 0x0070))
        ||| WLAN_FC_ISWEP) :=
  ⟨by decide, by decide,
    (C13_data_frame_control hdr0 ccmp_hdr0 (by decide)).1 (by decide),
    by decide, by decide,
    (C13_data_frame_control hdr_data1 ccmp_hdr0 (by decide)).2 (by decide)⟩

/-- C14: for every management-frame header the frame-control stored in the AAD is
`(fc AND NOT 0x3800) OR 0x4000`: only retry, power-management and more-data are cleared and
the protected bit is set; the type, subtype, ToDS/FromDS, more-fragments and order bits of
the stored value are those of the transmitted frame-control. -/
theorem C14_mgmt_frame_control (hdr : ieee80211_hdr) (data : List Nat) (hm : mgmt_frame hdr) :
    (ccmp_aad_nonce hdr data).aad.take 2
      = ccm_le16 (((hdr.frame_control % 65536) &&& not16 0x3800) ||| 0x4000) ∧
    ((((hdr.frame_control % 65536) &&& not16 0x3800) ||| 0x4000)
        &&& (0x000c ||| 0x00f0 ||| 0x0300 ||| 0x0400 ||| 0x8000))
      = (hdr.frame_control % 65536) &&& (0x000c ||| 0x00f0 ||| 0x0300 ||| 0x0400 ||| 0x8000) := by
  constructor
  · rw [aad_take_fc, ccmp_fc_mgmt hdr hm]
    rfl
  · rw [Nat.and_distrib_right, Nat.and_assoc]
    have e1 : not16 0x3800 &&& (0x000c ||| 0x00f0 ||| 0x0300 ||| 0x0400 ||| 0x8000)
        = (0x000c ||| 0x00f0 ||| 0x0300 ||| 0x0400 ||| 0x8000) := by decide
    have e2 : (0x4000 : Nat) &&& (0x000c ||| 0x00f0 ||| 0x0300 ||| 0x0400 ||| 0x8000) = 0 := by
      decide
    rw [e1, e2, Nat.or_zero]

/-- C14 at the management header `hdr_mgmt` (frame-control 0xb8d0): 0xc0d0 is stored. -/
theorem C14_mgmt_frame_control_witness :
    mgmt_frame hdr_mgmt ∧
    (ccmp_aad_nonce hdr_mgmt ccmp_hdr0).aad.take 2 = ccm_le16 0xc0d0 :=
  ⟨by decide, (C14_mgmt_frame_control hdr_mgmt ccmp_hdr0 (by decide)).1.trans (by decide)⟩

/-- C15 (the code at the failing input): for the QoS data header `hdr0`, whose first
QoS-control byte is 0x05 (TID 5), the two QoS-control bytes of the AAD, at offset 22, are
both 0x00: the TID is not retained. -/
theorem C15_qos_control_zeroed :
    qos_data hdr0 ∧ ¬ four_addr hdr0 ∧ hdr0.body.getD 0 0 = 0x05 ∧
    hdr0.body.getD 0 0 &&& 0x0f = 0x05 ∧
    ((ccmp_aad_nonce hdr0 ccmp_hdr0).aad.drop 22).take 2 = [0x00, 0x00] ∧
    (0x05 &&& 0x70) &&& 0x80 = 0x00 := by
  decide

/-- C20: `xor_aes_block`, which XORs two 16-byte blocks as four 32-bit words, is the
byte-wise XOR: afterwards `dst[k] = dst_old[k] XOR src[k]` for every `k` in `0..15`,
whether the words are assembled in little-endian or in big-endian order.  The source
block is only read. -/
theorem C20_xor_aes_block_bytewise (le : Bool) (dst src : List Nat)
    (hd : IsBytes dst) (hs : IsBytes src) :
    (xor_aes_block le dst src).length = 16 ∧
    (∀ k, k < 16 → (xor_aes_block le dst src).getD k 0 = dst.getD k 0 ^^^ src.getD k 0) ∧
    xor_aes_block true dst src = xor_aes_block false dst src := by
  refine ⟨xor_aes_block_length le dst src, ?_, ?_⟩
  · intro k hk
    rw [xor_aes_block_eq le dst src hd hs, xor_bytes_getD _ _ _ _ hk]
  · rw [xor_aes_block_eq true dst src hd hs, xor_aes_block_eq false dst src hd hs]

/-- C20 at the key `tk0` and the plaintext block `msg0`, on a big-endian host. -/
theorem C20_xor_aes_block_bytewise_witness :
    IsBytes tk0 ∧ IsBytes msg0 ∧
    xor_aes_block false tk0 msg0
      = [0x31, 0xc6, 0x05, 0x32, 0x1e, 0x18, 0x94, 0x2b, 0xc7, 0x31, 0x3c, 0x36, 0x44, 0x70,
         0x7d, 0xc4] ∧
    xor_aes_block true tk0 msg0 = xor_aes_block false tk0 msg0 :=
  ⟨by decide, by decide, by decide,
    (C20_xor_aes_block_bytewise false tk0 msg0 (by decide) (by decide)).2.2⟩

theorem ccmp_ctr_calls (le : Bool) (E : List Nat → List Nat) (N : List Nat) (hN : N.length = 13)
    (m : List Nat) (mlen : Nat) :
    (ccmp_ctr le E (ctr_block N 0) m mlen).calls
      = (List.range ((mlen + 15) / 16)).map (fun k => AesCall.encrypt (ctr_block N (1 + k))) := by
  obtain ⟨k, hk⟩ := ctr_loop_a le E N hN (mlen / AES_BLOCK_SIZE) 1 0 m
  have hc := ctr_loop_calls le E N hN (mlen / AES_BLOCK_SIZE) 1 0 m
  have hi := ctr_loop_i le E (mlen / AES_BLOCK_SIZE) 1 (ctr_block N 0) m
  unfold ccmp_ctr
  simp only []
  by_cases h : mlen % AES_BLOCK_SIZE ≠ 0
  · rw [if_pos h]
    simp only [hk, put_ctr_block N hN, hc, hi]
    simp only [AES_BLOCK_SIZE] at h ⊢
    have e : (mlen + 15) / 16 = mlen / 16 + 1 := by omega
    rw [e, List.range_succ, List.map_append]
    rfl
  · rw [if_neg h, hc]
    simp only [AES_BLOCK_SIZE] at h ⊢
    have e : (mlen + 15) / 16 = mlen / 16 := by omega
    rw [e]

theorem ccmp_auth_calls_head (le : Bool) (E : List Nat → List Nat) (b aad plain : List Nat)
    (mlen : Nat) :
    ∃ r : List AesCall, (ccmp_auth le E b aad plain mlen).calls = AesCall.encrypt b :: r := by
  unfold ccmp_auth
  simp only []
  split
  · exact ⟨_, rfl⟩
  · exact ⟨_, rfl⟩

/-- the calls of the AES primitive: key setup, `A_0`, the counter blocks, then `B_0` -/
theorem decrypt_calls_ctr {κ : Type} (env : Env κ) (tk : List Nat) (hdr : ieee80211_hdr)
    (data : List Nat) (aes : κ) (hlen : 16 ≤ data.length)
    (hmal : env.os_malloc data.length = true) (hinit : env.aes_encrypt_init tk 16 = some aes) :
    ∃ rest : List AesCall,
      (ccmp_decrypt env tk hdr data).aes_calls
        = AesCall.init tk 16 :: AesCall.encrypt (ctr_block (ccmp_aad_nonce hdr data).nonce 0)
          :: ((List.range ((data.length - 16 + 15) / 16)).map
                (fun k => AesCall.encrypt (ctr_block (ccmp_aad_nonce hdr data).nonce (1 + k)))
              ++ AesCall.encrypt (mac_block0 (ccmp_aad_nonce hdr data).nonce (data.length - 16))
                :: rest) := by
  have hN := aad_nonce_nonce_length hdr data
  have hlt : ¬ data.length < 8 + 8 := by omega
  have hsub : data.length - 8 - 8 = data.length - 16 := by omega
  obtain ⟨r, hr⟩ := ccmp_auth_calls_head env.host_le (env.aes_encrypt aes)
    (mac_block0 (ccmp_aad_nonce hdr data).nonce (data.length - 16))
    (put_at (put_at (List.replicate (2 + 30) 0) 2 (ccmp_aad_nonce hdr data).aad) 0
      (WPA_PUT_BE16 (ccmp_aad_nonce hdr data).aad_len))
    (ccmp_ctr env.host_le (env.aes_encrypt aes) (ctr_block (ccmp_aad_nonce hdr data).nonce 0)
      (data.drop 8) (data.length - 16)).out (data.length - 16)
  unfold ccmp_decrypt
  simp only [hlt, if_false, hmal, hinit, Bool.true_eq_false, hsub, a_buffer_eq _ hN,
    b_buffer_eq _ hN, ccmp_ctr_calls _ _ _ hN, hr]
  split
  · exact ⟨_, by simp only [List.cons_append, List.nil_append, List.append_assoc]; rfl⟩
  · exact ⟨_, by simp only [List.cons_append, List.nil_append, List.append_assoc]; rfl⟩

/-- a returned plaintext is the output of the CTR pass of lines 150-166 -/
theorem decrypt_plain_ctr {κ : Type} (env : Env κ) (tk : List Nat) (hdr : ieee80211_hdr)
    (data : List Nat) (aes : κ) (hinit : env.aes_encrypt_init tk 16 = some aes)
    (p : List Nat) (hp : (ccmp_decrypt env tk hdr data).plain = some p) :
    p = (ccmp_ctr env.host_le (env.aes_encrypt aes)
          (ctr_block (ccmp_aad_nonce hdr data).nonce 0) (data.drop 8) (data.length - 16)).out := by
  have hN := aad_nonce_nonce_length hdr data
  obtain ⟨hlen, hmal⟩ := accept_inv env tk hdr data p hp
  have hlt : ¬ data.length < 8 + 8 := by omega
  have hsub : data.length - 8 - 8 = data.length - 16 := by omega
  unfold ccmp_decrypt at hp
  simp only [hlt, if_false, hmal, hinit, Bool.true_eq_false, hsub, a_buffer_eq _ hN] at hp
  split at hp
  · exact absurd hp (by simp)
  · exact (Option.some.inj hp).symm

/-- the first `n` calls of `aes_encrypt`: call `i` is on the counter block of index `i` -/
theorem calls_getElem (c0 : AesCall) (f : Nat → AesCall) (n : Nat) (rest : List AesCall)
    (i : Nat) (hi : i ≤ n) :
    (c0 :: f 0 :: ((List.range n).map (fun k => f (1 + k)) ++ rest))[1 + i]? = some (f i) := by
  cases i with
  | zero => exact List.getElem?_cons_succ.trans List.getElem?_cons_zero
  | succ k =>
    have e : 1 + (k + 1) = k + 1 + 1 := by omega
    rw [e, List.getElem?_cons_succ, List.getElem?_cons_succ,
      List.getElem?_append_left (by rw [List.length_map, List.length_range]; omega),
      List.getElem?_map, List.getElem?_range (by omega)]
    have e2 : 1 + k = k + 1 := by omega
    simp only [Option.map_some', e2]

theorem calls_getElem_after (c0 c1 c2 : AesCall) (l rest : List AesCall) (n : Nat)
    (hl : l.length = n) :
    (c0 :: c1 :: (l ++ c2 :: rest))[2 + n]? = some c2 := by
  have e : 2 + n = n + 1 + 1 := by omega
  rw [e, List.getElem?_cons_succ, List.getElem?_cons_succ,
    List.getElem?_append_right (by omega), hl, Nat.sub_self]
  exact List.getElem?_cons_zero

theorem ctr_block_wrap (N : List Nat) : ctr_block N 65536 = ctr_block N 0 := rfl

theorem WPA_PUT_BE16_mod (v : Nat) :
    WPA_PUT_BE16 v = [v % 65536 / 256, v % 65536 % 256] := by
  have h := WPA_PUT_BE16_digits (v % 65536) (Nat.mod_lt _ (by decide))
  unfold WPA_PUT_BE16 at h ⊢
  rw [Nat.mod_mod] at h
  exact h

/-- C19: the 2-byte counter field of the CTR block holds the block index modulo 65536 and
the length field of `B_0` the payload length modulo 65536.  On every frame whose payload has
at least 65536 blocks, call `1 + i` of `aes_encrypt` by `ccmp_decrypt` (call 1 is on `A_0`,
call `1 + i` serves payload block `i`) is on `0x01 || nonce || big-endian (i mod 65536)`, for
every block `i` of the payload, and the call that follows the last payload block is on
`0x59 || nonce || big-endian (payload length mod 65536)`.  So the call for payload block
65536 is the call for `A_0` again, and the bytes of that block in the output of the CTR
pass, which are the bytes of a returned plaintext, are the frame bytes XORed with
`S_0 = E(K, A_0)`, the block that masks the MIC. -/
theorem C19_counter_wraps {κ : Type} (env : Env κ) (tk : List Nat) (hdr : ieee80211_hdr)
    (data : List Nat) (aes : κ) (hlen : 16 ≤ data.length)
    (hmal : env.os_malloc data.length = true) (hinit : env.aes_encrypt_init tk 16 = some aes)
    (hE : CipherOK (env.aes_encrypt aes)) (hd : IsBytes data)
    (hblocks : 65536 ≤ (data.length - 16 + 15) / 16) :
    (∀ i : Nat, i ≤ (data.length - 16 + 15) / 16 →
      (ccmp_decrypt env tk hdr data).aes_calls[1 + i]?
        = some (AesCall.encrypt (0x01 :: ((ccmp_aad_nonce hdr data).nonce
            ++ [i % 65536 / 256, i % 65536 % 256])))) ∧
    (ccmp_decrypt env tk hdr data).aes_calls[2 + (data.length - 16 + 15) / 16]?
      = some (AesCall.encrypt (0x59 :: ((ccmp_aad_nonce hdr data).nonce
          ++ [(data.length - 16) % 65536 / 256, (data.length - 16) % 65536 % 256]))) ∧
    (ccmp_decrypt env tk hdr data).aes_calls[1]?
      = some (AesCall.encrypt (0x01 :: ((ccmp_aad_nonce hdr data).nonce ++ [0x00, 0x00]))) ∧
    (ccmp_decrypt env tk hdr data).aes_calls[1 + 65536]?
      = (ccmp_decrypt env tk hdr data).aes_calls[1]? ∧
    (∀ j : Nat, j < data.length - 16 →
      (ccmp_ctr env.host_le (env.aes_encrypt aes)
          (put_at (put_at (put_at (List.replicate AES_BLOCK_SIZE 0) 0 [0x01]) 1
            (os_memcpy (ccmp_aad_nonce hdr data).nonce 13)) 14 (WPA_PUT_BE16 0))
          (data.drop 8) (data.length - 16)).out.getD j 0
        = data.getD (8 + j) 0
          ^^^ (env.aes_encrypt aes
                (0x01 :: ((ccmp_aad_nonce hdr data).nonce
                  ++ [(j / 16 + 1) % 65536 / 256, (j / 16 + 1) % 65536 % 256]))).getD
                (j % 16) 0) ∧
    (∀ j : Nat, 65535 * 16 ≤ j → j < 65536 * 16 → j < data.length - 16 →
      (ccmp_ctr env.host_le (env.aes_encrypt aes)
          (put_at (put_at (put_at (List.replicate AES_BLOCK_SIZE 0) 0 [0x01]) 1
            (os_memcpy (ccmp_aad_nonce hdr data).nonce 13)) 14 (WPA_PUT_BE16 0))
          (data.drop 8) (data.length - 16)).out.getD j 0
        = data.getD (8 + j) 0
          ^^^ (env.aes_encrypt aes
                (0x01 :: ((ccmp_aad_nonce hdr data).nonce ++ [0x00, 0x00]))).getD (j % 16) 0) ∧
    (∀ p : List Nat, (ccmp_decrypt env tk hdr data).plain = some p →
      ∀ j : Nat, 65535 * 16 ≤ j → j < 65536 * 16 → j < data.length - 16 →
        p.getD j 0 = data.getD (8 + j) 0
          ^^^ (env.aes_encrypt aes
                (0x01 :: ((ccmp_aad_nonce hdr data).nonce ++ [0x00, 0x00]))).getD (j % 16) 0) := by
  have hN := aad_nonce_nonce_length hdr data
  have hA : ∀ i : Nat, (0x01 :: ((ccmp_aad_nonce hdr data).nonce
      ++ [i % 65536 / 256, i % 65536 % 256])) = ctr_block (ccmp_aad_nonce hdr data).nonce i := by
    intro i
    rw [ctr_block, WPA_PUT_BE16_mod]
  have hA0 : (0x01 :: ((ccmp_aad_nonce hdr data).nonce ++ [0x00, 0x00]))
      = ctr_block (ccmp_aad_nonce hdr data).nonce 0 := rfl
  obtain ⟨rest, hc⟩ := decrypt_calls_ctr env tk hdr data aes hlen hmal hinit
  have hcall : ∀ i : Nat, i ≤ (data.length - 16 + 15) / 16 →
      (ccmp_decrypt env tk hdr data).aes_calls[1 + i]?
        = some (AesCall.encrypt (ctr_block (ccmp_aad_nonce hdr data).nonce i)) := by
    intro i hi
    rw [hc]
    exact calls_getElem _
      (fun k => AesCall.encrypt (ctr_block (ccmp_aad_nonce hdr data).nonce k)) _ _ i hi
  have hout : ∀ j : Nat, j < data.length - 16 →
      (ccmp_ctr env.host_le (env.aes_encrypt aes)
          (ctr_block (ccmp_aad_nonce hdr data).nonce 0) (data.drop 8) (data.length - 16)).out.getD
          j 0
        = data.getD (8 + j) 0
          ^^^ (env.aes_encrypt aes
                (ctr_block (ccmp_aad_nonce hdr data).nonce (j / 16 + 1))).getD (j % 16) 0 := by
    intro j hj
    rw [ctr_plain_eq env.host_le _ hE _ hN _ (isBytes_drop hd 8), ctr_plain,
      map_range_getD _ _ _ hj, getD_drop, Nat.xor_comm, Nat.add_comm 1 (j / 16)]
  have hwrap : ∀ j : Nat, 65535 * 16 ≤ j → j < 65536 * 16 →
      ctr_block (ccmp_aad_nonce hdr data).nonce (j / 16 + 1)
        = ctr_block (ccmp_aad_nonce hdr data).nonce 0 := by
    intro j h1 h2
    have e : j / 16 + 1 = 65536 := by omega
    rw [e, ctr_block_wrap]
  refine ⟨?_, ?_, ?_, ?_, ?_, ?_, ?_⟩
  · intro i hi
    rw [hA, hcall i hi]
  · rw [hc]
    have hB : (0x59 :: ((ccmp_aad_nonce hdr data).nonce
        ++ [(data.length - 16) % 65536 / 256, (data.length - 16) % 65536 % 256]))
        = mac_block0 (ccmp_aad_nonce hdr data).nonce (data.length - 16) := by
      rw [mac_block0, WPA_PUT_BE16_mod]
    rw [hB]
    exact calls_getElem_after _ _ _ _ _ _ (by rw [List.length_map, List.length_range])
  · rw [hA0]
    exact hcall 0 (Nat.zero_le _)
  · rw [hcall 65536 hblocks, ctr_block_wrap]
    exact (hcall 0 (Nat.zero_le _)).symm
  · intro j hj
    rw [a_buffer_eq _ hN, hA, hout j hj]
  · intro j h1 h2 h3
    rw [a_buffer_eq _ hN, hA0, hout j h3, hwrap j h1 h2]
  · intro p hp j h1 h2 h3
    rw [decrypt_plain_ctr env tk hdr data aes hinit p hp, hA0, hout j h3, hwrap j h1 h2]

theorem frame_long_length : frame_long.length = 16 + 65536 * 16 := by
  rw [frame_long, List.length_replicate]

/-- C19 at a frame of zero bytes whose payload has 65536 blocks: the call for payload
block 1 is on counter 1, the call for payload block 65536 is the call on `A_0` again. -/
theorem C19_counter_wraps_witness :
    16 ≤ frame_long.length ∧ toy_env.os_malloc frame_long.length = true ∧
    toy_env.aes_encrypt_init tk0 16 = some tk0 ∧ CipherOK (toy_env.aes_encrypt tk0) ∧
    IsBytes frame_long ∧ 65536 ≤ (frame_long.length - 16 + 15) / 16 ∧
    (ccmp_decrypt toy_env tk0 hdr0 frame_long).aes_calls[1 + 1]?
      = some (AesCall.encrypt (0x01 :: ((ccmp_aad_nonce hdr0 frame_long).nonce
          ++ [1 % 65536 / 256, 1 % 65536 % 256]))) ∧
    (ccmp_decrypt toy_env tk0 hdr0 frame_long).aes_calls[1 + 65536]?
      = (ccmp_decrypt toy_env tk0 hdr0 frame_long).aes_calls[1]? :=
  ⟨by have h := frame_long_length; omega, rfl, rfl, toy_cipher_ok tk0, isBytes_replicate_zero _,
    by have h := frame_long_length; omega,
    (C19_counter_wraps toy_env tk0 hdr0 frame_long tk0 (by have h := frame_long_length; omega)
      rfl rfl (toy_cipher_ok tk0) (isBytes_replicate_zero _)
      (by have h := frame_long_length; omega)).1 1 (by have h := frame_long_length; omega),
    (C19_counter_wraps toy_env tk0 hdr0 frame_long tk0 (by have h := frame_long_length; omega)
      rfl rfl (toy_cipher_ok tk0) (isBytes_replicate_zero _)
      (by have h := frame_long_length; omega)).2.2.2.1⟩

theorem stype_qos_bit (x : Nat) : WLAN_FC_GET_STYPE x &&& 0x08 = (x &&& 0x0080) >>> 4 := by
  unfold WLAN_FC_GET_STYPE
  apply Nat.eq_of_testBit_eq
  intro i
  simp only [Nat.testBit_and, Nat.testBit_shiftRight]
  have h1 : Nat.testBit 8 i = Nat.testBit 128 (4 + i) := by
    have e : (8 : Nat) = 128 >>> 4 := by decide
    rw [e, Nat.testBit_shiftRight]
  have h2 : Nat.testBit 8 i = true → Nat.testBit 240 (4 + i) = true := by
    intro h
    have e : (8 : Nat) = (240 &&& 128) >>> 4 := by decide
    rw [e, Nat.testBit_shiftRight, Nat.testBit_and] at h
    simp at h
    exact h.1
  rw [← h1]
  cases hb : Nat.testBit 8 i
  · simp
  · simp [h2 hb]

theorem and_ffff (x : Nat) : x % 65536 &&& 0xffff = x % 65536 := by
  have e : (0xffff : Nat) = 2 ^ 16 - 1 := by decide
  rw [e, Nat.and_pow_two_sub_one_eq_mod]
  exact Nat.mod_mod _ _

theorem aadNonce_ext (x y : AadNonce) (h1 : x.aad = y.aad) (h2 : x.aad_len = y.aad_len)
    (h3 : x.nonce = y.nonce) : x = y := by
  cases x
  cases y
  simp_all

/-- what `ccmp_aad_nonce` reads of the header: two headers that agree on it give the same
AAD, AAD length and nonce -/
theorem aad_nonce_of_fields (h1 h2 : ieee80211_hdr) (d : List Nat)
    (ha1 : h2.addr1 = h1.addr1) (ha2 : h2.addr2 = h1.addr2) (ha3 : h2.addr3 = h1.addr3)
    (hfc : ccmp_fc h2 = ccmp_fc h1) (hn : (ccmp_fc_qos h2).nonce0 = (ccmp_fc_qos h1).nonce0)
    (h4 : four_addr h2 ↔ four_addr h1) (hq : qos_data h2 ↔ qos_data h1)
    (hseq : (h2.seq_ctrl % 65536) &&& 0x000f = (h1.seq_ctrl % 65536) &&& 0x000f)
    (hb : four_addr h1 → os_memcpy h2.body 6 = os_memcpy h1.body 6) :
    ccmp_aad_nonce h2 d = ccmp_aad_nonce h1 d := by
  obtain ⟨a1, l1, n1⟩ := aad_nonce_closed h1 d
  obtain ⟨a2, l2, n2⟩ := aad_nonce_closed h2 d
  have e4 : (if four_addr h2 then os_memcpy h2.body 6 else [])
      = (if four_addr h1 then os_memcpy h1.body 6 else []) := by
    by_cases h : four_addr h1
    · rw [if_pos h, if_pos (h4.2 h), hb h]
    · rw [if_neg h, if_neg (fun h' => h (h4.1 h'))]
  have e4n : (if four_addr h2 then 6 else 0) = (if four_addr h1 then 6 else 0) := by
    by_cases h : four_addr h1
    · rw [if_pos h, if_pos (h4.2 h)]
    · rw [if_neg h, if_neg (fun h' => h (h4.1 h'))]
  have eq : (if qos_data h2 then [0, 0] else ([] : List Nat))
      = (if qos_data h1 then [0, 0] else []) := by
    by_cases h : qos_data h1
    · rw [if_pos h, if_pos (hq.2 h)]
    · rw [if_neg h, if_neg (fun h' => h (hq.1 h'))]
  have eqn : (if qos_data h2 then 2 else 0) = (if qos_data h1 then 2 else 0) := by
    by_cases h : qos_data h1
    · rw [if_pos h, if_pos (hq.2 h)]
    · rw [if_neg h, if_neg (fun h' => h (hq.1 h'))]
  apply aadNonce_ext
  · rw [a1, a2, hfc, ha1, ha2, ha3, hseq, e4, eq]
  · rw [l1, l2, e4n, eqn]
  · rw [n1, n2, hn, ha2]

/-- the type dispatch of lines 38-50 on two frame-control values that agree outside the
unprotected bits -/
theorem fc_qos_unprotected (hdr : ieee80211_hdr) (fc' seq' : Nat) (body' : List Nat)
    (hfc : (fc' % 65536) &&& not16 (unprotected_fc hdr)
      = (hdr.frame_control % 65536) &&& not16 (unprotected_fc hdr))
    (hbody : if qos_data hdr then
        (∀ k, k ≠ qos_offset hdr → k ≠ qos_offset hdr + 1 → body'.getD k 0 = hdr.body.getD k 0) ∧
        body'.getD (qos_offset hdr) 0 &&& 0x0f = hdr.body.getD (qos_offset hdr) 0 &&& 0x0f
      else body' = hdr.body) :
    (fc' % 65536) &&& 0x0300 = (hdr.frame_control % 65536) &&& 0x0300 ∧
    (fc' % 65536) &&& 0x000c = (hdr.frame_control % 65536) &&& 0x000c ∧
    (fc' % 65536) &&& 0x0080 = (hdr.frame_control % 65536) &&& 0x0080 ∧
    ccmp_fc_qos { hdr with frame_control := fc', seq_ctrl := seq', body := body' }
      = ccmp_fc_qos hdr := by
  have hmask : (fc' % 65536) &&& 0x7f8f = (hdr.frame_control % 65536) &&& 0x7f8f := by
    unfold unprotected_fc at hfc
    by_cases hq : qos_data hdr
    · rw [if_pos hq] at hfc
      exact hfc
    · rw [if_neg hq] at hfc
      by_cases hd : data_frame hdr
      · rw [if_pos hd] at hfc
        exact and_mask_congr _ _ _ 0x7f8f hfc (by decide)
      · rw [if_neg hd] at hfc
        have e : not16 0 = 0xffff := by decide
        rw [e, and_ffff, and_ffff] at hfc
        rw [hfc]
  have h3 := and_mask_congr _ _ _ 0x0300 hmask (by decide)
  have hc := and_mask_congr _ _ _ 0x000c hmask (by decide)
  have h8 := and_mask_congr _ _ _ 0x0080 hmask (by decide)
  refine ⟨h3, hc, h8, ?_⟩
  have hty : WLAN_FC_GET_TYPE (fc' % 65536) = WLAN_FC_GET_TYPE (hdr.frame_control % 65536) := by
    unfold WLAN_FC_GET_TYPE
    rw [hc]
  have hst : WLAN_FC_GET_STYPE (fc' % 65536) &&& 0x08
      = WLAN_FC_GET_STYPE (hdr.frame_control % 65536) &&& 0x08 := by
    rw [stype_qos_bit, stype_qos_bit, h8]
  have h3' : (fc' % 65536) &&& (WLAN_FC_TODS ||| WLAN_FC_FROMDS)
      = (hdr.frame_control % 65536) &&& (WLAN_FC_TODS ||| WLAN_FC_FROMDS) := h3
  unfold ccmp_fc_qos
  simp only [hty, hst, h3']
  by_cases hd : WLAN_FC_GET_TYPE (hdr.frame_control % 65536) = WLAN_FC_TYPE_DATA
  · by_cases hs : WLAN_FC_GET_STYPE (hdr.frame_control % 65536) &&& 0x08 ≠ 0
    · have hq : qos_data hdr := ⟨hd, hs⟩
      rw [if_pos hd, if_pos hd, if_pos hs, if_pos hs]
      rw [if_pos hq] at hbody
      have e1 : ((fc' % 65536) &&& not16 0x0070) &&& not16 WLAN_FC_ORDER
          = ((hdr.frame_control % 65536) &&& not16 0x0070) &&& not16 WLAN_FC_ORDER := by
        have e : not16 0x0070 &&& not16 WLAN_FC_ORDER = 0x7f8f := by decide
        rw [Nat.and_assoc, Nat.and_assoc, e, hmask]
      have e2 : (if (if (hdr.frame_control % 65536) &&& (WLAN_FC_TODS ||| WLAN_FC_FROMDS)
              = (WLAN_FC_TODS ||| WLAN_FC_FROMDS) then 1 else 0) = 1
            then body'.drop ETH_ALEN else body').getD 0 0 &&& 0x0f
          = (if (if (hdr.frame_control % 65536) &&& (WLAN_FC_TODS ||| WLAN_FC_FROMDS)
              = (WLAN_FC_TODS ||| WLAN_FC_FROMDS) then 1 else 0) = 1
            then hdr.body.drop ETH_ALEN else hdr.body).getD 0 0 &&& 0x0f := by
        have hb := hbody.2
        unfold qos_offset four_addr at hb
        by_cases h4 : (hdr.frame_control % 65536) &&& (WLAN_FC_TODS ||| WLAN_FC_FROMDS)
            = (WLAN_FC_TODS ||| WLAN_FC_FROMDS)
        · rw [if_pos h4] at hb
          rw [if_pos h4, if_pos rfl, if_pos rfl, getD_drop, getD_drop]
          exact hb
        · rw [if_neg h4] at hb
          rw [if_neg h4, if_neg (by decide), if_neg (by decide)]
          exact hb
      rw [e1, e2]
    · have hq : ¬ qos_data hdr := fun h => hs h.2
      have hdf : data_frame hdr := hd
      rw [if_pos hd, if_pos hd, if_neg hs, if_neg hs]
      unfold unprotected_fc at hfc
      rw [if_neg hq, if_pos hdf] at hfc
      rw [hfc]
  · have hq : ¬ qos_data hdr := fun h => hd h.1
    have hdf : ¬ data_frame hdr := hd
    unfold unprotected_fc at hfc
    rw [if_neg hq, if_neg hdf] at hfc
    have e : not16 0 = 0xffff := by decide
    rw [e, and_ffff, and_ffff] at hfc
    rw [if_neg hd, if_neg hd, hfc]

/-- two headers that differ only in unprotected bits give the same AAD, AAD length and
nonce -/
theorem aad_nonce_unprotected (hdr : ieee80211_hdr) (fc' seq' : Nat) (body' : List Nat)
    (hseq : (seq' % 65536) &&& 0x000f = (hdr.seq_ctrl % 65536) &&& 0x000f)
    (hfc : (fc' % 65536) &&& not16 (unprotected_fc hdr)
      = (hdr.frame_control % 65536) &&& not16 (unprotected_fc hdr))
    (hbody : if qos_data hdr then
        (∀ k, k ≠ qos_offset hdr → k ≠ qos_offset hdr + 1 → body'.getD k 0 = hdr.body.getD k 0) ∧
        body'.getD (qos_offset hdr) 0 &&& 0x0f = hdr.body.getD (qos_offset hdr) 0 &&& 0x0f
      else body' = hdr.body)
    (d : List Nat) :
    ccmp_aad_nonce { hdr with frame_control := fc', seq_ctrl := seq', body := body' } d
      = ccmp_aad_nonce hdr d := by
  obtain ⟨h3, hc, h8, heq⟩ := fc_qos_unprotected hdr fc' seq' body' hfc hbody
  have h4 : four_addr { hdr with frame_control := fc', seq_ctrl := seq', body := body' }
      ↔ four_addr hdr := by
    unfold four_addr
    have e : (WLAN_FC_TODS ||| WLAN_FC_FROMDS) = 0x0300 := by decide
    simp only [e, h3]
  have hq : qos_data { hdr with frame_control := fc', seq_ctrl := seq', body := body' }
      ↔ qos_data hdr := by
    unfold qos_data data_frame WLAN_FC_GET_TYPE
    simp only [stype_qos_bit, hc, h8]
  refine aad_nonce_of_fields hdr _ d rfl rfl rfl ?_ ?_ h4 hq hseq ?_
  rotate_left 2
  · intro hfour
    by_cases hqd : qos_data hdr
    · rw [if_pos hqd] at hbody
      have ho : qos_offset hdr = 6 := by
        unfold qos_offset
        rw [if_pos hfour]
        rfl
      rw [ho] at hbody
      unfold os_memcpy
      apply List.map_congr_left
      intro k hk
      rw [List.mem_range] at hk
      exact hbody.1 k (by omega) (by omega)
    · rw [if_neg hqd] at hbody
      simp only [hbody]
  · unfold ccmp_fc
    rw [heq]
  · rw [heq]

/-- C18 (unprotected header bits): two headers that differ only in the 12-bit sequence
number (bits 4-15 of sequence-control), in subtype bits 4-6 of frame-control of a data
frame, in the order bit of a QoS data frame, or in bits of the QoS-control field of a QoS
data frame other than the low nibble of its first byte, give the same AAD, AAD length and
nonce for every CCMP header, and `ccmp_decrypt` gives the same result for both on the same
key and frame, in every environment. -/
theorem C18_unprotected_header_bits (hdr : ieee80211_hdr) (fc' seq' : Nat) (body' : List Nat)
    (hseq : (seq' % 65536) &&& 0x000f = (hdr.seq_ctrl % 65536) &&& 0x000f)
    (hfc : (fc' % 65536) &&& not16 (unprotected_fc hdr)
      = (hdr.frame_control % 65536) &&& not16 (unprotected_fc hdr))
    (hbody : if qos_data hdr then
        (∀ k, k ≠ qos_offset hdr → k ≠ qos_offset hdr + 1 → body'.getD k 0 = hdr.body.getD k 0) ∧
        body'.getD (qos_offset hdr) 0 &&& 0x0f = hdr.body.getD (qos_offset hdr) 0 &&& 0x0f
      else body' = hdr.body) :
    (∀ d : List Nat,
      (ccmp_aad_nonce { hdr with frame_control := fc', seq_ctrl := seq', body := body' } d).aad
        = (ccmp_aad_nonce hdr d).aad ∧
      (ccmp_aad_nonce { hdr with frame_control := fc', seq_ctrl := seq', body := body' } d).aad_len
        = (ccmp_aad_nonce hdr d).aad_len ∧
      (ccmp_aad_nonce { hdr with frame_control := fc', seq_ctrl := seq', body := body' } d).nonce
        = (ccmp_aad_nonce hdr d).nonce) ∧
    (∀ (κ : Type) (env : Env κ) (tk data : List Nat),
      ccmp_decrypt env tk { hdr with frame_control := fc', seq_ctrl := seq', body := body' } data
        = ccmp_decrypt env tk hdr data) := by
  have key := aad_nonce_unprotected hdr fc' seq' body' hseq hfc hbody
  constructor
  · intro d
    rw [key d]
    exact ⟨rfl, rfl, rfl⟩
  · intro κ env tk data
    unfold ccmp_decrypt
    simp only [key]

theorem hdr0_qos_offset : qos_offset hdr0 = 0 := by decide

/-- C18 at the QoS data header `hdr0` and the same header with sequence number 0xfff,
subtype bits 4-6 and the order bit set, and QoS-control bytes 0xf5, 0xff for 0x05, 0x00:
the frame `frame0` is accepted under both. -/
theorem C18_unprotected_header_bits_witness :
    ((0xfff0 % 65536) &&& 0x000f = (hdr0.seq_ctrl % 65536) &&& 0x000f) ∧
    ((0xc1f8 % 65536) &&& not16 (unprotected_fc hdr0)
      = (hdr0.frame_control % 65536) &&& not16 (unprotected_fc hdr0)) ∧
    qos_data hdr0 ∧
    (ccmp_aad_nonce hdr0_unprot ccmp_hdr0).aad = (ccmp_aad_nonce hdr0 ccmp_hdr0).aad ∧
    (ccmp_aad_nonce hdr0_unprot ccmp_hdr0).aad_len = (ccmp_aad_nonce hdr0 ccmp_hdr0).aad_len ∧
    (ccmp_aad_nonce hdr0_unprot ccmp_hdr0).nonce = (ccmp_aad_nonce hdr0 ccmp_hdr0).nonce ∧
    ccmp_decrypt toy_env tk0 hdr0_unprot frame0 = ccmp_decrypt toy_env tk0 hdr0 frame0 ∧
    (ccmp_decrypt toy_env tk0 hdr0_unprot frame0).plain = some msg0 :=
  have hb : if qos_data hdr0 then
        (∀ k, k ≠ qos_offset hdr0 → k ≠ qos_offset hdr0 + 1 →
          [0xf5, 0xff].getD k 0 = hdr0.body.getD k 0) ∧
        [0xf5, 0xff].getD (qos_offset hdr0) 0 &&& 0x0f
          = hdr0.body.getD (qos_offset hdr0) 0 &&& 0x0f
      else [0xf5, 0xff] = hdr0.body := by
    rw [if_pos (by decide), hdr0_qos_offset]
    refine ⟨?_, by decide⟩
    intro k h0 h1
    match k, h0, h1 with
    | 0, h0, _ => exact absurd rfl h0
    | 1, _, h1 => exact absurd rfl h1
    | (n + 2), _, _ => rfl
  ⟨by decide, by decide, by decide,
    ((C18_unprotected_header_bits hdr0 0xc1f8 0xfff0 [0xf5, 0xff] (by decide) (by decide) hb).1
      ccmp_hdr0).1,
    ((C18_unprotected_header_bits hdr0 0xc1f8 0xfff0 [0xf5, 0xff] (by decide) (by decide) hb).1
      ccmp_hdr0).2.1,
    ((C18_unprotected_header_bits hdr0 0xc1f8 0xfff0 [0xf5, 0xff] (by decide) (by decide) hb).1
      ccmp_hdr0).2.2,
    (C18_unprotected_header_bits hdr0 0xc1f8 0xfff0 [0xf5, 0xff] (by decide) (by decide) hb).2 _
      toy_env tk0 frame0,
    by decide⟩

end Ccmp
